import Mathlib

/-!
# Operational analysis of a Redis snapshot summary (`dump/ops_analyzer.go`)

A shallow embedding of the analysis engine of package `dump`: the detectors, the
health score and the recommendation engine of `OpsAnalyzer`, with the health label
of `ops_api.go` and the in-memory history of `history.go`, followed by theorems
about them.

Conventions of the embedding.

* `uint64` values are natural numbers; an addition that can wrap is written
  `% 2 ^ 64`.
* `float64` values are modelled by `F64`: NaN, the two infinities, or a finite
  rational.  Every arithmetic operation computes the exact rational result and
  rounds it to the nearest binary64 value, ties to even (`F64.round`), each
  operation rounded on its own.  The sign of zero is not represented; no divisor
  of the source can be a negative zero.
* A Go `string` holding data of the snapshot (keys, prefixes, type names) is a
  list of bytes.  String literals of the source that are only stored or compared
  are Lean strings.  A string built by `fmt.Sprintf` is kept as the sequence of
  its literal segments and verb arguments (`Text`), so the rendering done by
  package `fmt` is not interpreted.
* A Go map is a list of key/value pairs.  The order in which a `range` loop
  visits a map and the way `sort.Slice` orders elements that compare equal are
  choices of the Go runtime: they are the fields of `Runtime`.
* The time stamps `DetectedAt` and `CreatedAt` are left out.
* A run-time panic is the result `none`.
-/

namespace Dump

/-! ## Strings and formatted text -/

/-- A Go string holding snapshot data: a sequence of bytes. -/
abbrev GoString := List UInt8

/-- The bytes of an ASCII string literal of the source. -/
def goStr (s : String) : GoString := s.toList.map (fun c => c.toNat.toUInt8)

/-! ## float64 -/

/-- A `float64` value. -/
inductive F64 where
  | nan
  | inf (neg : Bool)
  | fin (q : ℚ)
deriving DecidableEq

/-- Nearest integer to `x`, ties to the even one. -/
def roundHalfEven (x : ℚ) : ℤ :=
  if x - ⌊x⌋ < 1 / 2 then ⌊x⌋
  else if 1 / 2 < x - ⌊x⌋ then ⌊x⌋ + 1
  else if ⌊x⌋ % 2 = 0 then ⌊x⌋ else ⌊x⌋ + 1

/-- Exponent of the unit in the last place of the binary64 format at magnitude
`q`: 53 significant bits, smallest normal exponent `-1022`. -/
def ulpExp (q : ℚ) : ℤ := max (Int.log 2 q) (-1022) - 52

/-- Round a non-negative rational to the binary64 grid (exponent unbounded above). -/
def roundMag (q : ℚ) : ℚ := roundHalfEven (q / 2 ^ ulpExp q) * 2 ^ ulpExp q

/-- Round a rational to the binary64 grid, sign and magnitude. -/
def roundQ (q : ℚ) : ℚ := if q < 0 then -roundMag (-q) else roundMag q

/-- Round to nearest binary64 value, ties to even; overflow gives an infinity. -/
def F64.round (q : ℚ) : F64 :=
  if 2 ^ 1024 ≤ |roundQ q| then F64.inf (decide (q < 0)) else F64.fin (roundQ q)

/-- The conversion `float64(n)` of an unsigned integer, and an integer constant
used as a `float64`. -/
def F64.ofNat (n : Nat) : F64 := F64.round n

/-- Unary minus. -/
def F64.neg : F64 → F64
  | F64.nan => F64.nan
  | F64.inf s => F64.inf (!s)
  | F64.fin q => F64.fin (-q)

/-- Addition `x + y`. -/
def F64.add : F64 → F64 → F64
  | F64.nan, _ => F64.nan
  | _, F64.nan => F64.nan
  | F64.inf s, F64.inf t => if s = t then F64.inf s else F64.nan
  | F64.inf s, F64.fin _ => F64.inf s
  | F64.fin _, F64.inf t => F64.inf t
  | F64.fin a, F64.fin b => F64.round (a + b)

/-- Subtraction `x - y`. -/
def F64.sub (x y : F64) : F64 := F64.add x (F64.neg y)

/-- Multiplication `x * y`. -/
def F64.mul : F64 → F64 → F64
  | F64.nan, _ => F64.nan
  | _, F64.nan => F64.nan
  | F64.inf s, F64.inf t => F64.inf (s != t)
  | F64.inf s, F64.fin b => if b = 0 then F64.nan else F64.inf (s != decide (b < 0))
  | F64.fin a, F64.inf t => if a = 0 then F64.nan else F64.inf (decide (a < 0) != t)
  | F64.fin a, F64.fin b => F64.round (a * b)

/-- Division `x / y`; a finite value divided by zero is NaN when it is zero and an
infinity otherwise. -/
def F64.div : F64 → F64 → F64
  | F64.nan, _ => F64.nan
  | _, F64.nan => F64.nan
  | F64.inf _, F64.inf _ => F64.nan
  | F64.inf s, F64.fin b => F64.inf (s != decide (b < 0))
  | F64.fin _, F64.inf _ => F64.fin 0
  | F64.fin a, F64.fin b =>
    if b = 0 then (if a = 0 then F64.nan else F64.inf (decide (a < 0)))
    else F64.round (a / b)

/-- The comparison `x < y`; false when an operand is NaN. -/
def F64.lt : F64 → F64 → Bool
  | F64.nan, _ => false
  | _, F64.nan => false
  | F64.inf s, F64.inf t => s && !t
  | F64.inf s, F64.fin _ => s
  | F64.fin _, F64.inf t => !t
  | F64.fin a, F64.fin b => decide (a < b)

/-- The comparison `x > y`. -/
def F64.gt (x y : F64) : Bool := F64.lt y x

/-- The function `math.Max`. -/
def F64.max (x y : F64) : F64 :=
  if x = F64.inf false ∨ y = F64.inf false then F64.inf false
  else if x = F64.nan ∨ y = F64.nan then F64.nan
  else if F64.lt x y then y else x

/-- Square root of a positive rational rounded to the binary64 grid: with
`E = ⌊log₂ q / 2⌋` the root lies in `[2^E, 2^(E+1))`, so its significand is the
rounded square root of `t = q / 4^(E-52)`. -/
def sqrtQ (q : ℚ) : ℚ :=
  let ex : ℤ := Int.log 2 q / 2 - 52
  let t : ℚ := q / 4 ^ ex
  let s : ℤ := Nat.sqrt ⌊t⌋₊
  let half : ℚ := (s + 1 / 2) * (s + 1 / 2)
  let m : ℤ := if t < half then s else if half < t then s + 1
    else if s % 2 = 0 then s else s + 1
  m * 2 ^ ex

/-- The function `math.Sqrt`. -/
def F64.sqrt : F64 → F64
  | F64.nan => F64.nan
  | F64.inf s => if s then F64.nan else F64.inf false
  | F64.fin q => if q < 0 then F64.nan else if q = 0 then F64.fin 0 else F64.fin (sqrtQ q)

/-- The conversion `int(x)`: the fraction is discarded.  The result is `none`
where the language leaves it unspecified (NaN, infinities, values outside
`int`). -/
def F64.toInt : F64 → Option Int
  | F64.nan => none
  | F64.inf _ => none
  | F64.fin q =>
    let z : ℤ := if 0 ≤ q then ⌊q⌋ else ⌈q⌉
    if -2 ^ 63 ≤ z ∧ z < 2 ^ 63 then some z else none

/-! ## Formatted text -/

/-- One segment of a string built by `fmt.Sprintf`. -/
inductive Piece where
  | lit (s : String)
  | str (s : GoString)
  | int (n : Int)
  | f1 (x : F64)
  | chr (c : Char)
deriving DecidableEq

/-- A string built by `fmt.Sprintf`: literal text (`lit`) and the arguments of the
verbs `%s` (`str`), `%d` (`int`), `%.1f` (`f1`) and `%c` (`chr`), in order. -/
abbrev Text := List Piece

/-! ## The snapshot summary -/

/-- One of the largest entries of the snapshot (field `Type_` is the field `Type` of
the source). -/
structure Entry where
  Key : GoString
  Type_ : GoString
  Bytes : Nat
  NumOfElem : Nat
deriving DecidableEq

/-- A group of keys sharing a prefix. -/
structure PrefixEntry where
  Key : GoString
  Bytes : Nat
  Num : Nat
deriving DecidableEq

/-- Modelled from the spec: type `Counter` and its methods `GetLargestEntries` and
`GetLargestKeyPrefixes` are declared in a file that is not at hand.  The summary
holds the per-type and per-slot totals (Go maps), the ranked list of the largest
entries and the ranked list of the largest prefix groups. -/
structure Counter where
  typeNum : List (GoString × Nat)
  typeBytes : List (GoString × Nat)
  slotNum : List (Int × Nat)
  slotBytes : List (Int × Nat)
  largestEntries : List Entry
  largestKeyPrefixes : List PrefixEntry

/-- Modelled from the spec: `largestEntries(n)` is the ranked sequence of entries
cut to length at most `n`. -/
def Counter.GetLargestEntries (c : Counter) (n : Nat) : List Entry :=
  c.largestEntries.take n

/-- Modelled from the spec: `largestPrefixGroups()` is the ranked sequence of
prefix groups. -/
def Counter.GetLargestKeyPrefixes (c : Counter) : List PrefixEntry :=
  c.largestKeyPrefixes

/-- Every number of the summary is a `uint64`. -/
def Counter.WF (c : Counter) : Prop :=
  (∀ p ∈ c.typeNum, p.2 < 2 ^ 64) ∧ (∀ p ∈ c.typeBytes, p.2 < 2 ^ 64) ∧
  (∀ p ∈ c.slotNum, p.2 < 2 ^ 64) ∧ (∀ p ∈ c.slotBytes, p.2 < 2 ^ 64) ∧
  (∀ e ∈ c.largestEntries, e.Bytes < 2 ^ 64 ∧ e.NumOfElem < 2 ^ 64) ∧
  (∀ p ∈ c.largestKeyPrefixes, p.Bytes < 2 ^ 64 ∧ p.Num < 2 ^ 64)

/-- The map read `m[k]`: the zero value when the key is absent. -/
def mapGet {κ : Type} [DecidableEq κ] (m : List (κ × Nat)) (k : κ) : Nat :=
  match m.find? (fun p => decide (p.1 = k)) with
  | some p => p.2
  | none => 0

/-- The map write `m[k] = v`. -/
def mapSet {κ ν : Type} [DecidableEq κ] (m : List (κ × ν)) (k : κ) (v : ν) : List (κ × ν) :=
  if m.any (fun p => decide (p.1 = k)) then m.map (fun p => if p.1 = k then (k, v) else p)
  else m ++ [(k, v)]

/-! ## The Go runtime -/

/-- The requirement of package `sort` on a `less` function. -/
def StrictWeakOrder {α : Type} (less : α → α → Bool) : Prop :=
  (∀ a, less a a = false) ∧
  (∀ a b c, less a b = true → less b c = true → less a c = true) ∧
  (∀ a b c, less a b = false → less b c = false → less a c = false)

/-- The choices the language leaves to the runtime: how `sort.Slice` arranges a
slice (it returns the elements ordered by `less`, with no promise on elements that
compare equal) and in which order a `range` loop visits the entries of a map. -/
structure Runtime where
  sortSlice : {α : Type} → (α → α → Bool) → List α → List α
  mapRange : {κ ν : Type} → List (κ × ν) → List (κ × ν)
  sortSlice_perm : ∀ {α : Type} (less : α → α → Bool) (l : List α),
    List.Perm (sortSlice less l) l
  sortSlice_sorted : ∀ {α : Type} (less : α → α → Bool) (l : List α),
    StrictWeakOrder less → List.Pairwise (fun a b => less b a = false) (sortSlice less l)
  mapRange_perm : ∀ {κ ν : Type} (m : List (κ × ν)), List.Perm (mapRange m) m

/-- Insert `x` into a sorted run held in reverse: `x` moves towards the front of the
slice while it is less than its left neighbour. -/
def insertBack {α : Type} (less : α → α → Bool) (x : α) : List α → List α
  | [] => [x]
  | y :: ys => if less x y then y :: insertBack less x ys else x :: y :: ys

/-- Insertion sort, the algorithm of package `sort` for a slice of at most 12
elements. -/
def insertionSort {α : Type} (less : α → α → Bool) (l : List α) : List α :=
  (l.foldl (fun acc x => insertBack less x acc) []).reverse

/-! ## The report (types of `ops_analyzer.go`) -/

/-- A detected issue. -/
structure Anomaly where
  Level : String
  Category : String
  Title : String
  Description : Text
  Impact : String
  Suggestion : String
  Value : Text
deriving DecidableEq

/-- A memory concentration (field `Type_` is the field `Type` of the source). -/
structure MemoryHotspot where
  Type_ : String
  Identifier : GoString
  MemoryUsed : Nat
  KeyCount : Nat
  Percentage : F64
  AvgKeySize : Nat
deriving DecidableEq

/-- A key naming pattern. -/
structure KeyPattern where
  Pattern : GoString
  Count : Nat
  TotalMemory : Nat
  AvgMemory : Nat
  Percentage : F64
  Example : GoString
deriving DecidableEq

/-- Size statistics of one data type. -/
structure TypeEfficiency where
  AvgSize : Nat
  MedianSize : Nat
  P95Size : Nat
  P99Size : Nat
  Efficiency : F64
  WastedMemory : Nat
  OptimalType : GoString
deriving DecidableEq

/-- Memory of one cluster slot. -/
structure SlotUsage where
  Slot : Int
  KeyCount : Nat
  MemoryUsed : Nat
  Percentage : F64
deriving DecidableEq

/-- A piece of advice. -/
structure Recommendation where
  Priority : Int
  Category : String
  Title : String
  Description : Text
  Action : String
  Impact : String
  Effort : String
deriving DecidableEq

/-- The analyzer state.  The fields of the source that no function writes
(`avgValueSize`, the TTL counters, `expiryDistribution`, `fragmentationScore`) are
left out. -/
structure OpsAnalyzer where
  counter : Counter
  totalKeys : Nat
  totalBytes : Nat
  avgKeySize : F64
  anomalies : List Anomaly
  memoryHotspots : List MemoryHotspot
  keyPatterns : List KeyPattern
  typeEfficiency : List (GoString × TypeEfficiency)
  slotImbalance : F64
  topSlotsUsage : List SlotUsage
  healthScore : Int
  recommendations : List Recommendation

/-! ## Helper functions -/

/-- The loop of `formatBytes`: `for n := bytes / unit; n >= unit; n /= unit`. -/
def formatBytesLoop (n div exp : Nat) : Nat × Nat :=
  if 1024 ≤ n then formatBytesLoop (n / 1024) (div * 1024 % 2 ^ 64) (exp + 1) else (div, exp)
termination_by n
decreasing_by omega

/-- Function `formatBytes`; the index expression `"KMGTPE"[exp]` panics when `exp`
is out of range. -/
def formatBytes (bytes : Nat) : Option Text :=
  if bytes < 1024 then some [Piece.int bytes, Piece.lit " B"]
  else
    let r := formatBytesLoop (bytes / 1024) 1024 0
    match "KMGTPE".toList.get? r.2 with
    | none => none
    | some c =>
      some [Piece.f1 (F64.div (F64.ofNat bytes) (F64.ofNat r.1)), Piece.lit " ", Piece.chr c,
        Piece.lit "B"]

/-- Function `formatNumber`. -/
def formatNumber (num : Nat) : Text :=
  if num < 1000 then [Piece.int num]
  else if num < 1000000 then [Piece.f1 (F64.div (F64.ofNat num) (F64.ofNat 1000)), Piece.lit "K"]
  else if num < 1000000000 then
    [Piece.f1 (F64.div (F64.ofNat num) (F64.ofNat 1000000)), Piece.lit "M"]
  else [Piece.f1 (F64.div (F64.ofNat num) (F64.ofNat 1000000000)), Piece.lit "B"]

/-- Function `truncateKey`. -/
def truncateKey (key : GoString) : GoString :=
  if key.length ≤ 50 then key else key.take 47 ++ goStr "..."

/-! ## The analysis -/

/-- Function `calculateBasicStats`. -/
def calculateBasicStats (R : Runtime) (oa : OpsAnalyzer) : OpsAnalyzer :=
  let totalKeys := (R.mapRange oa.counter.typeNum).foldl
    (fun acc p => (acc + p.2) % 2 ^ 64) oa.totalKeys
  let totalBytes := (R.mapRange oa.counter.typeBytes).foldl
    (fun acc p => (acc + p.2) % 2 ^ 64) oa.totalBytes
  { oa with
    totalKeys := totalKeys
    totalBytes := totalBytes
    avgKeySize :=
      if 0 < totalKeys then F64.div (F64.ofNat totalBytes) (F64.ofNat totalKeys)
      else oa.avgKeySize }

/-- Constant `warningSize` of `detectLargeKeys`. -/
def warningSize : Nat := 10 * 1024 * 1024

/-- Constant `criticalSize` of `detectLargeKeys`. -/
def criticalSize : Nat := 50 * 1024 * 1024

/-- The anomaly of `detectLargeKeys` for one entry of at least `criticalSize`. -/
def largeKeyAnomaly (entry : Entry) (size : Text) : Anomaly :=
  { Level := "critical"
    Category := "memory"
    Title := "Extremely Large Key Detected"
    Description := [Piece.lit "Key '", Piece.str (truncateKey entry.Key), Piece.lit "' is "] ++
      size ++ [Piece.lit ", which is extremely large"]
    Impact := "Can cause blocking operations, memory pressure, and slow replication"
    Suggestion :=
      "Consider splitting this key into smaller chunks or using a different data structure"
    Value := size }

/-- The aggregate anomaly of `detectLargeKeys`. -/
def largeKeysAnomaly (warningCount : Nat) : Anomaly :=
  { Level := "warning"
    Category := "memory"
    Title := "Large Keys Detected"
    Description := [Piece.lit "Found ", Piece.int warningCount, Piece.lit " keys larger than 10MB"]
    Impact := "May cause performance degradation and increased memory fragmentation"
    Suggestion := "Review large keys and consider optimization"
    Value := [Piece.int warningCount, Piece.lit " keys"] }

/-- The loop of `detectLargeKeys` over the entries; the state is the anomaly list,
`criticalCount` and `warningCount`. -/
def detectLargeKeysLoop : List Entry → List Anomaly × Nat × Nat → Option (List Anomaly × Nat × Nat)
  | [], st => some st
  | entry :: rest, (anomalies, criticalCount, warningCount) =>
    if criticalSize ≤ entry.Bytes then
      match formatBytes entry.Bytes with
      | none => none
      | some size =>
        detectLargeKeysLoop rest
          (anomalies ++ [largeKeyAnomaly entry size], criticalCount + 1, warningCount)
    else if warningSize ≤ entry.Bytes then
      detectLargeKeysLoop rest (anomalies, criticalCount, warningCount + 1)
    else detectLargeKeysLoop rest (anomalies, criticalCount, warningCount)

/-- Function `detectLargeKeys`. -/
def detectLargeKeys (oa : OpsAnalyzer) : Option OpsAnalyzer :=
  match detectLargeKeysLoop (oa.counter.GetLargestEntries 100) (oa.anomalies, 0, 0) with
  | none => none
  | some (anomalies, _, warningCount) =>
    some { oa with
      anomalies :=
        if 0 < warningCount then anomalies ++ [largeKeysAnomaly warningCount] else anomalies }

/-- The expression `float64(part) / float64(total) * 100`. -/
def percentOf (part total : Nat) : F64 :=
  F64.mul (F64.div (F64.ofNat part) (F64.ofNat total)) (F64.ofNat 100)

/-- The text of `fmt.Sprintf("%.1f%%", percentage)`. -/
def percentText (percentage : F64) : Text := [Piece.f1 percentage, Piece.lit "%"]

/-- The hotspot recorded by `detectMemoryHotspots` for a prefix group. -/
def prefixHotspot (totalBytes : Nat) (pre : PrefixEntry) : MemoryHotspot :=
  { Type_ := "key_prefix"
    Identifier := pre.Key
    MemoryUsed := pre.Bytes
    KeyCount := pre.Num
    Percentage := percentOf pre.Bytes totalBytes
    AvgKeySize := if 0 < pre.Num then pre.Bytes / pre.Num else 0 }

/-- The anomaly "Memory Hotspot Detected". -/
def prefixHotspotAnomaly (key : GoString) (percentage : F64) : Anomaly :=
  { Level := "warning"
    Category := "memory"
    Title := "Memory Hotspot Detected"
    Description := [Piece.lit "Key prefix '", Piece.str key, Piece.lit "' uses ",
      Piece.f1 percentage, Piece.lit "% of total memory"]
    Impact := "Memory concentration can cause uneven load distribution in cluster mode"
    Suggestion :=
      "Consider reviewing keys with this prefix for optimization or better distribution"
    Value := percentText percentage }

/-- The body of the first loop of `detectMemoryHotspots`, for one prefix group. -/
def prefixHotspotStep (oa : OpsAnalyzer) (pre : PrefixEntry) : OpsAnalyzer :=
  let percentage := percentOf pre.Bytes oa.totalBytes
  { oa with
    memoryHotspots := oa.memoryHotspots ++ [prefixHotspot oa.totalBytes pre]
    anomalies :=
      if F64.gt percentage (F64.ofNat 30) then
        oa.anomalies ++ [prefixHotspotAnomaly pre.Key percentage]
      else oa.anomalies }

/-- The hotspot recorded by `detectMemoryHotspots` for a data type. -/
def typeHotspot (counter : Counter) (totalBytes : Nat) (p : GoString × Nat) : MemoryHotspot :=
  let count := mapGet counter.typeNum p.1
  { Type_ := "data_type"
    Identifier := p.1
    MemoryUsed := p.2
    KeyCount := count
    Percentage := percentOf p.2 totalBytes
    AvgKeySize := if 0 < count then p.2 / count else 0 }

/-- The anomaly "Data Type Dominance". -/
def typeDominanceAnomaly (typ : GoString) (percentage : F64) : Anomaly :=
  { Level := "info"
    Category := "memory"
    Title := "Data Type Dominance"
    Description := [Piece.lit "Type '", Piece.str typ, Piece.lit "' accounts for ",
      Piece.f1 percentage, Piece.lit "% of memory usage"]
    Impact := "Single type dominance might indicate optimization opportunities"
    Suggestion := "Review if this data type usage pattern is optimal for your use case"
    Value := percentText percentage }

/-- The body of the second loop of `detectMemoryHotspots`, for one data type. -/
def typeHotspotStep (oa : OpsAnalyzer) (p : GoString × Nat) : OpsAnalyzer :=
  let percentage := percentOf p.2 oa.totalBytes
  { oa with
    anomalies :=
      if F64.gt percentage (F64.ofNat 50) then
        oa.anomalies ++ [typeDominanceAnomaly p.1 percentage]
      else oa.anomalies
    memoryHotspots := oa.memoryHotspots ++ [typeHotspot oa.counter oa.totalBytes p] }

/-- Function `detectMemoryHotspots`: the first loop stops at index 20. -/
def detectMemoryHotspots (R : Runtime) (oa : OpsAnalyzer) : OpsAnalyzer :=
  let oa1 := (oa.counter.GetLargestKeyPrefixes.take 20).foldl prefixHotspotStep oa
  let oa2 := (R.mapRange oa.counter.typeBytes).foldl typeHotspotStep oa1
  { oa2 with
    memoryHotspots :=
      R.sortSlice (fun a b => decide (b.MemoryUsed < a.MemoryUsed)) oa2.memoryHotspots }

/-- The anomaly "High Key Count". -/
def highKeyCountAnomaly (totalKeys : Nat) : Anomaly :=
  { Level := "warning"
    Category := "keys"
    Title := "High Key Count"
    Description := [Piece.lit "Database contains "] ++ formatNumber totalKeys ++
      [Piece.lit " keys"]
    Impact := "High key count can slow down operations like KEYS, SCAN, and BGSAVE"
    Suggestion := "Consider implementing key expiration policies or data archiving"
    Value := formatNumber totalKeys }

/-- The anomaly "Many Tiny Keys Detected". -/
def tinyKeysAnomaly (tinyKeyCount : Nat) : Anomaly :=
  { Level := "warning"
    Category := "keys"
    Title := "Many Tiny Keys Detected"
    Description :=
      [Piece.lit "Large number of very small keys found, indicating possible key explosion"]
    Impact := "Overhead of key storage can exceed value storage, wasting memory"
    Suggestion := "Consider using Hash data structures to group related small values"
    Value := [Piece.int tinyKeyCount, Piece.lit " tiny keys"] }

/-- Function `detectKeyExplosion`. -/
def detectKeyExplosion (oa : OpsAnalyzer) : OpsAnalyzer :=
  let anomalies1 :=
    if 10000000 < oa.totalKeys then oa.anomalies ++ [highKeyCountAnomaly oa.totalKeys]
    else oa.anomalies
  let largestKeys := oa.counter.GetLargestEntries 500
  let tinyKeyCount := largestKeys.foldl
    (fun n entry => if entry.Bytes < 100 then (n + 1) % 2 ^ 64 else n) 0
  { oa with
    anomalies :=
      if 100 < tinyKeyCount &&
          F64.gt (F64.div (F64.ofNat tinyKeyCount) (F64.ofNat largestKeys.length))
            (F64.round (3 / 10)) then
        anomalies1 ++ [tinyKeysAnomaly tinyKeyCount]
      else anomalies1 }

/-- Constant `hugeCollectionSize` of `detectTypeImbalance`. -/
def hugeCollectionSize : Nat := 1000000

/-- The anomaly "Huge Collection Detected". -/
def hugeCollectionAnomaly (entry : Entry) : Anomaly :=
  { Level := "warning"
    Category := "performance"
    Title := "Huge Collection Detected"
    Description := [Piece.lit "Key '", Piece.str (truncateKey entry.Key), Piece.lit "' (",
      Piece.str entry.Type_, Piece.lit ") contains "] ++ formatNumber entry.NumOfElem ++
      [Piece.lit " elements"]
    Impact := "Operations on huge collections can block Redis and cause latency spikes"
    Suggestion :=
      "Consider splitting into smaller collections or using different access patterns"
    Value := formatNumber entry.NumOfElem }

/-- The body of the loop of `detectTypeImbalance`, for one entry. -/
def typeImbalanceStep (anomalies : List Anomaly) (entry : Entry) : List Anomaly :=
  if hugeCollectionSize < entry.NumOfElem then anomalies ++ [hugeCollectionAnomaly entry]
  else anomalies

/-- Function `detectTypeImbalance`. -/
def detectTypeImbalance (oa : OpsAnalyzer) : OpsAnalyzer :=
  { oa with
    anomalies := (oa.counter.GetLargestEntries 100).foldl typeImbalanceStep oa.anomalies }

/-- The test `len(entry.Key) >= len(prefix.Key) && entry.Key[:len(prefix.Key)] == prefix.Key`. -/
def hasPrefix (key pre : GoString) : Bool :=
  decide (pre.length ≤ key.length) && decide (key.take pre.length = pre)

/-- The body of the loop of `analyzeKeyPatterns`, for one prefix group. -/
def keyPatternStep (oa : OpsAnalyzer) (pre : PrefixEntry) : OpsAnalyzer :=
  let percentage := percentOf pre.Num oa.totalKeys
  let avgMemory := if 0 < pre.Num then pre.Bytes / pre.Num else 0
  let example_ : GoString :=
    match (oa.counter.GetLargestEntries 500).find? (fun entry => hasPrefix entry.Key pre.Key) with
    | some entry => entry.Key
    | none => []
  { oa with
    keyPatterns := oa.keyPatterns ++ [
      { Pattern := pre.Key
        Count := pre.Num
        TotalMemory := pre.Bytes
        AvgMemory := avgMemory
        Percentage := percentage
        Example := example_ }] }

/-- Function `analyzeKeyPatterns`: the loop stops at index 50. -/
def analyzeKeyPatterns (oa : OpsAnalyzer) : OpsAnalyzer :=
  (oa.counter.GetLargestKeyPrefixes.take 50).foldl keyPatternStep oa

/-- The map read `m[k]` for a map of slices: the empty slice when the key is
absent. -/
def mapGetSlice (m : List (GoString × List Nat)) (k : GoString) : List Nat :=
  match m.find? (fun p => decide (p.1 = k)) with
  | some p => p.2
  | none => []

/-- The grouping of `analyzeTypeEfficiency`:
`typeKeys[entry.Type] = append(typeKeys[entry.Type], entry.Bytes)`. -/
def groupByType (entries : List Entry) : List (GoString × List Nat) :=
  entries.foldl (fun m entry => mapSet m entry.Type_ (mapGetSlice m entry.Type_ ++ [entry.Bytes]))
    []

/-- The index expression `sizes[i]` with an `int` index; it panics when the index
is out of range. -/
def sliceIndex (sizes : List Nat) (i : Int) : Option Nat :=
  if 0 ≤ i then sizes.get? i.toNat else none

/-- The anomaly "Inconsistent Key Sizes". -/
def inconsistentSizesAnomaly (typ : GoString) (efficiency : F64) : Anomaly :=
  { Level := "info"
    Category := "performance"
    Title := "Inconsistent Key Sizes"
    Description := [Piece.lit "Type '", Piece.str typ,
      Piece.lit "' shows high size variance (efficiency: ", Piece.f1 efficiency, Piece.lit "%)"]
    Impact := "Inconsistent sizes can indicate suboptimal data structure usage"
    Suggestion := "Review keys of this type for potential optimization"
    Value := [Piece.f1 efficiency, Piece.lit "% efficient"] }

/-- The body of the loop of `analyzeTypeEfficiency`, for one type and its sizes. -/
def typeEfficiencyStep (R : Runtime) (oa : OpsAnalyzer) (p : GoString × List Nat) :
    Option OpsAnalyzer :=
  let typ := p.1
  if p.2.length = 0 then some oa
  else
    let sizes := R.sortSlice (fun a b => decide (a < b)) p.2
    let sum := sizes.foldl (fun acc size => (acc + size) % 2 ^ 64) 0
    let avg := sum / sizes.length
    match sizes.get? (sizes.length / 2),
      (F64.toInt (F64.mul (F64.ofNat sizes.length) (F64.round (95 / 100)))).bind
        (sliceIndex sizes),
      (F64.toInt (F64.mul (F64.ofNat sizes.length) (F64.round (99 / 100)))).bind
        (sliceIndex sizes) with
    | some median, some p95, some p99 =>
      let variance := F64.div
        (sizes.foldl
          (fun acc size =>
            let diff := F64.sub (F64.ofNat size) (F64.ofNat avg)
            F64.add acc (F64.mul diff diff))
          (F64.fin 0))
        (F64.ofNat sizes.length)
      let stddev := F64.sqrt variance
      let efficiency :=
        if 0 < avg then
          F64.max (F64.fin 0)
            (F64.sub (F64.ofNat 100) (F64.mul (F64.div stddev (F64.ofNat avg)) (F64.ofNat 100)))
        else F64.ofNat 100
      some { oa with
        typeEfficiency := mapSet oa.typeEfficiency typ
          { AvgSize := avg
            MedianSize := median
            P95Size := p95
            P99Size := p99
            Efficiency := efficiency
            WastedMemory := 0
            OptimalType := typ }
        anomalies :=
          if F64.lt efficiency (F64.ofNat 50) then
            oa.anomalies ++ [inconsistentSizesAnomaly typ efficiency]
          else oa.anomalies }
    | _, _, _ => none

/-- Function `analyzeTypeEfficiency`. -/
def analyzeTypeEfficiency (R : Runtime) (oa : OpsAnalyzer) : Option OpsAnalyzer :=
  (R.mapRange (groupByType (oa.counter.GetLargestEntries 500))).foldlM (typeEfficiencyStep R) oa

/-- The local type `slotInfo` of `analyzeClusterBalance`. -/
structure slotInfo where
  slot : Int
  bytes : Nat
  keys : Nat
deriving DecidableEq

/-- The first loop of `analyzeClusterBalance`: `totalSlotMemory`, `maxSlotMemory`
and `minSlotMemory`. -/
def slotStats (slots : List (Int × Nat)) : Nat × Nat × Nat :=
  slots.foldl
    (fun st p =>
      ((st.1 + p.2) % 2 ^ 64, (if st.2.1 < p.2 then p.2 else st.2.1),
        (if p.2 < st.2.2 then p.2 else st.2.2)))
    (0, 0, 2 ^ 64 - 1)

/-- The anomaly "Slot Imbalance Detected". -/
def slotImbalanceAnomaly (slotImbalance : F64) : Anomaly :=
  { Level := "warning"
    Category := "cluster"
    Title := "Slot Imbalance Detected"
    Description := [Piece.lit "Cluster slots show ", Piece.f1 slotImbalance,
      Piece.lit "% imbalance"]
    Impact := "Uneven slot distribution can cause hotspots and performance issues"
    Suggestion := "Consider rebalancing slots or reviewing key distribution strategy"
    Value := [Piece.f1 slotImbalance, Piece.lit "% imbalance"] }

/-- Function `analyzeClusterBalance`. -/
def analyzeClusterBalance (R : Runtime) (oa : OpsAnalyzer) : OpsAnalyzer :=
  if oa.counter.slotBytes.length = 0 then oa
  else
    let st := slotStats (R.mapRange oa.counter.slotBytes)
    let avgSlotMemory := st.1 / oa.counter.slotBytes.length
    let slotImbalance :=
      if 0 < avgSlotMemory then
        F64.mul
          (F64.div (F64.sub (F64.ofNat st.2.1) (F64.ofNat st.2.2)) (F64.ofNat avgSlotMemory))
          (F64.ofNat 100)
      else oa.slotImbalance
    let slots : List slotInfo := (R.mapRange oa.counter.slotBytes).map
      (fun p => { slot := p.1, bytes := p.2, keys := mapGet oa.counter.slotNum p.1 })
    let sorted := R.sortSlice (fun a b => decide (b.bytes < a.bytes)) slots
    { oa with
      slotImbalance := slotImbalance
      topSlotsUsage := oa.topSlotsUsage ++ (sorted.take 10).map
        (fun s =>
          { Slot := s.slot
            KeyCount := s.keys
            MemoryUsed := s.bytes
            Percentage := percentOf s.bytes oa.totalBytes })
      anomalies :=
        if F64.gt slotImbalance (F64.ofNat 50) then
          oa.anomalies ++ [slotImbalanceAnomaly slotImbalance]
        else oa.anomalies }

/-- The `switch` of `calculateHealthScore`: the score after one anomaly. -/
def scoreStep (score : Int) (anomaly : Anomaly) : Int :=
  if anomaly.Level = "critical" then score - 15
  else if anomaly.Level = "warning" then score - 8
  else if anomaly.Level = "info" then score - 3
  else score

/-- Function `calculateHealthScore`.  The score is an `int` of 64 bits; a slice of
anomalies has fewer than `2 ^ 56` elements, so the running score stays above
`-2 ^ 60` and the subtraction never wraps. -/
def calculateHealthScore (oa : OpsAnalyzer) : OpsAnalyzer :=
  let score1 := oa.anomalies.foldl scoreStep 100
  let score2 :=
    if 100000000 < oa.totalKeys then score1 - 10
    else if 50000000 < oa.totalKeys then score1 - 5
    else score1
  let score3 :=
    if F64.gt oa.avgKeySize (F64.ofNat (1024 * 1024)) then score2 - 10
    else if F64.gt oa.avgKeySize (F64.ofNat (100 * 1024)) then score2 - 5
    else score2
  { oa with healthScore := if score3 < 0 then 0 else score3 }

/-- The recommendation "Enable Memory Eviction Policy". -/
def evictionRecommendation : Recommendation :=
  { Priority := 2
    Category := "memory"
    Title := "Enable Memory Eviction Policy"
    Description := [Piece.lit "Database is using significant memory (>10GB)"]
    Action := "Configure 'maxmemory' and 'maxmemory-policy' in redis.conf"
    Impact := "Prevents OOM errors and automatic eviction of less important data"
    Effort := "low" }

/-- The recommendation "Implement TTL for Large Keys". -/
def ttlRecommendation : Recommendation :=
  { Priority := 1
    Category := "ttl"
    Title := "Implement TTL for Large Keys"
    Description := [Piece.lit "Many large keys appear to have no expiration set"]
    Action := "Review and set appropriate TTL values for large keys"
    Impact := "Prevents unbounded memory growth and automatic cleanup"
    Effort := "medium" }

/-- The recommendation "Consider Using Hash for Small Strings". -/
def stringRecommendation (efficiency : F64) : Recommendation :=
  { Priority := 3
    Category := "performance"
    Title := "Consider Using Hash for Small Strings"
    Description := [Piece.lit "String type shows low efficiency (", Piece.f1 efficiency,
      Piece.lit "%)"]
    Action := "Group related small string values into Hash structures"
    Impact := "Can reduce memory overhead by 30-50% for small values"
    Effort := "high" }

/-- The recommendation "Enable Redis Slow Log". -/
def monitoringRecommendation : Recommendation :=
  { Priority := 4
    Category := "monitoring"
    Title := "Enable Redis Slow Log"
    Description := [Piece.lit "Track slow commands for performance optimization"]
    Action := "Set 'slowlog-log-slower-than 10000' and 'slowlog-max-len 128'"
    Impact := "Helps identify performance bottlenecks"
    Effort := "low" }

/-- The body of the type loop of `generateRecommendations`. -/
def typeRecommendationStep (recs : List Recommendation) (p : GoString × TypeEfficiency) :
    List Recommendation :=
  if F64.lt p.2.Efficiency (F64.ofNat 60) && decide (p.1 = goStr "string") then
    recs ++ [stringRecommendation p.2.Efficiency]
  else recs

/-- The recommendations of `generateRecommendations` in the order they are appended,
before the final sort. -/
def generatedRecommendations (R : Runtime) (oa : OpsAnalyzer) : List Recommendation :=
  let recs1 :=
    if 10 * 1024 * 1024 * 1024 < oa.totalBytes then oa.recommendations ++ [evictionRecommendation]
    else oa.recommendations
  let keysNeedingTTL : Nat := (oa.counter.GetLargestEntries 100).foldl (fun n _ => n + 1) 0
  let recs2 := if 50 < keysNeedingTTL then recs1 ++ [ttlRecommendation] else recs1
  let recs3 := (R.mapRange oa.typeEfficiency).foldl typeRecommendationStep recs2
  recs3 ++ [monitoringRecommendation]

/-- Function `generateRecommendations`. -/
def generateRecommendations (R : Runtime) (oa : OpsAnalyzer) : OpsAnalyzer :=
  { oa with
    recommendations :=
      R.sortSlice (fun a b => decide (a.Priority < b.Priority)) (generatedRecommendations R oa) }

/-- The calls of `analyze` that come before `generateRecommendations`. -/
def analyzeStats (R : Runtime) (oa : OpsAnalyzer) : Option OpsAnalyzer :=
  (detectLargeKeys (calculateBasicStats R oa)).bind fun oa1 =>
  (analyzeTypeEfficiency R
    (analyzeKeyPatterns (detectTypeImbalance (detectKeyExplosion (detectMemoryHotspots R oa1))))).bind
  fun oa2 => some (calculateHealthScore (analyzeClusterBalance R oa2))

/-- Function `analyze`. -/
def analyze (R : Runtime) (oa : OpsAnalyzer) : Option OpsAnalyzer :=
  (analyzeStats R oa).map (generateRecommendations R)

/-- The struct literal of `NewOpsAnalyzer`. -/
def newState (counter : Counter) : OpsAnalyzer :=
  { counter := counter
    totalKeys := 0
    totalBytes := 0
    avgKeySize := F64.fin 0
    anomalies := []
    memoryHotspots := []
    keyPatterns := []
    typeEfficiency := []
    slotImbalance := F64.fin 0
    topSlotsUsage := []
    healthScore := 0
    recommendations := [] }

/-- Function `NewOpsAnalyzer`. -/
def NewOpsAnalyzer (R : Runtime) (counter : Counter) : Option OpsAnalyzer :=
  analyze R (newState counter)

/-- A runtime: `sort.Slice` is insertion sort and a `range` loop visits a map in the
order of its list of entries. -/
def goRuntime : Runtime where
  sortSlice := fun less l => insertionSort less l
  mapRange := fun m => m
  sortSlice_perm := by
    intro α less l
    have hins : ∀ (x : α) (acc : List α), List.Perm (insertBack less x acc) (x :: acc) := by
      intro x acc
      induction acc with
      | nil => exact List.Perm.refl _
      | cons y ys ih =>
        unfold insertBack
        split
        · exact (List.Perm.cons y ih).trans (List.Perm.swap x y ys)
        · exact List.Perm.refl _
    have hfold : ∀ (l acc : List α),
        List.Perm (l.foldl (fun acc x => insertBack less x acc) acc) (l ++ acc) := by
      intro l
      induction l with
      | nil => intro acc; exact List.Perm.refl _
      | cons x xs ih =>
        intro acc
        simp only [List.foldl_cons]
        refine (ih _).trans ?_
        refine (List.Perm.append_left xs (hins x acc)).trans ?_
        simp
    unfold insertionSort
    exact (List.reverse_perm _).trans (by simpa using hfold l [])
  sortSlice_sorted := by
    intro α less l hswo
    obtain ⟨hirr, htr, hneg⟩ := hswo
    have hmem : ∀ (x : α) (acc : List α) (w : α), w ∈ insertBack less x acc → w = x ∨ w ∈ acc := by
      intro x acc
      induction acc with
      | nil => intro w hw; simpa [insertBack] using hw
      | cons y ys ih =>
        intro w hw
        unfold insertBack at hw
        split at hw
        · rcases List.mem_cons.1 hw with h | h
          · exact Or.inr (List.mem_cons.2 (Or.inl h))
          · rcases ih w h with h1 | h1
            · exact Or.inl h1
            · exact Or.inr (List.mem_cons.2 (Or.inr h1))
        · rcases List.mem_cons.1 hw with h | h
          · exact Or.inl h
          · exact Or.inr h
    have hins : ∀ (x : α) (acc : List α), List.Pairwise (fun a b => less a b = false) acc →
        List.Pairwise (fun a b => less a b = false) (insertBack less x acc) := by
      intro x acc
      induction acc with
      | nil => intro _; simp [insertBack]
      | cons y ys ih =>
        intro hp
        have hy := (List.pairwise_cons.1 hp).1
        have hys := (List.pairwise_cons.1 hp).2
        unfold insertBack
        split
        · rename_i hxy
          refine List.pairwise_cons.2 ⟨?_, ih hys⟩
          intro w hw
          rcases hmem x ys w hw with h | h
          · subst h
            cases hyx : less y w with
            | false => rfl
            | true => have := htr w y w hxy hyx; rw [hirr] at this; cases this
          · exact hy w h
        · rename_i hxy
          have hxy' : less x y = false := by simpa using hxy
          refine List.pairwise_cons.2 ⟨?_, hp⟩
          intro w hw
          rcases List.mem_cons.1 hw with h | h
          · subst h; exact hxy'
          · exact hneg x y w hxy' (hy w h)
    have hfold : ∀ (l acc : List α), List.Pairwise (fun a b => less a b = false) acc →
        List.Pairwise (fun a b => less a b = false)
          (l.foldl (fun acc x => insertBack less x acc) acc) := by
      intro l
      induction l with
      | nil => intro acc h; exact h
      | cons x xs ih => intro acc h; exact ih _ (hins x acc h)
    unfold insertionSort
    exact List.pairwise_reverse.2 (hfold l [] List.Pairwise.nil)
  mapRange_perm := fun m => List.Perm.refl m

/-! ## Definitions used to state the properties -/

/-- The number of anomalies of a level. -/
def countLevel (level : String) (anomalies : List Anomaly) : Nat :=
  anomalies.countP (fun a => decide (a.Level = level))

/-- The deduction for the key count, in the words of the specification: 10 above
100,000,000 keys, else 5 above 50,000,000 keys, else 0. -/
def specKeyPenalty (totalKeys : Nat) : Int :=
  if 100000000 < totalKeys then 10 else if 50000000 < totalKeys then 5 else 0

/-- The deduction for the average key size, in the words of the specification: 10
above 1 MiB, else 5 above 100 KiB, else 0. -/
def specSizePenalty (avgKeySize : F64) : Int :=
  if F64.gt avgKeySize (F64.fin 1048576) then 10
  else if F64.gt avgKeySize (F64.fin 102400) then 5 else 0

/-- The health score in the words of the specification. -/
def specHealthScore (anomalies : List Anomaly) (totalKeys : Nat) (avgKeySize : F64) : Int :=
  max 0 (100 - 15 * (countLevel "critical" anomalies : Int) - 8 * (countLevel "warning" anomalies : Int)
    - 3 * (countLevel "info" anomalies : Int) - specKeyPenalty totalKeys - specSizePenalty avgKeySize)

/-- An entry of at least 50 MiB. -/
def isCritical (entry : Entry) : Bool := decide (52428800 ≤ entry.Bytes)

/-- An entry of at least 10 MiB and less than 50 MiB. -/
def isWarning (entry : Entry) : Bool :=
  decide (10485760 ≤ entry.Bytes) && decide (entry.Bytes < 52428800)

/-- The sum of the values of a map, as a `uint64` accumulator holds it. -/
def totalOf {κ : Type} (m : List (κ × Nat)) : Nat := (m.map Prod.snd).sum % 2 ^ 64

/-- A snapshot with three large entries, two data types, two prefix groups and two
cluster slots. -/
def sampleCounter : Counter :=
  { typeNum := [(goStr "string", 2), (goStr "hash", 1)]
    typeBytes := [(goStr "string", 83886080), (goStr "hash", 100)]
    slotNum := [(0, 2), (1, 1)]
    slotBytes := [(0, 83886080), (1, 100)]
    largestEntries :=
      [ { Key := goStr "big", Type_ := goStr "string", Bytes := 62914560, NumOfElem := 0 },
        { Key := goStr "mid", Type_ := goStr "string", Bytes := 20971520, NumOfElem := 0 },
        { Key := goStr "h", Type_ := goStr "hash", Bytes := 100, NumOfElem := 3 } ]
    largestKeyPrefixes :=
      [ { Key := goStr "b", Bytes := 62914560, Num := 1 },
        { Key := goStr "m", Bytes := 20971520, Num := 1 } ] }

/-- The empty snapshot. -/
def emptyCounter : Counter :=
  { typeNum := []
    typeBytes := []
    slotNum := []
    slotBytes := []
    largestEntries := []
    largestKeyPrefixes := [] }

/-- The snapshot whose only entry is one key of 60 MiB of type "string". -/
def singleKeyCounter (key : GoString) (numOfElem : Nat) : Counter :=
  { typeNum := [(goStr "string", 1)]
    typeBytes := [(goStr "string", 62914560)]
    slotNum := []
    slotBytes := []
    largestEntries :=
      [{ Key := key, Type_ := goStr "string", Bytes := 62914560, NumOfElem := numOfElem }]
    largestKeyPrefixes := [] }

/-- A snapshot of 11,000,000 keys in two data types of equal size, with no sampled
entries, prefix groups or slots. -/
def manyKeysCounter : Counter :=
  { typeNum := [(goStr "string", 6000000), (goStr "hash", 5000000)]
    typeBytes := [(goStr "string", 1000000000), (goStr "hash", 1000000000)]
    slotNum := []
    slotBytes := []
    largestEntries := []
    largestKeyPrefixes := [] }

/-- A snapshot whose prefix group "user:" is reported with more bytes than the data
types hold together. -/
def overPrefixCounter : Counter :=
  { typeNum := [(goStr "string", 2)]
    typeBytes := [(goStr "string", 100)]
    slotNum := []
    slotBytes := []
    largestEntries := []
    largestKeyPrefixes := [{ Key := goStr "user:", Bytes := 200, Num := 2 }] }

/-- A snapshot whose byte totals per type add up to `2 ^ 64 + 2048`. -/
def wrapCounter : Counter :=
  { typeNum := [(goStr "a", 1), (goStr "b", 1)]
    typeBytes := [(goStr "a", 2 ^ 63), (goStr "b", 2 ^ 63 + 2048)]
    slotNum := []
    slotBytes := []
    largestEntries := []
    largestKeyPrefixes := [] }

/-- A snapshot of one key "k" of type "string" whose size is counted as 0 bytes, in
cluster slot 0. -/
def zeroBytesCounter : Counter :=
  { typeNum := [(goStr "string", 1)]
    typeBytes := [(goStr "string", 0)]
    slotNum := [(0, 1)]
    slotBytes := [(0, 0)]
    largestEntries := [{ Key := goStr "k", Type_ := goStr "string", Bytes := 0, NumOfElem := 0 }]
    largestKeyPrefixes := [{ Key := goStr "k", Bytes := 0, Num := 1 }] }

/-- The variable `healthStatus` of `opsHealthHandler` (`ops_api.go`), as a function
of the health score. -/
def healthStatus (healthScore : Int) : String :=
  let s0 := "excellent"
  let s1 := if healthScore < 90 then "good" else s0
  let s2 := if healthScore < 75 then "fair" else s1
  let s3 := if healthScore < 60 then "poor" else s2
  if healthScore < 40 then "critical" else s3

/-- The bytes of a text in UTF-8, the encoding of Go string literals and of textual
keys. -/
def utf8Bytes (s : String) : GoString := s.toUTF8.data.toList

/-- A snapshot of 101 sampled entries: 100 strings of 200 bytes, then a hash of 100
bytes with 2,000,000 elements. -/
def lateHugeCounter : Counter :=
  { typeNum := [(goStr "string", 100), (goStr "hash", 1)]
    typeBytes := [(goStr "string", 20000), (goStr "hash", 100)]
    slotNum := []
    slotBytes := []
    largestEntries :=
      List.replicate 100
        { Key := goStr "s", Type_ := goStr "string", Bytes := 200, NumOfElem := 0 } ++
      [{ Key := goStr "h", Type_ := goStr "hash", Bytes := 100, NumOfElem := 2000000 }]
    largestKeyPrefixes := [] }

/-- The efficiency score that the loop body of `analyzeTypeEfficiency` computes from
the sorted sizes of a type. -/
def efficiencyOf (sizes : List Nat) : F64 :=
  let sum := sizes.foldl (fun acc size => (acc + size) % 2 ^ 64) 0
  let avg := sum / sizes.length
  let variance := F64.div
    (sizes.foldl
      (fun acc size =>
        let diff := F64.sub (F64.ofNat size) (F64.ofNat avg)
        F64.add acc (F64.mul diff diff))
      (F64.fin 0))
    (F64.ofNat sizes.length)
  let stddev := F64.sqrt variance
  if 0 < avg then
    F64.max (F64.fin 0)
      (F64.sub (F64.ofNat 100) (F64.mul (F64.div stddev (F64.ofNat avg)) (F64.ofNat 100)))
  else F64.ofNat 100

/-- The record that the loop body of `analyzeTypeEfficiency` stores for a type, from
the sorted sizes of its keys; a read outside the slice is replaced by 0. -/
def typeStats (typ : GoString) (sizes : List Nat) : TypeEfficiency :=
  { AvgSize := sizes.foldl (fun acc size => (acc + size) % 2 ^ 64) 0 / sizes.length
    MedianSize := (sizes.get? (sizes.length / 2)).getD 0
    P95Size :=
      ((F64.toInt (F64.mul (F64.ofNat sizes.length) (F64.round (95 / 100)))).bind
        (sliceIndex sizes)).getD 0
    P99Size :=
      ((F64.toInt (F64.mul (F64.ofNat sizes.length) (F64.round (99 / 100)))).bind
        (sliceIndex sizes)).getD 0
    Efficiency := efficiencyOf sizes
    WastedMemory := 0
    OptimalType := typ }

/-- The sizes of a type in increasing order. -/
def sortedSizes (sizes : List Nat) : List Nat :=
  insertionSort (fun a b => decide (a < b)) sizes

/-- The anomalies that the loop body of `analyzeTypeEfficiency` appends for a type. -/
def typeAnomalies (p : GoString × List Nat) : List Anomaly :=
  if F64.lt (efficiencyOf (sortedSizes p.2)) (F64.ofNat 50) then
    [inconsistentSizesAnomaly p.1 (efficiencyOf (sortedSizes p.2))]
  else []

/-- The anomalies of `detectLargeKeys`, as a function of the summary: one for each
critical entry among the 100 largest, then the aggregate one (a size that cannot be
formatted is replaced by the empty text). -/
def largeKeyAnomalies (c : Counter) : List Anomaly :=
  ((c.GetLargestEntries 100).filter isCritical).map
      (fun e => largeKeyAnomaly e ((formatBytes e.Bytes).getD [])) ++
    (if 0 < (c.GetLargestEntries 100).countP isWarning then
      [largeKeysAnomaly ((c.GetLargestEntries 100).countP isWarning)]
    else [])

/-- The hotspots of `detectMemoryHotspots` before the sort, for the order `types` in
which the per-type map is visited. -/
def hotspotList (c : Counter) (types : List (GoString × Nat)) : List MemoryHotspot :=
  (c.GetLargestKeyPrefixes.take 20).map (prefixHotspot (totalOf c.typeBytes)) ++
    types.map (typeHotspot c (totalOf c.typeBytes))

/-- The anomalies of `detectMemoryHotspots`, for the order `types` in which the
per-type map is visited. -/
def hotspotAnomalies (c : Counter) (types : List (GoString × Nat)) : List Anomaly :=
  ((c.GetLargestKeyPrefixes.take 20).filter
      (fun pre => F64.gt (percentOf pre.Bytes (totalOf c.typeBytes)) (F64.ofNat 30))).map
      (fun pre => prefixHotspotAnomaly pre.Key (percentOf pre.Bytes (totalOf c.typeBytes))) ++
    (types.filter (fun p => F64.gt (percentOf p.2 (totalOf c.typeBytes)) (F64.ofNat 50))).map
      (fun p => typeDominanceAnomaly p.1 (percentOf p.2 (totalOf c.typeBytes)))

/-- The number of entries below 100 bytes among the 500 largest, as
`detectKeyExplosion` counts them. -/
def tinyKeyCount (c : Counter) : Nat :=
  (c.GetLargestEntries 500).foldl
    (fun n entry => if entry.Bytes < 100 then (n + 1) % 2 ^ 64 else n) 0

/-- The anomalies of `detectKeyExplosion`, as a function of the summary. -/
def keyExplosionAnomalies (c : Counter) : List Anomaly :=
  (if 10000000 < totalOf c.typeNum then [highKeyCountAnomaly (totalOf c.typeNum)] else []) ++
    (if 100 < tinyKeyCount c &&
        F64.gt (F64.div (F64.ofNat (tinyKeyCount c))
          (F64.ofNat (c.GetLargestEntries 500).length)) (F64.round (3 / 10)) then
      [tinyKeysAnomaly (tinyKeyCount c)]
    else [])

/-- The anomalies of `detectTypeImbalance`, as a function of the summary. -/
def hugeCollectionAnomalies (c : Counter) : List Anomaly :=
  ((c.GetLargestEntries 100).filter (fun e => decide (1000000 < e.NumOfElem))).map
    hugeCollectionAnomaly

/-- The key pattern that `analyzeKeyPatterns` records for a prefix group. -/
def keyPatternOf (c : Counter) (pre : PrefixEntry) : KeyPattern :=
  { Pattern := pre.Key
    Count := pre.Num
    TotalMemory := pre.Bytes
    AvgMemory := if 0 < pre.Num then pre.Bytes / pre.Num else 0
    Percentage := percentOf pre.Num (totalOf c.typeNum)
    Example :=
      match (c.GetLargestEntries 500).find? (fun entry => hasPrefix entry.Key pre.Key) with
      | some entry => entry.Key
      | none => [] }

/-- The state of `analyze` when `analyzeClusterBalance` is called, as a function of
the summary and of the order `types` and `groups` in which the per-type map and the
map of sizes by type are visited. -/
def passState (c : Counter) (hotspots : List MemoryHotspot) (types : List (GoString × Nat))
    (groups : List (GoString × List Nat)) : OpsAnalyzer :=
  { counter := c
    totalKeys := totalOf c.typeNum
    totalBytes := totalOf c.typeBytes
    avgKeySize :=
      if 0 < totalOf c.typeNum then
        F64.div (F64.ofNat (totalOf c.typeBytes)) (F64.ofNat (totalOf c.typeNum))
      else F64.fin 0
    anomalies := largeKeyAnomalies c ++ hotspotAnomalies c types ++ keyExplosionAnomalies c ++
      hugeCollectionAnomalies c ++ groups.flatMap typeAnomalies
    memoryHotspots := hotspots
    keyPatterns := (c.GetLargestKeyPrefixes.take 50).map (keyPatternOf c)
    typeEfficiency := groups.map (fun p => (p.1, typeStats p.1 (sortedSizes p.2)))
    slotImbalance := F64.fin 0
    topSlotsUsage := []
    healthScore := 0
    recommendations := [] }

/-- The value that `analyzeClusterBalance` leaves in `slotImbalance`, as a function
of the summary (the statistics of the slots do not depend on the order in which the
map is visited). -/
def clusterImbalance (c : Counter) : F64 :=
  if c.slotBytes.length = 0 then F64.fin 0
  else
    let st := slotStats c.slotBytes
    let avgSlotMemory := st.1 / c.slotBytes.length
    if 0 < avgSlotMemory then
      F64.mul
        (F64.div (F64.sub (F64.ofNat st.2.1) (F64.ofNat st.2.2)) (F64.ofNat avgSlotMemory))
        (F64.ofNat 100)
    else F64.fin 0

/-- The anomalies of `analyzeClusterBalance`, as a function of the summary. -/
def clusterAnomalies (c : Counter) : List Anomaly :=
  if F64.gt (clusterImbalance c) (F64.ofNat 50) then [slotImbalanceAnomaly (clusterImbalance c)]
  else []

/-- The slice `slots` of `analyzeClusterBalance`, for the order `slots` in which the
per-slot map is visited. -/
def slotList (c : Counter) (slots : List (Int × Nat)) : List slotInfo :=
  slots.map (fun p => { slot := p.1, bytes := p.2, keys := mapGet c.slotNum p.1 })

/-- The usage record that `analyzeClusterBalance` appends for a slot. -/
def slotUsageOf (c : Counter) (s : slotInfo) : SlotUsage :=
  { Slot := s.slot
    KeyCount := s.keys
    MemoryUsed := s.bytes
    Percentage := percentOf s.bytes (totalOf c.typeBytes) }

/-- A snapshot of two keys of type "string" in two cluster slots, with byte totals
100 and 300. -/
def twoSlotCounter : Counter :=
  { typeNum := [(goStr "string", 2)]
    typeBytes := [(goStr "string", 400)]
    slotNum := [(0, 1), (1, 1)]
    slotBytes := [(0, 100), (1, 300)]
    largestEntries :=
      [ { Key := goStr "b", Type_ := goStr "string", Bytes := 300, NumOfElem := 0 },
        { Key := goStr "a", Type_ := goStr "string", Bytes := 100, NumOfElem := 0 } ]
    largestKeyPrefixes := [] }

/-- A runtime that sorts as `goRuntime` does and visits the entries of a map in the
reverse order. -/
def revRuntime : Runtime where
  sortSlice := fun less l => insertionSort less l
  mapRange := fun m => m.reverse
  sortSlice_perm := goRuntime.sortSlice_perm
  sortSlice_sorted := goRuntime.sortSlice_sorted
  mapRange_perm := fun m => List.reverse_perm m

/-- A snapshot of two keys, a string and a hash, of 100 bytes each. -/
def tieCounter : Counter :=
  { typeNum := [(goStr "string", 1), (goStr "hash", 1)]
    typeBytes := [(goStr "string", 100), (goStr "hash", 100)]
    slotNum := []
    slotBytes := []
    largestEntries :=
      [ { Key := goStr "s", Type_ := goStr "string", Bytes := 100, NumOfElem := 0 },
        { Key := goStr "h", Type_ := goStr "hash", Bytes := 100, NumOfElem := 1 } ]
    largestKeyPrefixes := [] }

/-- The state of `analyze` when `generateRecommendations` is called, as a function of
the summary and of the runtime. -/
def reportState (R : Runtime) (c : Counter) : OpsAnalyzer :=
  calculateHealthScore
    { passState c
        (R.sortSlice (fun a b => decide (b.MemoryUsed < a.MemoryUsed))
          (hotspotList c (R.mapRange c.typeBytes)))
        (R.mapRange c.typeBytes) (R.mapRange (groupByType (c.GetLargestEntries 500))) with
      slotImbalance := clusterImbalance c
      topSlotsUsage :=
        ((R.sortSlice (fun a b => decide (b.bytes < a.bytes))
          (slotList c (R.mapRange c.slotBytes))).take 10).map (slotUsageOf c)
      anomalies :=
        (passState c
          (R.sortSlice (fun a b => decide (b.MemoryUsed < a.MemoryUsed))
            (hotspotList c (R.mapRange c.typeBytes)))
          (R.mapRange c.typeBytes)
          (R.mapRange (groupByType (c.GetLargestEntries 500)))).anomalies ++
        clusterAnomalies c }

/-! ## The analysis history (`history.go`) -/

/-- Type `HistoryEntry`.  `UploadTime` is a `time.Time`, held here as a count of
nanoseconds; `FileSize` is an `int64`. -/
structure HistoryEntry where
  Filename : GoString
  FilePath : GoString
  UploadTime : Int
  FileSize : Int
  TotalKeys : Nat
  TotalMemory : Nat
deriving DecidableEq

/-- Type `HistoryManager`: the entries in memory and the path of the history file
(the mutex `mu` guards every method and is left out). -/
structure HistoryManager where
  entries : List HistoryEntry
  filePath : GoString
deriving DecidableEq

/-- The loop of `Add`: at the first entry with the file name of `entry` the slice
element is overwritten and the loop ends; `none` when the loop runs to its end. -/
def HistoryManager.addLoop (entry : HistoryEntry) : List HistoryEntry → Option (List HistoryEntry)
  | [] => none
  | e :: rest =>
    if e.Filename = entry.Filename then some (entry :: rest)
    else (HistoryManager.addLoop entry rest).map (fun l => e :: l)

/-- Method `Add`, on the entries in memory: the call of `save`, which writes the
file and gives the returned error, is left out. -/
def HistoryManager.Add (hm : HistoryManager) (entry : HistoryEntry) : HistoryManager :=
  match HistoryManager.addLoop entry hm.entries with
  | some entries => { hm with entries := entries }
  | none =>
    let entries := entry :: hm.entries
    { hm with entries := if 100 < entries.length then entries.take 100 else entries }

/-- Method `Get`: the first entry with the file name, or the zero entry and
`false`. -/
def HistoryManager.Get (hm : HistoryManager) (filename : GoString) : HistoryEntry × Bool :=
  match hm.entries.find? (fun e => decide (e.Filename = filename)) with
  | some e => (e, true)
  | none =>
    ({ Filename := [], FilePath := [], UploadTime := 0, FileSize := 0, TotalKeys := 0,
       TotalMemory := 0 }, false)

/-- A history entry with a file name and a key count. -/
def sampleEntry (filename : GoString) (totalKeys : Nat) : HistoryEntry :=
  { Filename := filename
    FilePath := goStr "/tmp/dump.rdb"
    UploadTime := 0
    FileSize := 1024
    TotalKeys := totalKeys
    TotalMemory := 4096 }

/-- A history of two entries, "a.rdb" and "b.rdb". -/
def sampleHistory : HistoryManager :=
  { entries := [sampleEntry (goStr "a.rdb") 1, sampleEntry (goStr "b.rdb") 2]
    filePath := goStr "history.json" }

/-- A finite `float64` value between two bounds. -/
def F64.Within (lo hi : ℚ) (x : F64) : Prop := ∃ q, x = F64.fin q ∧ lo ≤ q ∧ q ≤ hi

/-! ## Rounding to binary64 -/

theorem roundHalfEven_intCast (n : ℤ) : roundHalfEven (n : ℚ) = n := by
  simp [roundHalfEven]

theorem floor_le_roundHalfEven (x : ℚ) : ⌊x⌋ ≤ roundHalfEven x := by
  unfold roundHalfEven
  split_ifs <;> omega

theorem roundHalfEven_le_floor_succ (x : ℚ) : roundHalfEven x ≤ ⌊x⌋ + 1 := by
  unfold roundHalfEven
  split_ifs <;> omega

theorem roundHalfEven_mono {x y : ℚ} (h : x ≤ y) : roundHalfEven x ≤ roundHalfEven y := by
  have hf : ⌊x⌋ ≤ ⌊y⌋ := Int.floor_mono h
  rcases lt_or_eq_of_le hf with hlt | heq
  · have h1 := roundHalfEven_le_floor_succ x
    have h2 := floor_le_roundHalfEven y
    omega
  · unfold roundHalfEven
    rw [← heq]
    have hxy : x - (⌊x⌋ : ℚ) ≤ y - (⌊x⌋ : ℚ) := by linarith
    split_ifs <;> first | omega | (exfalso; linarith)

theorem roundHalfEven_nonneg {x : ℚ} (h : 0 ≤ x) : 0 ≤ roundHalfEven x := by
  have := roundHalfEven_mono h
  rwa [show (0 : ℚ) = ((0 : ℤ) : ℚ) by simp, roundHalfEven_intCast] at this



theorem two_zpow_pos (z : ℤ) : (0 : ℚ) < 2 ^ z := zpow_pos (by norm_num) z

theorem log_lt_of_lt_zpow {q : ℚ} (hq : 0 < q) {x : ℤ} (h : q < 2 ^ x) : Int.log 2 q < x := by
  have := (Int.lt_zpow_iff_log_lt (R := ℚ) (b := 2) (by norm_num) (x := x) hq).1
    (by simpa using h)
  exact this

theorem zpow_log_le {q : ℚ} (hq : 0 < q) : (2 : ℚ) ^ Int.log 2 q ≤ q := by
  simpa using Int.zpow_log_le_self (R := ℚ) (b := 2) (by norm_num) hq

theorem lt_zpow_log_succ (q : ℚ) : q < (2 : ℚ) ^ (Int.log 2 q + 1) := by
  simpa using Int.lt_zpow_succ_log_self (R := ℚ) (b := 2) (by norm_num) q

theorem roundMag_zero : roundMag 0 = 0 := by
  have := roundHalfEven_intCast 0
  simp only [Int.cast_zero] at this
  simp [roundMag, this]

theorem roundMag_nonneg {q : ℚ} (h : 0 ≤ q) : 0 ≤ roundMag q := by
  unfold roundMag
  have h1 : (0 : ℚ) ≤ q / 2 ^ ulpExp q := div_nonneg h (two_zpow_pos _).le
  have h2 : (0 : ℚ) ≤ (roundHalfEven (q / 2 ^ ulpExp q) : ℚ) := by
    exact_mod_cast roundHalfEven_nonneg h1
  exact mul_nonneg h2 (two_zpow_pos _).le

/-- Values `m * 2 ^ e` with a significand below `2 ^ 53` are on the grid. -/
theorem roundMag_repr (m : ℕ) (e : ℤ) (hm : m < 2 ^ 53) (he : -1074 ≤ e) :
    roundMag ((m : ℚ) * 2 ^ e) = (m : ℚ) * 2 ^ e := by
  rcases Nat.eq_zero_or_pos m with hm0 | hm0
  · subst hm0; simpa using roundMag_zero
  · have hq : (0 : ℚ) < (m : ℚ) * 2 ^ e := mul_pos (by exact_mod_cast hm0) (two_zpow_pos e)
    have hlt : (m : ℚ) * 2 ^ e < 2 ^ (53 + e) := by
      rw [zpow_add₀ (by norm_num : (2 : ℚ) ≠ 0)]
      have : (m : ℚ) < 2 ^ (53 : ℤ) := by
        have : (m : ℚ) < ((2 ^ 53 : ℕ) : ℚ) := by exact_mod_cast hm
        rw [zpow_ofNat]
        exact_mod_cast hm
      exact mul_lt_mul_of_pos_right this (two_zpow_pos e)
    have hlog := log_lt_of_lt_zpow hq hlt
    have hu : ulpExp ((m : ℚ) * 2 ^ e) ≤ e := by
      unfold ulpExp
      rcases max_cases (Int.log 2 ((m : ℚ) * 2 ^ e)) (-1022) with ⟨h1, _⟩ | ⟨h1, _⟩ <;> omega
    obtain ⟨k, hk⟩ := Int.eq_ofNat_of_zero_le (sub_nonneg.2 hu)
    unfold roundMag
    generalize ulpExp ((m : ℚ) * 2 ^ e) = u at *
    obtain rfl : e = u + k := by omega
    have hdiv : (m : ℚ) * 2 ^ (u + (k : ℤ)) / 2 ^ u = ((m * 2 ^ k : ℤ) : ℚ) := by
      rw [zpow_add₀ (by norm_num : (2 : ℚ) ≠ 0), zpow_natCast]
      have := two_zpow_pos u
      field_simp
      ring
    rw [hdiv, roundHalfEven_intCast]
    rw [zpow_add₀ (by norm_num : (2 : ℚ) ≠ 0), zpow_natCast]
    push_cast
    ring

theorem roundMag_natCast (n : ℕ) (hn : n < 2 ^ 53) : roundMag (n : ℚ) = n := by
  simpa using roundMag_repr n 0 hn (by norm_num)



theorem two_zpow_split (x : ℤ) (k : ℕ) : (2 : ℚ) ^ x = 2 ^ k * 2 ^ (x - k) := by
  rw [← zpow_natCast, ← zpow_add₀ (by norm_num : (2 : ℚ) ≠ 0)]
  congr 1
  ring

theorem roundMag_le_zpow {a : ℚ} (x : ℤ) (hx : max (Int.log 2 a) (-1022) = x) :
    roundMag a ≤ 2 ^ (x + 1) := by
  have hlt : a < 2 ^ (x + 1) := by
    refine lt_of_lt_of_le (lt_zpow_log_succ a) ?_
    exact zpow_le_zpow_right₀ (by norm_num) (by have := le_max_left (Int.log 2 a) (-1022); omega)
  unfold roundMag ulpExp
  rw [hx]
  have hpos := two_zpow_pos (x - 52)
  have h1 : a / 2 ^ (x - 52) ≤ ((2 ^ 53 : ℤ) : ℚ) := by
    rw [div_le_iff₀ hpos, Int.cast_pow, Int.cast_ofNat]
    have := two_zpow_split (x + 1) 53
    rw [show x + 1 - ((53 : ℕ) : ℤ) = x - 52 by push_cast; ring] at this
    rw [← this]
    exact hlt.le
  have h2 := roundHalfEven_mono h1
  rw [roundHalfEven_intCast] at h2
  have h3 : (roundHalfEven (a / 2 ^ (x - 52)) : ℚ) ≤ 2 ^ 53 := by exact_mod_cast h2
  calc (roundHalfEven (a / 2 ^ (x - 52)) : ℚ) * 2 ^ (x - 52)
      ≤ 2 ^ 53 * 2 ^ (x - 52) := mul_le_mul_of_nonneg_right h3 hpos.le
    _ = 2 ^ (x + 1) := by
      have := two_zpow_split (x + 1) 53
      rw [show x + 1 - ((53 : ℕ) : ℤ) = x - 52 by push_cast; ring] at this
      exact this.symm

theorem zpow_le_roundMag {b : ℚ} (hb : 0 < b) (hlog : -1022 ≤ Int.log 2 b) :
    (2 : ℚ) ^ Int.log 2 b ≤ roundMag b := by
  unfold roundMag ulpExp
  rw [max_eq_left hlog]
  generalize hx : Int.log 2 b = x
  have hle : (2 : ℚ) ^ x ≤ b := hx ▸ zpow_log_le hb
  have hpos := two_zpow_pos (x - 52)
  have hs := two_zpow_split x 52
  rw [show x - ((52 : ℕ) : ℤ) = x - 52 by push_cast; ring] at hs
  have h1 : ((2 ^ 52 : ℤ) : ℚ) ≤ b / 2 ^ (x - 52) := by
    rw [le_div_iff₀ hpos, Int.cast_pow, Int.cast_ofNat, ← hs]
    exact hle
  have h2 := roundHalfEven_mono h1
  rw [roundHalfEven_intCast] at h2
  have h3 : (2 : ℚ) ^ 52 ≤ (roundHalfEven (b / 2 ^ (x - 52)) : ℚ) := by exact_mod_cast h2
  calc (2 : ℚ) ^ x = 2 ^ 52 * 2 ^ (x - 52) := hs
    _ ≤ (roundHalfEven (b / 2 ^ (x - 52)) : ℚ) * 2 ^ (x - 52) :=
      mul_le_mul_of_nonneg_right h3 hpos.le

/-- Rounding is monotone on the non-negative rationals. -/
theorem roundMag_mono {a b : ℚ} (ha : 0 ≤ a) (hab : a ≤ b) : roundMag a ≤ roundMag b := by
  rcases ha.eq_or_lt with rfl | hapos
  · rw [roundMag_zero]; exact roundMag_nonneg hab
  · have hb : 0 < b := lt_of_lt_of_le hapos hab
    have hL : Int.log 2 a ≤ Int.log 2 b := Int.log_mono_right hapos hab
    have hE : max (Int.log 2 a) (-1022) ≤ max (Int.log 2 b) (-1022) := max_le_max hL le_rfl
    rcases hE.eq_or_lt with heq | hlt
    · unfold roundMag ulpExp
      rw [heq]
      have hpos := two_zpow_pos (max (Int.log 2 b) (-1022) - 52)
      refine mul_le_mul_of_nonneg_right ?_ hpos.le
      exact_mod_cast roundHalfEven_mono (div_le_div_of_nonneg_right hab hpos.le)
    · have hb1 : -1022 ≤ Int.log 2 b := by
        rcases max_cases (Int.log 2 b) (-1022) with ⟨h1, h2⟩ | ⟨h1, h2⟩
        · exact h2
        · have := le_max_right (Int.log 2 a) (-1022); omega
      have hb2 : max (Int.log 2 b) (-1022) = Int.log 2 b := max_eq_left hb1
      rw [hb2] at hlt
      calc roundMag a ≤ 2 ^ (max (Int.log 2 a) (-1022) + 1) := roundMag_le_zpow _ rfl
        _ ≤ 2 ^ Int.log 2 b := zpow_le_zpow_right₀ (by norm_num) (by omega)
        _ ≤ roundMag b := zpow_le_roundMag hb hb1

theorem log_two_mul {q : ℚ} (hq : 0 < q) : Int.log 2 (2 * q) = Int.log 2 q + 1 := by
  have h2q : (0 : ℚ) < 2 * q := by linarith
  have h1 : Int.log 2 q + 1 ≤ Int.log 2 (2 * q) := by
    have := (Int.zpow_le_iff_le_log (R := ℚ) (b := 2) (by norm_num) (x := Int.log 2 q + 1) h2q).1
    apply this
    rw [zpow_add₀ (by norm_num)]
    have := zpow_log_le hq
    simp only [Nat.cast_ofNat, zpow_one]
    linarith
  have h2 : Int.log 2 (2 * q) < Int.log 2 q + 2 := by
    apply log_lt_of_lt_zpow h2q
    have := lt_zpow_log_succ q
    rw [show Int.log 2 q + 2 = (Int.log 2 q + 1) + 1 by ring, zpow_add₀ (by norm_num) (Int.log 2 q + 1)]
    simp only [zpow_one]
    linarith
  omega

/-- Doubling commutes with rounding in the normal range. -/
theorem roundMag_two_mul {q : ℚ} (hq : 0 < q) (hlog : -1022 ≤ Int.log 2 q) :
    roundMag (2 * q) = 2 * roundMag q := by
  unfold roundMag ulpExp
  rw [log_two_mul hq, max_eq_left hlog, max_eq_left (by omega)]
  have hu : Int.log 2 q + 1 - 52 = (Int.log 2 q - 52) + 1 := by ring
  rw [hu, zpow_add₀ (by norm_num : (2 : ℚ) ≠ 0), zpow_one]
  have hpos := two_zpow_pos (Int.log 2 q - 52)
  have : 2 * q / (2 ^ (Int.log 2 q - 52) * 2) = q / 2 ^ (Int.log 2 q - 52) := by
    field_simp
    ring
  rw [this]
  ring

/-- Rounding a value between 0 and a grid point `B` gives a finite value in the
same range. -/
theorem F64.round_within {q B : ℚ} (h0 : 0 ≤ q) (hB : q ≤ B) (hrepr : roundMag B = B)
    (hlt : B < 2 ^ 1024) : ∃ r, F64.round q = F64.fin r ∧ r = roundMag q ∧ 0 ≤ r ∧ r ≤ B := by
  have h1 : roundQ q = roundMag q := by
    unfold roundQ
    rw [if_neg (not_lt.2 h0)]
  have h2 : 0 ≤ roundMag q := roundMag_nonneg h0
  have h3 : roundMag q ≤ B := hrepr ▸ roundMag_mono h0 hB
  refine ⟨roundMag q, ?_, rfl, h2, h3⟩
  unfold F64.round
  rw [h1, abs_of_nonneg h2, if_neg (not_le.2 (lt_of_le_of_lt h3 hlt))]

theorem F64.round_natCast (n : ℕ) (hn : n < 2 ^ 53) : F64.round (n : ℚ) = F64.fin n := by
  have hr := roundMag_natCast n hn
  obtain ⟨r, h1, h2, -, -⟩ := F64.round_within (q := n) (B := n) (Nat.cast_nonneg n) le_rfl hr
    (by
      have : (n : ℚ) < ((2 ^ 53 : ℕ) : ℚ) := by exact_mod_cast hn
      refine lt_trans this ?_
      norm_num)
  rw [h1, h2, hr]

theorem F64.ofNat_small (n : ℕ) (hn : n < 2 ^ 53) : F64.ofNat n = F64.fin n :=
  F64.round_natCast n hn

/-! ## The health score -/

theorem foldl_scoreStep (anomalies : List Anomaly) (score : Int) :
    anomalies.foldl scoreStep score =
      score - 15 * (countLevel "critical" anomalies : Int) - 8 * (countLevel "warning" anomalies : Int)
        - 3 * (countLevel "info" anomalies : Int) := by
  induction anomalies generalizing score with
  | nil => simp [countLevel]
  | cons a l ih =>
    rw [List.foldl_cons, ih]
    unfold scoreStep countLevel
    by_cases h1 : a.Level = "critical"
    · simp [h1, List.countP_cons]; ring
    · by_cases h2 : a.Level = "warning"
      · simp [h2, List.countP_cons]; ring
      · by_cases h3 : a.Level = "info"
        · simp [h3, List.countP_cons]; ring
        · simp [h1, h2, h3, List.countP_cons]

theorem countLevel_perm {l₁ l₂ : List Anomaly} (h : l₁.Perm l₂) (level : String) :
    countLevel level l₁ = countLevel level l₂ :=
  h.countP_eq _

theorem healthScore_calculateHealthScore (oa : OpsAnalyzer) :
    (calculateHealthScore oa).healthScore =
      specHealthScore oa.anomalies oa.totalKeys oa.avgKeySize := by
  unfold calculateHealthScore specHealthScore specKeyPenalty specSizePenalty
  simp only [foldl_scoreStep]
  rw [F64.ofNat_small (1024 * 1024) (by norm_num), F64.ofNat_small (100 * 1024) (by norm_num)]
  norm_num
  split_ifs <;> omega

theorem healthScore_range (oa : OpsAnalyzer) :
    0 ≤ (calculateHealthScore oa).healthScore ∧ (calculateHealthScore oa).healthScore ≤ 100 := by
  rw [healthScore_calculateHealthScore]
  unfold specHealthScore specKeyPenalty specSizePenalty
  constructor
  · exact le_max_left _ _
  · apply max_le (by norm_num)
    split_ifs <;> omega

/-! ## `formatBytes` -/

theorem formatBytesLoop_exp_le (k : ℕ) : ∀ (n div exp : ℕ), n < 1024 ^ (k + 1) →
    (formatBytesLoop n div exp).2 ≤ exp + k := by
  induction k with
  | zero =>
    intro n div exp hn
    rw [formatBytesLoop]
    simp only [zero_add, pow_one] at hn
    rw [if_neg (by omega)]
    simp
  | succ k ih =>
    intro n div exp hn
    rw [formatBytesLoop]
    split
    · have h1 : n / 1024 < 1024 ^ (k + 1) := by
        rw [Nat.div_lt_iff_lt_mul (by norm_num)]
        rw [pow_succ] at hn
        exact hn
      have := ih (n / 1024) (div * 1024 % 2 ^ 64) (exp + 1) h1
      omega
    · simp

theorem formatBytes_isSome (bytes : ℕ) (h : bytes < 2 ^ 64) : ∃ t, formatBytes bytes = some t := by
  unfold formatBytes
  split
  · exact ⟨_, rfl⟩
  · have h1 : bytes / 1024 < 1024 ^ (5 + 1) := by
      rw [Nat.div_lt_iff_lt_mul (by norm_num)]
      refine lt_of_lt_of_le h ?_
      norm_num
    have h2 := formatBytesLoop_exp_le 5 (bytes / 1024) 1024 0 h1
    simp only [zero_add] at h2
    generalize (formatBytesLoop (bytes / 1024) 1024 0) = r at h2
    have h3 : "KMGTPE".toList = ['K', 'M', 'G', 'T', 'P', 'E'] := by decide
    rw [h3]
    obtain ⟨d, e⟩ := r
    simp only at h2
    interval_cases e <;> exact ⟨_, rfl⟩

/-! ## `detectLargeKeys` -/

theorem detectLargeKeysLoop_spec : ∀ (es : List Entry) (anomalies : List Anomaly) (c w : ℕ),
    (∀ e ∈ es, e.Bytes < 2 ^ 64) →
    ∃ crit, detectLargeKeysLoop es (anomalies, c, w) =
        some (anomalies ++ crit, c + (es.filter isCritical).length, w + es.countP isWarning) ∧
      List.Forall₂ (fun e a => ∃ size, formatBytes e.Bytes = some size ∧ a = largeKeyAnomaly e size)
        (es.filter isCritical) crit := by
  intro es
  induction es with
  | nil => intro anomalies c w _; exact ⟨[], by simp [detectLargeKeysLoop], by simp⟩
  | cons e es ih =>
    intro anomalies c w h
    have he : e.Bytes < 2 ^ 64 := h e (List.mem_cons_self _ _)
    have hes : ∀ x ∈ es, x.Bytes < 2 ^ 64 := fun x hx => h x (List.mem_cons_of_mem _ hx)
    unfold detectLargeKeysLoop
    by_cases h1 : criticalSize ≤ e.Bytes
    · obtain ⟨size, hsize⟩ := formatBytes_isSome e.Bytes he
      obtain ⟨crit, hc1, hc2⟩ := ih (anomalies ++ [largeKeyAnomaly e size]) (c + 1) w hes
      have hcr : isCritical e = true := by
        simpa [isCritical, criticalSize] using h1
      have hwr : isWarning e = false := by
        simp only [criticalSize] at h1
        simp [isWarning]; omega
      refine ⟨largeKeyAnomaly e size :: crit, ?_, ?_⟩
      · rw [if_pos h1, hsize]
        simp only
        rw [hc1]
        simp [List.filter_cons, hcr, List.countP_cons, hwr]
        omega
      · rw [List.filter_cons, if_pos hcr]
        exact List.Forall₂.cons ⟨size, hsize, rfl⟩ hc2
    · have hcr : isCritical e = false := by
        simpa [isCritical, criticalSize] using h1
      rw [if_neg h1]
      by_cases h2 : warningSize ≤ e.Bytes
      · obtain ⟨crit, hc1, hc2⟩ := ih anomalies c (w + 1) hes
        have hwr : isWarning e = true := by
          simp only [criticalSize, warningSize] at h1 h2
          simp [isWarning]; omega
        refine ⟨crit, ?_, ?_⟩
        · rw [if_pos h2, hc1]
          simp [List.filter_cons, hcr, List.countP_cons, hwr]
          omega
        · rw [List.filter_cons, if_neg (by simp [hcr])]
          exact hc2
      · obtain ⟨crit, hc1, hc2⟩ := ih anomalies c w hes
        have hwr : isWarning e = false := by
          simp only [criticalSize, warningSize] at h1 h2
          simp [isWarning]; omega
        refine ⟨crit, ?_, ?_⟩
        · rw [if_neg h2, hc1]
          simp [List.filter_cons, hcr, List.countP_cons, hwr]
        · rw [List.filter_cons, if_neg (by simp [hcr])]
          exact hc2

/-! ## Percentile indices -/

theorem roundMag_dyadic (m k : ℕ) (hm : m < 2 ^ 53) (hk : k ≤ 1074) :
    roundMag ((m : ℚ) / 2 ^ k) = (m : ℚ) / 2 ^ k := by
  have := roundMag_repr m (-(k : ℤ)) hm (by omega)
  rw [zpow_neg, zpow_natCast] at this
  simpa [div_eq_mul_inv] using this

/-- The index `int(float64(n) * c)` for a constant `c` of at most `127 / 128` is a
valid index of a slice of length `n`. -/
theorem percentileIndex_valid (n : ℕ) (hn : 0 < n) (hn2 : n ≤ 2 ^ 32) (c : ℚ) (hc0 : 0 ≤ c)
    (hc : c ≤ 127 / 128) :
    ∃ i : ℤ, F64.toInt (F64.mul (F64.ofNat n) (F64.round c)) = some i ∧ 0 ≤ i ∧ i < n := by
  have hB : roundMag (127 / 128 : ℚ) = 127 / 128 := by
    have := roundMag_dyadic 127 7 (by norm_num) (by norm_num)
    norm_num at this
    exact this
  obtain ⟨rc, h1, -, h2, h3⟩ := F64.round_within hc0 hc hB (by norm_num)
  rw [h1, F64.ofNat_small n (lt_of_le_of_lt hn2 (by norm_num))]
  have hn' : (0 : ℚ) < n := by exact_mod_cast hn
  have hB2 : roundMag ((127 * n : ℕ) / 2 ^ 7 : ℚ) = ((127 * n : ℕ) / 2 ^ 7 : ℚ) :=
    roundMag_dyadic (127 * n) 7 (by
      have : 127 * n ≤ 127 * 2 ^ 32 := Nat.mul_le_mul_left _ hn2
      exact lt_of_le_of_lt this (by norm_num)) (by norm_num)
  have hle : (n : ℚ) * rc ≤ ((127 * n : ℕ) / 2 ^ 7 : ℚ) := by
    push_cast
    have : (n : ℚ) * rc ≤ n * (127 / 128) := mul_le_mul_of_nonneg_left h3 hn'.le
    linarith
  have hlt : ((127 * n : ℕ) / 2 ^ 7 : ℚ) < n := by
    push_cast
    linarith
  obtain ⟨r, h4, -, h5, h6⟩ := F64.round_within (mul_nonneg hn'.le h2) hle hB2
    (lt_trans hlt (by
      have : (n : ℚ) ≤ ((2 ^ 32 : ℕ) : ℚ) := by exact_mod_cast hn2
      refine lt_of_le_of_lt this ?_
      norm_num))
  have hrn : r < n := lt_of_le_of_lt h6 hlt
  refine ⟨⌊r⌋, ?_, Int.floor_nonneg.2 h5, ?_⟩
  · show F64.toInt (F64.round ((n : ℚ) * rc)) = some ⌊r⌋
    rw [h4]
    unfold F64.toInt
    simp only [if_pos h5]
    have hf0 : 0 ≤ ⌊r⌋ := Int.floor_nonneg.2 h5
    have hf1 : ⌊r⌋ < (n : ℤ) := by
      rw [Int.floor_lt]
      exact_mod_cast hrn
    have hn3 : (n : ℤ) ≤ 2 ^ 32 := by exact_mod_cast hn2
    rw [if_pos ⟨by omega, by omega⟩]
  · rw [Int.floor_lt]
    exact_mod_cast hrn

theorem sliceIndex_isSome (sizes : List ℕ) (i : ℤ) (h0 : 0 ≤ i) (h1 : i < sizes.length) :
    ∃ v, sliceIndex sizes i = some v ∧ v ∈ sizes := by
  unfold sliceIndex
  rw [if_pos h0]
  have h2 : i.toNat < sizes.length := by omega
  refine ⟨sizes.get ⟨i.toNat, h2⟩, ?_, List.get_mem _ _ _⟩
  simp [List.get?_eq_get h2]

/-! ## Maps -/

theorem mapSet_keys_nodup {κ ν : Type} [DecidableEq κ] (m : List (κ × ν)) (k : κ) (v : ν)
    (h : (m.map Prod.fst).Nodup) : ((mapSet m k v).map Prod.fst).Nodup := by
  unfold mapSet
  split
  · have : (m.map (fun p => if p.1 = k then (k, v) else p)).map Prod.fst = m.map Prod.fst := by
      rw [List.map_map]
      apply List.map_congr_left
      intro p _
      simp only [Function.comp]
      split
      · rename_i hp; exact hp.symm
      · rfl
    rw [this]
    exact h
  · rename_i hk
    rw [List.map_append, List.nodup_append]
    refine ⟨h, by simp, ?_⟩
    intro a ha hb
    simp only [List.map_cons, List.map_nil, List.mem_singleton] at hb
    subst hb
    apply hk
    obtain ⟨p, hp, rfl⟩ := List.mem_map.1 ha
    exact List.any_eq_true.2 ⟨p, hp, by simp⟩

theorem mem_mapSet {κ ν : Type} [DecidableEq κ] (m : List (κ × ν)) (k : κ) (v : ν)
    (p : κ × ν) (hp : p ∈ mapSet m k v) : p ∈ m ∨ p = (k, v) := by
  unfold mapSet at hp
  split at hp
  · obtain ⟨q, hq, rfl⟩ := List.mem_map.1 hp
    split
    · exact Or.inr rfl
    · exact Or.inl hq
  · rcases List.mem_append.1 hp with h | h
    · exact Or.inl h
    · exact Or.inr (by simpa using h)

theorem mapGetSlice_length_le (m : List (GoString × List ℕ)) (k : GoString) (n : ℕ)
    (h : ∀ p ∈ m, p.2.length ≤ n) : (mapGetSlice m k).length ≤ n := by
  unfold mapGetSlice
  split
  · rename_i p hp
    exact h p (List.mem_of_find?_eq_some hp)
  · simp

theorem groupByType_length_le (entries : List Entry) :
    ∀ p ∈ groupByType entries, p.2.length ≤ entries.length := by
  unfold groupByType
  have key : ∀ (es : List Entry) (m : List (GoString × List ℕ)) (n : ℕ),
      (∀ p ∈ m, p.2.length ≤ n) →
      ∀ p ∈ es.foldl
        (fun m entry => mapSet m entry.Type_ (mapGetSlice m entry.Type_ ++ [entry.Bytes])) m,
        p.2.length ≤ n + es.length := by
    intro es
    induction es with
    | nil => intro m n h p hp; simpa using h p hp
    | cons e es ih =>
      intro m n h p hp
      rw [List.foldl_cons] at hp
      have := ih _ (n + 1) (by
        intro q hq
        rcases mem_mapSet _ _ _ _ hq with h1 | h1
        · have := h q h1; omega
        · subst h1
          have := mapGetSlice_length_le m e.Type_ n h
          simp only [List.length_append, List.length_singleton]
          omega) p hp
      simp only [List.length_cons]
      omega
  intro p hp
  simpa using key entries [] 0 (by simp) p hp

/-! ## `analyzeTypeEfficiency` -/

theorem typeEfficiencyStep_spec (R : Runtime) (oa : OpsAnalyzer) (p : GoString × List ℕ)
    (hlen : p.2.length ≤ 2 ^ 32) :
    ∃ A T, typeEfficiencyStep R oa p = some { oa with anomalies := A, typeEfficiency := T } ∧
      ((oa.typeEfficiency.map Prod.fst).Nodup → (T.map Prod.fst).Nodup) := by
  unfold typeEfficiencyStep
  by_cases h0 : p.2.length = 0
  · exact ⟨oa.anomalies, oa.typeEfficiency, by simp [h0], id⟩
  · have hperm := R.sortSlice_perm (fun a b => decide (a < b)) p.2
    have hl : (R.sortSlice (fun a b => decide (a < b)) p.2).length = p.2.length := hperm.length_eq
    generalize R.sortSlice (fun a b => decide (a < b)) p.2 = sizes at hl
    have hpos : 0 < sizes.length := by omega
    have hle : sizes.length ≤ 2 ^ 32 := by omega
    have hmed : sizes.length / 2 < sizes.length := Nat.div_lt_self hpos (by norm_num)
    obtain ⟨i95, hi95, h95a, h95b⟩ :=
      percentileIndex_valid sizes.length hpos hle (95 / 100) (by norm_num) (by norm_num)
    obtain ⟨i99, hi99, h99a, h99b⟩ :=
      percentileIndex_valid sizes.length hpos hle (99 / 100) (by norm_num) (by norm_num)
    obtain ⟨v95, hv95, -⟩ := sliceIndex_isSome sizes i95 h95a h95b
    obtain ⟨v99, hv99, -⟩ := sliceIndex_isSome sizes i99 h99a h99b
    simp only [if_neg h0, hi95, hi99, Option.some_bind, hv95, hv99, List.get?_eq_get hmed]
    refine ⟨_, _, rfl, ?_⟩
    intro hnd
    exact mapSet_keys_nodup _ _ _ hnd

theorem foldlM_typeEfficiencyStep (R : Runtime) : ∀ (l : List (GoString × List ℕ)) (oa : OpsAnalyzer),
    (∀ p ∈ l, p.2.length ≤ 2 ^ 32) →
    ∃ A T, l.foldlM (typeEfficiencyStep R) oa = some { oa with anomalies := A, typeEfficiency := T } ∧
      ((oa.typeEfficiency.map Prod.fst).Nodup → (T.map Prod.fst).Nodup) := by
  intro l
  induction l with
  | nil => intro oa _; exact ⟨oa.anomalies, oa.typeEfficiency, rfl, id⟩
  | cons p l ih =>
    intro oa h
    obtain ⟨A, T, h1, h2⟩ := typeEfficiencyStep_spec R oa p (h p (List.mem_cons_self _ _))
    obtain ⟨A', T', h3, h4⟩ := ih { oa with anomalies := A, typeEfficiency := T }
      (fun q hq => h q (List.mem_cons_of_mem _ hq))
    refine ⟨A', T', ?_, fun hnd => h4 (h2 hnd)⟩
    rw [List.foldlM_cons, h1]
    exact h3

theorem analyzeTypeEfficiency_spec (R : Runtime) (oa : OpsAnalyzer) :
    ∃ A T, analyzeTypeEfficiency R oa = some { oa with anomalies := A, typeEfficiency := T } ∧
      ((oa.typeEfficiency.map Prod.fst).Nodup → (T.map Prod.fst).Nodup) := by
  unfold analyzeTypeEfficiency
  apply foldlM_typeEfficiencyStep
  intro p hp
  have hp' := (R.mapRange_perm _).mem_iff.1 hp
  have h1 := groupByType_length_le _ p hp'
  have h2 : (oa.counter.GetLargestEntries 500).length ≤ 500 := by
    unfold Counter.GetLargestEntries
    exact List.length_take_le _ _
  have : (500 : ℕ) ≤ 2 ^ 32 := by norm_num
  omega

/-! ## `detectMemoryHotspots` -/

theorem foldl_prefixHotspotStep : ∀ (l : List PrefixEntry) (oa : OpsAnalyzer),
    l.foldl prefixHotspotStep oa =
      { oa with
        memoryHotspots := oa.memoryHotspots ++ l.map (prefixHotspot oa.totalBytes)
        anomalies := oa.anomalies ++
          (l.filter (fun pre => F64.gt (percentOf pre.Bytes oa.totalBytes) (F64.ofNat 30))).map
            (fun pre => prefixHotspotAnomaly pre.Key (percentOf pre.Bytes oa.totalBytes)) } := by
  intro l
  induction l with
  | nil => intro oa; simp
  | cons p l ih =>
    intro oa
    rw [List.foldl_cons, ih]
    by_cases h : F64.gt (percentOf p.Bytes oa.totalBytes) (F64.ofNat 30) = true
    · simp [prefixHotspotStep, List.filter_cons, h]
    · simp [prefixHotspotStep, List.filter_cons, h]

theorem foldl_typeHotspotStep : ∀ (l : List (GoString × ℕ)) (oa : OpsAnalyzer),
    l.foldl typeHotspotStep oa =
      { oa with
        memoryHotspots := oa.memoryHotspots ++ l.map (typeHotspot oa.counter oa.totalBytes)
        anomalies := oa.anomalies ++
          (l.filter (fun p => F64.gt (percentOf p.2 oa.totalBytes) (F64.ofNat 50))).map
            (fun p => typeDominanceAnomaly p.1 (percentOf p.2 oa.totalBytes)) } := by
  intro l
  induction l with
  | nil => intro oa; simp
  | cons p l ih =>
    intro oa
    rw [List.foldl_cons, ih]
    by_cases h : F64.gt (percentOf p.2 oa.totalBytes) (F64.ofNat 50) = true
    · simp [typeHotspotStep, List.filter_cons, h]
    · simp [typeHotspotStep, List.filter_cons, h]

/-- The hotspots of `detectMemoryHotspots` before the sort. -/
theorem detectMemoryHotspots_eq (R : Runtime) (oa : OpsAnalyzer) :
    detectMemoryHotspots R oa =
      { oa with
        memoryHotspots := R.sortSlice (fun a b => decide (b.MemoryUsed < a.MemoryUsed))
          (oa.memoryHotspots ++
            (oa.counter.GetLargestKeyPrefixes.take 20).map (prefixHotspot oa.totalBytes) ++
            (R.mapRange oa.counter.typeBytes).map (typeHotspot oa.counter oa.totalBytes))
        anomalies := oa.anomalies ++
          ((oa.counter.GetLargestKeyPrefixes.take 20).filter
            (fun pre => F64.gt (percentOf pre.Bytes oa.totalBytes) (F64.ofNat 30))).map
            (fun pre => prefixHotspotAnomaly pre.Key (percentOf pre.Bytes oa.totalBytes)) ++
          ((R.mapRange oa.counter.typeBytes).filter
            (fun p => F64.gt (percentOf p.2 oa.totalBytes) (F64.ofNat 50))).map
            (fun p => typeDominanceAnomaly p.1 (percentOf p.2 oa.totalBytes)) } := by
  unfold detectMemoryHotspots
  simp only [foldl_prefixHotspotStep, foldl_typeHotspotStep]

theorem strictWeakOrder_desc {α : Type} (f : α → ℕ) :
    StrictWeakOrder (fun a b : α => decide (f b < f a)) := by
  refine ⟨?_, ?_, ?_⟩
  · intro a; simp
  · intro a b c h1 h2
    simp only [decide_eq_true_eq] at *
    omega
  · intro a b c h1 h2
    simp only [decide_eq_false_iff_not] at *
    omega

theorem memoryHotspots_sorted (R : Runtime) (oa : OpsAnalyzer) :
    (detectMemoryHotspots R oa).memoryHotspots.Pairwise
      (fun a b => b.MemoryUsed ≤ a.MemoryUsed) := by
  rw [detectMemoryHotspots_eq]
  simp only
  refine (R.sortSlice_sorted _ _ (strictWeakOrder_desc (fun h : MemoryHotspot => h.MemoryUsed))).imp ?_
  intro a b h
  simpa using h

/-! ## Bounds on `float64` quotients and products -/

theorem F64.ofNat_fin (n : ℕ) (hn : n < 2 ^ 64) :
    F64.ofNat n = F64.fin (roundMag n) ∧ 0 ≤ roundMag (n : ℚ) := by
  have hB : roundMag ((2 ^ 64 : ℕ) : ℚ) = ((2 ^ 64 : ℕ) : ℚ) := by
    have := roundMag_repr 1 64 (by norm_num) (by norm_num)
    norm_num at this ⊢
    exact this
  obtain ⟨r, h1, h2, h3, -⟩ := F64.round_within (q := n) (Nat.cast_nonneg n)
    (by exact_mod_cast hn.le) hB (by norm_num)
  exact ⟨by rw [F64.ofNat, h1, h2], h2 ▸ h3⟩

theorem one_le_roundMag_natCast (n : ℕ) (hn : 0 < n) : 1 ≤ roundMag (n : ℚ) := by
  have h1 : roundMag ((1 : ℕ) : ℚ) = ((1 : ℕ) : ℚ) := roundMag_natCast 1 (by norm_num)
  have h2 : roundMag ((1 : ℕ) : ℚ) ≤ roundMag (n : ℚ) :=
    roundMag_mono (by norm_num) (by exact_mod_cast hn)
  rw [h1] at h2
  simpa using h2

theorem roundMag_natCast_mono {a b : ℕ} (h : a ≤ b) : roundMag (a : ℚ) ≤ roundMag (b : ℚ) :=
  roundMag_mono (Nat.cast_nonneg a) (by exact_mod_cast h)

theorem roundMag_natCast_two_mul (n : ℕ) : roundMag ((2 * n : ℕ) : ℚ) = 2 * roundMag (n : ℚ) := by
  rcases Nat.eq_zero_or_pos n with h | h
  · subst h; simp [roundMag_zero]
  · have hq : (0 : ℚ) < n := by exact_mod_cast h
    have hlog : -1022 ≤ Int.log 2 (n : ℚ) := by
      have : (0 : ℤ) ≤ Int.log 2 (n : ℚ) := by
        rw [Int.log_natCast]
        exact Int.natCast_nonneg _
      omega
    have := roundMag_two_mul hq hlog
    push_cast
    exact this

theorem F64.div_fin_within {a b c : ℚ} (ha : 0 ≤ a) (hb : 0 < b) (hab : a ≤ c * b)
    (hc : roundMag c = c) (hc2 : c < 2 ^ 1024) :
    ∃ x, F64.div (F64.fin a) (F64.fin b) = F64.fin x ∧ 0 ≤ x ∧ x ≤ c := by
  have h1 : a / b ≤ c := by rwa [div_le_iff₀ hb]
  obtain ⟨r, h2, -, h3, h4⟩ := F64.round_within (div_nonneg ha hb.le) h1 hc hc2
  refine ⟨r, ?_, h3, h4⟩
  show (if b = 0 then _ else F64.round (a / b)) = _
  rw [if_neg hb.ne', h2]

theorem F64.mul_fin_within {a b B : ℚ} (ha : 0 ≤ a) (hb : 0 ≤ b) (hab : a * b ≤ B)
    (hB : roundMag B = B) (hB2 : B < 2 ^ 1024) :
    ∃ x, F64.mul (F64.fin a) (F64.fin b) = F64.fin x ∧ 0 ≤ x ∧ x ≤ B := by
  obtain ⟨r, h2, -, h3, h4⟩ := F64.round_within (mul_nonneg ha hb) hab hB hB2
  exact ⟨r, h2, h3, h4⟩

/-- The percentage of a part is finite and at most `100 * c` when the part is at
most the fraction `c` of a positive total. -/
theorem percentOf_within (part total : ℕ) (c : ℚ) (hp : part < 2 ^ 64) (ht : total < 2 ^ 64)
    (ht0 : 0 < total) (hc : roundMag c = c) (hc100 : roundMag (c * 100) = c * 100)
    (hc1 : c ≤ 1)
    (h : roundMag (part : ℚ) ≤ c * roundMag (total : ℚ)) :
    F64.Within 0 (c * 100) (percentOf part total) := by
  obtain ⟨e1, hp0⟩ := F64.ofNat_fin part hp
  obtain ⟨e2, -⟩ := F64.ofNat_fin total ht
  have ht1 := one_le_roundMag_natCast total ht0
  obtain ⟨x, hx, hx0, hx1⟩ := F64.div_fin_within hp0 (by linarith) h hc
    (lt_of_le_of_lt hc1 (by norm_num))
  obtain ⟨y, hy, hy0, hy1⟩ := F64.mul_fin_within (b := 100) (B := c * 100) hx0 (by norm_num)
    (by nlinarith) hc100 (lt_of_le_of_lt (by linarith : c * 100 ≤ 100) (by norm_num))
  refine ⟨y, ?_, hy0, hy1⟩
  unfold percentOf
  rw [e1, e2, hx, F64.ofNat_small 100 (by norm_num)]
  simpa using hy

theorem roundMag_one : roundMag (1 : ℚ) = 1 := by
  simpa using roundMag_natCast 1 (by norm_num)

theorem roundMag_hundred : roundMag (100 : ℚ) = 100 := by
  simpa using roundMag_natCast 100 (by norm_num)

theorem roundMag_half : roundMag (1 / 2 : ℚ) = 1 / 2 := by
  simpa using roundMag_dyadic 1 1 (by norm_num) (by norm_num)

theorem roundMag_fifty : roundMag (50 : ℚ) = 50 := by
  simpa using roundMag_natCast 50 (by norm_num)

theorem percentOf_le_hundred (part total : ℕ) (ht : total < 2 ^ 64) (ht0 : 0 < total)
    (h : part ≤ total) : F64.Within 0 100 (percentOf part total) := by
  have := percentOf_within part total 1 (lt_of_le_of_lt h ht) ht ht0 roundMag_one
    (by simpa using roundMag_hundred) le_rfl
    (by simpa using roundMag_natCast_mono h)
  simpa using this

theorem percentOf_not_gt_fifty (part total : ℕ) (ht : total < 2 ^ 64) (h : 2 * part ≤ total) :
    F64.gt (percentOf part total) (F64.ofNat 50) = false := by
  rw [F64.ofNat_small 50 (by norm_num)]
  rcases Nat.eq_zero_or_pos total with h0 | h0
  · have hp : part = 0 := by omega
    subst h0 hp
    simp [percentOf, F64.ofNat_small, F64.div, F64.mul, F64.gt, F64.lt]
  · have h1 : roundMag (part : ℚ) ≤ 1 / 2 * roundMag (total : ℚ) := by
      have h2 := roundMag_natCast_mono h
      rw [roundMag_natCast_two_mul] at h2
      linarith
    obtain ⟨y, hy, -, hy1⟩ := percentOf_within part total (1 / 2) (by omega) ht h0 roundMag_half
      (by norm_num [roundMag_fifty]) (by norm_num) h1
    rw [hy]
    simp only [F64.gt, F64.lt, Nat.cast_ofNat, decide_eq_false_iff_not, not_lt]
    linarith

/-! ## The passes of `analyze` -/

theorem foldl_total {κ : Type} (l : List (κ × ℕ)) (acc : ℕ) :
    l.foldl (fun acc p => (acc + p.2) % 2 ^ 64) acc % 2 ^ 64 =
      (acc + (l.map Prod.snd).sum) % 2 ^ 64 := by
  induction l generalizing acc with
  | nil => simp
  | cons p l ih =>
    rw [List.foldl_cons, ih]
    simp only [List.map_cons, List.sum_cons]
    omega

theorem foldl_total_zero {κ : Type} (l : List (κ × ℕ)) :
    l.foldl (fun acc p => (acc + p.2) % 2 ^ 64) 0 = totalOf l := by
  have h := foldl_total l 0
  have h2 : l.foldl (fun acc p => (acc + p.2) % 2 ^ 64) 0 < 2 ^ 64 := by
    cases l using List.reverseRecOn with
    | nil => simp
    | append_singleton l a =>
      rw [List.foldl_append]
      simp only [List.foldl_cons, List.foldl_nil]
      exact Nat.mod_lt _ (by norm_num)
  rw [Nat.mod_eq_of_lt h2] at h
  simpa [totalOf] using h

theorem totalOf_perm {κ : Type} {l₁ l₂ : List (κ × ℕ)} (h : l₁.Perm l₂) :
    totalOf l₁ = totalOf l₂ := by
  unfold totalOf
  rw [(h.map Prod.snd).sum_eq]

theorem totalOf_lt {κ : Type} (l : List (κ × ℕ)) : totalOf l < 2 ^ 64 :=
  Nat.mod_lt _ (by norm_num)

theorem calculateBasicStats_newState (R : Runtime) (c : Counter) :
    calculateBasicStats R (newState c) =
      { newState c with
        totalKeys := totalOf c.typeNum
        totalBytes := totalOf c.typeBytes
        avgKeySize :=
          if 0 < totalOf c.typeNum then
            F64.div (F64.ofNat (totalOf c.typeBytes)) (F64.ofNat (totalOf c.typeNum))
          else F64.fin 0 } := by
  unfold calculateBasicStats
  simp only [newState, foldl_total_zero, totalOf_perm (R.mapRange_perm _)]

theorem detectLargeKeys_spec (oa : OpsAnalyzer)
    (h : ∀ e ∈ oa.counter.GetLargestEntries 100, e.Bytes < 2 ^ 64) :
    ∃ crit, detectLargeKeys oa = some
        { oa with
          anomalies := oa.anomalies ++ crit ++
            (if 0 < (oa.counter.GetLargestEntries 100).countP isWarning then
              [largeKeysAnomaly ((oa.counter.GetLargestEntries 100).countP isWarning)]
            else []) } ∧
      List.Forall₂ (fun e a => ∃ size, formatBytes e.Bytes = some size ∧ a = largeKeyAnomaly e size)
        ((oa.counter.GetLargestEntries 100).filter isCritical) crit := by
  obtain ⟨crit, h1, h2⟩ := detectLargeKeysLoop_spec _ oa.anomalies 0 0 h
  refine ⟨crit, ?_, h2⟩
  unfold detectLargeKeys
  rw [h1]
  simp only [zero_add]
  split_ifs <;> simp

theorem analyzeKeyPatterns_eq (oa : OpsAnalyzer) :
    ∃ K, analyzeKeyPatterns oa = { oa with keyPatterns := K } := by
  unfold analyzeKeyPatterns
  generalize oa.counter.GetLargestKeyPrefixes.take 50 = l
  induction l generalizing oa with
  | nil => exact ⟨oa.keyPatterns, rfl⟩
  | cons p l ih =>
    obtain ⟨K, hK⟩ := ih (keyPatternStep oa p)
    exact ⟨K, by rw [List.foldl_cons, hK]; rfl⟩

theorem analyzeClusterBalance_eq (R : Runtime) (oa : OpsAnalyzer) :
    ∃ S U A, analyzeClusterBalance R oa =
      { oa with slotImbalance := S, topSlotsUsage := U, anomalies := A } := by
  unfold analyzeClusterBalance
  split
  · exact ⟨oa.slotImbalance, oa.topSlotsUsage, oa.anomalies, rfl⟩
  · exact ⟨_, _, _, rfl⟩

/-- The state of `analyze` before `generateRecommendations`: the passes return, and
what they leave in the fields that later claims are about. -/
theorem analyzeStats_spec (R : Runtime) (oa : OpsAnalyzer)
    (h : ∀ e ∈ oa.counter.GetLargestEntries 100, e.Bytes < 2 ^ 64) :
    ∃ pre, analyzeStats R oa = some pre ∧ pre.counter = oa.counter ∧
      pre.recommendations = oa.recommendations ∧
      pre.totalBytes = (calculateBasicStats R oa).totalBytes ∧
      pre.memoryHotspots = (detectMemoryHotspots R (calculateBasicStats R oa)).memoryHotspots ∧
      (0 ≤ pre.healthScore ∧ pre.healthScore ≤ 100) ∧
      ((oa.typeEfficiency.map Prod.fst).Nodup → (pre.typeEfficiency.map Prod.fst).Nodup) := by
  unfold analyzeStats
  obtain ⟨crit, h1, -⟩ := detectLargeKeys_spec (calculateBasicStats R oa) h
  rw [h1, Option.some_bind]
  generalize hA : (calculateBasicStats R oa).anomalies ++ crit ++ _ = A0
  obtain ⟨K, hK⟩ := analyzeKeyPatterns_eq (detectTypeImbalance (detectKeyExplosion
    (detectMemoryHotspots R { calculateBasicStats R oa with anomalies := A0 })))
  rw [hK]
  obtain ⟨A, T, h2, h3⟩ := analyzeTypeEfficiency_spec R
    { detectTypeImbalance (detectKeyExplosion
      (detectMemoryHotspots R { calculateBasicStats R oa with anomalies := A0 })) with
      keyPatterns := K }
  rw [h2, Option.some_bind]
  obtain ⟨S, U, A', h4⟩ := analyzeClusterBalance_eq R
    { ({ detectTypeImbalance (detectKeyExplosion
      (detectMemoryHotspots R { calculateBasicStats R oa with anomalies := A0 })) with
      keyPatterns := K } : OpsAnalyzer) with anomalies := A, typeEfficiency := T }
  rw [h4]
  refine ⟨_, rfl, ?_, ?_, ?_, ?_, healthScore_range _, ?_⟩
  · simp only [calculateHealthScore, detectTypeImbalance, detectKeyExplosion,
      detectMemoryHotspots_eq, calculateBasicStats]
  · simp only [calculateHealthScore, detectTypeImbalance, detectKeyExplosion,
      detectMemoryHotspots_eq, calculateBasicStats]
  · simp only [calculateHealthScore, detectTypeImbalance, detectKeyExplosion,
      detectMemoryHotspots_eq, calculateBasicStats]
  · simp only [calculateHealthScore, detectTypeImbalance, detectKeyExplosion,
      detectMemoryHotspots_eq, calculateBasicStats]
  · intro hnd
    apply h3
    simpa only [calculateHealthScore, detectTypeImbalance, detectKeyExplosion,
      detectMemoryHotspots_eq, calculateBasicStats] using hnd

/-! ## The claims -/

theorem Counter.WF.largest {c : Counter} (hc : c.WF) (n : ℕ) :
    ∀ e ∈ c.GetLargestEntries n, e.Bytes < 2 ^ 64 := by
  intro e he
  exact (hc.2.2.2.2.1 e (List.mem_of_mem_take he)).1

theorem sampleCounter_wf : sampleCounter.WF := by
  simp [Counter.WF, sampleCounter]

/-- C1: for every snapshot summary whose numbers are `uint64` values the analysis
returns, and the health score it produces lies between 0 and 100. -/
theorem healthScore_in_range (R : Runtime) (c : Counter) (hc : c.WF) :
    ∃ oa, NewOpsAnalyzer R c = some oa ∧ 0 ≤ oa.healthScore ∧ oa.healthScore ≤ 100 := by
  obtain ⟨pre, h1, -, -, -, -, h2, -⟩ := analyzeStats_spec R (newState c) (hc.largest 100)
  exact ⟨generateRecommendations R pre, by simp [NewOpsAnalyzer, analyze, h1], h2⟩

/-- C1 at the sample snapshot. -/
theorem healthScore_in_range_witness :
    sampleCounter.WF ∧
      ∃ oa, NewOpsAnalyzer goRuntime sampleCounter = some oa ∧ 0 ≤ oa.healthScore ∧
        oa.healthScore ≤ 100 :=
  ⟨sampleCounter_wf, healthScore_in_range goRuntime sampleCounter sampleCounter_wf⟩

/-- C2: `calculateHealthScore` sets the score to
`max 0 (100 - 15*c - 8*w - 3*i - K - S)`, where `c`, `w`, `i` count the critical,
warning and info anomalies, `K` is 10 above 100,000,000 keys, else 5 above
50,000,000, else 0, and `S` is 10 above an average key size of 1 MiB, else 5 above
100 KiB, else 0; so the score is the same for every permutation of the anomaly
list. -/
theorem calculateHealthScore_formula (oa : OpsAnalyzer) :
    (calculateHealthScore oa).healthScore =
        max 0 (100 - 15 * (countLevel "critical" oa.anomalies : Int)
          - 8 * (countLevel "warning" oa.anomalies : Int)
          - 3 * (countLevel "info" oa.anomalies : Int)
          - specKeyPenalty oa.totalKeys - specSizePenalty oa.avgKeySize) ∧
      ∀ anomalies : List Anomaly, anomalies.Perm oa.anomalies →
        (calculateHealthScore { oa with anomalies := anomalies }).healthScore =
          (calculateHealthScore oa).healthScore := by
  refine ⟨healthScore_calculateHealthScore oa, ?_⟩
  intro anomalies hp
  rw [healthScore_calculateHealthScore, healthScore_calculateHealthScore]
  unfold specHealthScore
  simp only [countLevel_perm hp]

/-- C7: after the analysis the hotspot list is in non-increasing order of
`MemoryUsed`. -/
theorem memoryHotspots_sorted_desc (R : Runtime) (c : Counter) (hc : c.WF) :
    ∃ oa, NewOpsAnalyzer R c = some oa ∧
      oa.memoryHotspots.Pairwise (fun a b => a.MemoryUsed ≥ b.MemoryUsed) := by
  obtain ⟨pre, h1, -, -, -, h2, -, -⟩ := analyzeStats_spec R (newState c) (hc.largest 100)
  refine ⟨generateRecommendations R pre, by simp [NewOpsAnalyzer, analyze, h1], ?_⟩
  show pre.memoryHotspots.Pairwise _
  rw [h2]
  exact memoryHotspots_sorted R _

/-- C7 at the sample snapshot. -/
theorem memoryHotspots_sorted_desc_witness :
    sampleCounter.WF ∧
      ∃ oa, NewOpsAnalyzer goRuntime sampleCounter = some oa ∧
        oa.memoryHotspots.Pairwise (fun a b => a.MemoryUsed ≥ b.MemoryUsed) :=
  ⟨sampleCounter_wf, memoryHotspots_sorted_desc goRuntime sampleCounter sampleCounter_wf⟩

/-- C2 at a state with one warning and one critical anomaly, for the two orders of
the list. -/
theorem calculateHealthScore_formula_witness :
    [largeKeysAnomaly 1, largeKeyAnomaly ⟨[], [], 0, 0⟩ []].Perm
        [largeKeyAnomaly ⟨[], [], 0, 0⟩ [], largeKeysAnomaly 1] ∧
      (calculateHealthScore
        { newState sampleCounter with
          anomalies := [largeKeysAnomaly 1, largeKeyAnomaly ⟨[], [], 0, 0⟩ []] }).healthScore =
      (calculateHealthScore
        { newState sampleCounter with
          anomalies := [largeKeyAnomaly ⟨[], [], 0, 0⟩ [], largeKeysAnomaly 1] }).healthScore :=
  ⟨List.Perm.swap _ _ _,
    (calculateHealthScore_formula
      { newState sampleCounter with
        anomalies := [largeKeyAnomaly ⟨[], [], 0, 0⟩ [], largeKeysAnomaly 1] }).2 _
      (List.Perm.swap _ _ _)⟩

/-- C10: `detectLargeKeys` appends one critical/memory anomaly for each entry of at
least 50 MiB among the 100 largest, in entry order, each naming the key and
carrying the formatted size, then one warning/memory anomaly whose value is the
number of entries of at least 10 MiB and less than 50 MiB when that number is
positive, and nothing else. -/
theorem detectLargeKeys_appends (oa : OpsAnalyzer)
    (h : ∀ e ∈ oa.counter.GetLargestEntries 100, e.Bytes < 2 ^ 64) :
    ∃ oa' crit agg,
      detectLargeKeys oa = some oa' ∧ oa'.anomalies = oa.anomalies ++ crit ++ agg ∧
      List.Forall₂
        (fun e a => a.Level = "critical" ∧ a.Category = "memory" ∧
          Piece.str (truncateKey e.Key) ∈ a.Description ∧ formatBytes e.Bytes = some a.Value)
        ((oa.counter.GetLargestEntries 100).filter isCritical) crit ∧
      ((oa.counter.GetLargestEntries 100).countP isWarning = 0 → agg = []) ∧
      (0 < (oa.counter.GetLargestEntries 100).countP isWarning →
        ∃ a, agg = [a] ∧ a.Level = "warning" ∧ a.Category = "memory" ∧
          a.Value =
            [Piece.int ((oa.counter.GetLargestEntries 100).countP isWarning), Piece.lit " keys"]) ∧
      (crit ++ agg).length =
        ((oa.counter.GetLargestEntries 100).filter isCritical).length +
          (if 0 < (oa.counter.GetLargestEntries 100).countP isWarning then 1 else 0) := by
  obtain ⟨crit, h1, h2⟩ := detectLargeKeys_spec oa h
  refine ⟨_, crit, _, h1, rfl, ?_, ?_, ?_, ?_⟩
  · refine h2.imp ?_
    rintro e a ⟨size, hs, rfl⟩
    exact ⟨rfl, rfl, by simp [largeKeyAnomaly], hs⟩
  · intro h0
    simp [h0]
  · intro h0
    exact ⟨largeKeysAnomaly ((oa.counter.GetLargestEntries 100).countP isWarning),
      by simp [h0], rfl, rfl, rfl⟩
  · rw [List.length_append, h2.length_eq]
    split_ifs <;> simp

/-- C10 at the sample snapshot. -/
theorem detectLargeKeys_appends_witness :
    (∀ e ∈ (newState sampleCounter).counter.GetLargestEntries 100, e.Bytes < 2 ^ 64) ∧
    ∃ oa' crit agg,
      detectLargeKeys (newState sampleCounter) = some oa' ∧
      oa'.anomalies = (newState sampleCounter).anomalies ++ crit ++ agg ∧
      List.Forall₂
        (fun e a => a.Level = "critical" ∧ a.Category = "memory" ∧
          Piece.str (truncateKey e.Key) ∈ a.Description ∧ formatBytes e.Bytes = some a.Value)
        (((newState sampleCounter).counter.GetLargestEntries 100).filter isCritical) crit ∧
      (((newState sampleCounter).counter.GetLargestEntries 100).countP isWarning = 0 → agg = []) ∧
      (0 < ((newState sampleCounter).counter.GetLargestEntries 100).countP isWarning →
        ∃ a, agg = [a] ∧ a.Level = "warning" ∧ a.Category = "memory" ∧
          a.Value =
            [Piece.int (((newState sampleCounter).counter.GetLargestEntries 100).countP isWarning),
              Piece.lit " keys"]) ∧
      (crit ++ agg).length =
        (((newState sampleCounter).counter.GetLargestEntries 100).filter isCritical).length +
          (if 0 < ((newState sampleCounter).counter.GetLargestEntries 100).countP isWarning then 1
          else 0) :=
  ⟨sampleCounter_wf.largest 100,
    detectLargeKeys_appends (newState sampleCounter) (sampleCounter_wf.largest 100)⟩

/-! ## `generateRecommendations` -/

theorem foldl_typeRecommendationStep (l : List (GoString × TypeEfficiency))
    (recs : List Recommendation) :
    l.foldl typeRecommendationStep recs =
      recs ++ (l.filter
        (fun p => F64.lt p.2.Efficiency (F64.ofNat 60) && decide (p.1 = goStr "string"))).map
        (fun p => stringRecommendation p.2.Efficiency) := by
  induction l generalizing recs with
  | nil => simp
  | cons p l ih =>
    rw [List.foldl_cons, ih]
    unfold typeRecommendationStep
    by_cases h : (F64.lt p.2.Efficiency (F64.ofNat 60) && decide (p.1 = goStr "string")) = true
    · simp only [h, if_true, List.filter_cons, List.map_cons, List.append_assoc,
        List.singleton_append]
    · simp only [h, if_false, List.filter_cons]
      simp

theorem length_filter_key_le_one {ν : Type} (k : GoString) (f : GoString × ν → Bool) :
    ∀ l : List (GoString × ν), (l.map Prod.fst).Nodup →
      (l.filter (fun p => f p && decide (p.1 = k))).length ≤ 1 := by
  intro l
  induction l with
  | nil => intro _; simp
  | cons p l ih =>
    intro hnd
    rw [List.map_cons, List.nodup_cons] at hnd
    rw [List.filter_cons]
    split
    · rename_i hp
      have hk : p.1 = k := by
        simp only [Bool.and_eq_true, decide_eq_true_eq] at hp
        exact hp.2
      have : l.filter (fun p => f p && decide (p.1 = k)) = [] := by
        rw [List.filter_eq_nil_iff]
        intro q hq hq2
        have hqk : q.1 = k := by
          simp only [Bool.and_eq_true, decide_eq_true_eq] at hq2
          exact hq2.2
        exact hnd.1 (List.mem_map.2 ⟨q, hq, by rw [hqk, hk]⟩)
      simp [this]
    · exact ih hnd.2

theorem foldl_count {α : Type} (l : List α) (n : ℕ) : l.foldl (fun n _ => n + 1) n = n + l.length := by
  induction l generalizing n with
  | nil => simp
  | cons a l ih => rw [List.foldl_cons, ih, List.length_cons]; omega

/-- The recommendations before the sort, for a state whose list is still empty. -/
theorem generatedRecommendations_eq (R : Runtime) (pre : OpsAnalyzer)
    (h : pre.recommendations = []) :
    generatedRecommendations R pre =
      (if 10 * 1024 * 1024 * 1024 < pre.totalBytes then [evictionRecommendation] else []) ++
      (if 50 < (pre.counter.GetLargestEntries 100).length then [ttlRecommendation] else []) ++
      ((R.mapRange pre.typeEfficiency).filter
        (fun p => F64.lt p.2.Efficiency (F64.ofNat 60) && decide (p.1 = goStr "string"))).map
        (fun p => stringRecommendation p.2.Efficiency) ++
      [monitoringRecommendation] := by
  unfold generatedRecommendations
  simp only [foldl_typeRecommendationStep, foldl_count, h, zero_add]
  split_ifs <;> simp

theorem generatedRecommendations_priorities (R : Runtime) (pre : OpsAnalyzer)
    (h : pre.recommendations = []) (hnd : (pre.typeEfficiency.map Prod.fst).Nodup) :
    ((generatedRecommendations R pre).map (fun r => r.Priority)).Nodup := by
  rw [generatedRecommendations_eq R pre h]
  have hnd' : ((R.mapRange pre.typeEfficiency).map Prod.fst).Nodup :=
    ((R.mapRange_perm pre.typeEfficiency).map Prod.fst).nodup_iff.2 hnd
  have hlen := length_filter_key_le_one (goStr "string")
    (fun p : GoString × TypeEfficiency => F64.lt p.2.Efficiency (F64.ofNat 60)) _ hnd'
  generalize (R.mapRange pre.typeEfficiency).filter
    (fun p => F64.lt p.2.Efficiency (F64.ofNat 60) && decide (p.1 = goStr "string")) = fl at hlen
  match fl, hlen with
  | [], _ =>
    split_ifs <;>
      simp [evictionRecommendation, ttlRecommendation, monitoringRecommendation]
  | [x], _ =>
    split_ifs <;>
      simp [evictionRecommendation, ttlRecommendation, monitoringRecommendation,
        stringRecommendation]

theorem filter_eq_of_perm_of_nodup {α β : Type} [DecidableEq β] (f : α → β) {l₁ l₂ : List α}
    (hp : l₁.Perm l₂) (hnd : (l₂.map f).Nodup) (b : β) :
    l₁.filter (fun x => decide (f x = b)) = l₂.filter (fun x => decide (f x = b)) := by
  have h1 : (l₁.filter (fun x => decide (f x = b))).Perm (l₂.filter (fun x => decide (f x = b))) :=
    hp.filter _
  have h2 : (l₂.filter (fun x => decide (f x = b))).length ≤ 1 := by
    have hs : ((l₂.filter (fun x => decide (f x = b))).map f).Nodup :=
      hnd.sublist ((List.filter_sublist l₂).map f)
    match hl : l₂.filter (fun x => decide (f x = b)) with
    | [] => simp
    | [_] => simp
    | x :: y :: t =>
      exfalso
      rw [hl] at hs
      have hx : f x = b := by
        have : x ∈ l₂.filter (fun x => decide (f x = b)) := by rw [hl]; simp
        simpa using (List.mem_filter.1 this).2
      have hy : f y = b := by
        have : y ∈ l₂.filter (fun x => decide (f x = b)) := by rw [hl]; simp
        simpa using (List.mem_filter.1 this).2
      simp [hx, hy] at hs
  match hl : l₂.filter (fun x => decide (f x = b)), h2 with
  | [], _ => rw [hl] at h1; exact List.perm_nil.1 h1
  | [x], _ => rw [hl] at h1; exact List.perm_singleton.1 h1

theorem strictWeakOrder_asc {α : Type} (f : α → ℤ) :
    StrictWeakOrder (fun a b : α => decide (f a < f b)) := by
  refine ⟨?_, ?_, ?_⟩
  · intro a; simp
  · intro a b c h1 h2
    simp only [decide_eq_true_eq] at *
    omega
  · intro a b c h1 h2
    simp only [decide_eq_false_iff_not] at *
    omega

theorem recommendations_analyze (R : Runtime) (c : Counter) (hc : c.WF) :
    ∃ pre, analyzeStats R (newState c) = some pre ∧
      NewOpsAnalyzer R c = some (generateRecommendations R pre) ∧
      pre.recommendations = [] ∧ (pre.typeEfficiency.map Prod.fst).Nodup := by
  obtain ⟨pre, h1, -, h2, -, -, -, h3⟩ := analyzeStats_spec R (newState c) (hc.largest 100)
  exact ⟨pre, h1, by simp [NewOpsAnalyzer, analyze, h1], h2, h3 (by simp [newState])⟩

/-- C8: the recommendations of the analysis are in non-decreasing order of
`Priority`, and for every priority the recommendations of that priority stand in
the order in which `generateRecommendations` appended them. -/
theorem recommendations_sorted_stable (R : Runtime) (c : Counter) (hc : c.WF) :
    ∃ pre oa, analyzeStats R (newState c) = some pre ∧ NewOpsAnalyzer R c = some oa ∧
      oa.recommendations.Pairwise (fun a b => a.Priority ≤ b.Priority) ∧
      ∀ p : Int, oa.recommendations.filter (fun r => decide (r.Priority = p)) =
        (generatedRecommendations R pre).filter (fun r => decide (r.Priority = p)) := by
  obtain ⟨pre, h1, h2, h3, h4⟩ := recommendations_analyze R c hc
  refine ⟨pre, _, h1, h2, ?_, ?_⟩
  · show (R.sortSlice _ _).Pairwise _
    refine (R.sortSlice_sorted _ _
      (strictWeakOrder_asc (fun r : Recommendation => r.Priority))).imp ?_
    intro a b h
    simpa using h
  · intro p
    exact filter_eq_of_perm_of_nodup (fun r : Recommendation => r.Priority)
      (R.sortSlice_perm _ _) (generatedRecommendations_priorities R pre h3 h4) p

/-- C8 at the sample snapshot. -/
theorem recommendations_sorted_stable_witness :
    sampleCounter.WF ∧
    ∃ pre oa, analyzeStats goRuntime (newState sampleCounter) = some pre ∧
      NewOpsAnalyzer goRuntime sampleCounter = some oa ∧
      oa.recommendations.Pairwise (fun a b => a.Priority ≤ b.Priority) ∧
      ∀ p : Int, oa.recommendations.filter (fun r => decide (r.Priority = p)) =
        (generatedRecommendations goRuntime pre).filter (fun r => decide (r.Priority = p)) :=
  ⟨sampleCounter_wf, recommendations_sorted_stable goRuntime sampleCounter sampleCounter_wf⟩

theorem emptyCounter_wf : emptyCounter.WF := by
  simp [Counter.WF, emptyCounter]

/-- C9: the recommendation list of the analysis is never empty and holds exactly one
recommendation of category "monitoring" and priority 4, "Enable Redis Slow Log". -/
theorem monitoring_recommendation_once (R : Runtime) (c : Counter) (hc : c.WF) :
    ∃ oa, NewOpsAnalyzer R c = some oa ∧ oa.recommendations ≠ [] ∧
      oa.recommendations.filter (fun r => decide (r.Category = "monitoring" ∧ r.Priority = 4)) =
        [monitoringRecommendation] ∧
      monitoringRecommendation.Title = "Enable Redis Slow Log" := by
  obtain ⟨pre, -, h2, h3, -⟩ := recommendations_analyze R c hc
  have hperm : (generateRecommendations R pre).recommendations.Perm
      (generatedRecommendations R pre) := R.sortSlice_perm _ _
  have hgen : (generatedRecommendations R pre).filter
      (fun r => decide (r.Category = "monitoring" ∧ r.Priority = 4)) =
        [monitoringRecommendation] := by
    rw [generatedRecommendations_eq R pre h3]
    simp only [List.filter_append, List.filter_map]
    have e1 : ((R.mapRange pre.typeEfficiency).filter
        (fun p => F64.lt p.2.Efficiency (F64.ofNat 60) && decide (p.1 = goStr "string"))).filter
        ((fun r => decide (r.Category = "monitoring" ∧ r.Priority = 4)) ∘
          fun p => stringRecommendation p.2.Efficiency) = [] := by
      rw [List.filter_eq_nil_iff]
      intro q _
      simp [stringRecommendation]
    rw [e1]
    split_ifs <;>
      simp [evictionRecommendation, ttlRecommendation, monitoringRecommendation]
  have hfil := hperm.filter (fun r => decide (r.Category = "monitoring" ∧ r.Priority = 4))
  rw [hgen] at hfil
  refine ⟨_, h2, ?_, List.perm_singleton.1 hfil, rfl⟩
  intro hnil
  rw [hnil] at hfil
  simpa using hfil.length_eq

/-- C9 at the empty snapshot: no keys, no bytes, no entries and no prefix groups. -/
theorem monitoring_recommendation_once_witness :
    emptyCounter.WF ∧
    ∃ oa, NewOpsAnalyzer goRuntime emptyCounter = some oa ∧ oa.recommendations ≠ [] ∧
      oa.recommendations.filter (fun r => decide (r.Category = "monitoring" ∧ r.Priority = 4)) =
        [monitoringRecommendation] ∧
      monitoringRecommendation.Title = "Enable Redis Slow Log" :=
  ⟨emptyCounter_wf, monitoring_recommendation_once goRuntime emptyCounter emptyCounter_wf⟩

/-! ## Evaluating `float64` expressions -/

theorem F64.round_ofNat (n : ℕ) [n.AtLeastTwo] (h : n < 2 ^ 53) :
    F64.round (OfNat.ofNat n : ℚ) = F64.fin (OfNat.ofNat n) := by
  have := F64.round_natCast n h
  simpa using this

theorem F64.round_zero : F64.round 0 = F64.fin 0 := by
  simpa using F64.round_natCast 0 (by norm_num)

theorem F64.round_one : F64.round 1 = F64.fin 1 := by
  simpa using F64.round_natCast 1 (by norm_num)

theorem F64.div_fin (a b : ℚ) (hb : b ≠ 0) :
    F64.div (F64.fin a) (F64.fin b) = F64.round (a / b) := by
  simp [F64.div, hb]

theorem F64.mul_fin (a b : ℚ) : F64.mul (F64.fin a) (F64.fin b) = F64.round (a * b) := rfl

theorem F64.sub_fin (a b : ℚ) : F64.sub (F64.fin a) (F64.fin b) = F64.round (a - b) := by
  simp [F64.sub, F64.add, F64.neg, sub_eq_add_neg]

theorem F64.add_fin (a b : ℚ) : F64.add (F64.fin a) (F64.fin b) = F64.round (a + b) := rfl

theorem F64.round_repr (m : ℕ) (e : ℤ) (hm : m < 2 ^ 53) (he : -1074 ≤ e) (he2 : e ≤ 960) :
    F64.round ((m : ℚ) * 2 ^ e) = F64.fin ((m : ℚ) * 2 ^ e) := by
  have hr := roundMag_repr m e hm he
  have h0 : (0 : ℚ) ≤ (m : ℚ) * 2 ^ e := mul_nonneg (Nat.cast_nonneg m) (two_zpow_pos e).le
  have hlt : (m : ℚ) * 2 ^ e < 2 ^ 1024 := by
    have h1 : (m : ℚ) ≤ 2 ^ 53 := by exact_mod_cast hm.le
    have h2 : (2 : ℚ) ^ e ≤ 2 ^ (960 : ℤ) := zpow_le_zpow_right₀ (by norm_num) he2
    calc (m : ℚ) * 2 ^ e ≤ 2 ^ 53 * 2 ^ (960 : ℤ) :=
          mul_le_mul h1 h2 (two_zpow_pos e).le (by norm_num)
      _ < 2 ^ 1024 := by norm_num
  obtain ⟨r, h1, h2, -, -⟩ := F64.round_within h0 le_rfl hr hlt
  rw [h1, h2, hr]

theorem percentOf_of_exact (part total q : ℕ) (ht0 : 0 < total) (hq : part = q * total)
    (h1 : F64.ofNat part = F64.fin part) (h2 : F64.ofNat total = F64.fin total)
    (h3 : F64.round (q : ℚ) = F64.fin q) (h4 : F64.round ((q : ℚ) * 100) = F64.fin (q * 100)) :
    percentOf part total = F64.fin ((q : ℚ) * 100) := by
  have ht : (total : ℚ) ≠ 0 := by exact_mod_cast ht0.ne'
  unfold percentOf
  rw [h1, h2, F64.ofNat_small 100 (by norm_num), F64.div_fin _ _ ht]
  have : (part : ℚ) / total = q := by
    rw [hq]
    push_cast
    field_simp
  rw [this, h3, F64.mul_fin]
  simpa using h4

theorem percentOf_zero_zero : percentOf 0 0 = F64.nan := by
  norm_num [percentOf, F64.ofNat_small, F64.div, F64.mul]

theorem Runtime.sortSlice_replicate (R : Runtime) {α : Type} (less : α → α → Bool) (n : ℕ) (a : α) :
    R.sortSlice less (List.replicate n a) = List.replicate n a :=
  List.perm_replicate.1 (R.sortSlice_perm less _)

theorem Runtime.sortSlice_singleton (R : Runtime) {α : Type} (less : α → α → Bool) (a : α) :
    R.sortSlice less [a] = [a] :=
  List.perm_singleton.1 (R.sortSlice_perm less _)

theorem Runtime.sortSlice_nil (R : Runtime) {α : Type} (less : α → α → Bool) :
    R.sortSlice less [] = [] :=
  List.perm_nil.1 (R.sortSlice_perm less _)

theorem Runtime.mapRange_singleton (R : Runtime) {κ ν : Type} (p : κ × ν) :
    R.mapRange [p] = [p] :=
  List.perm_singleton.1 (R.mapRange_perm _)

theorem Runtime.mapRange_nil (R : Runtime) {κ ν : Type} :
    R.mapRange ([] : List (κ × ν)) = [] :=
  List.perm_nil.1 (R.mapRange_perm _)

theorem formatBytes_60MiB :
    formatBytes 62914560 =
      some [Piece.f1 (F64.fin 60), Piece.lit " ", Piece.chr 'M', Piece.lit "B"] := by
  have hloop : formatBytesLoop (62914560 / 1024) 1024 0 = (1048576, 1) := by
    rw [formatBytesLoop, if_pos (by norm_num), formatBytesLoop, if_neg (by norm_num)]
    norm_num
  have hdiv : F64.div (F64.ofNat 62914560) (F64.ofNat 1048576) = F64.fin 60 := by
    rw [F64.ofNat_small _ (by norm_num), F64.ofNat_small _ (by norm_num),
      F64.div_fin _ _ (by norm_num)]
    norm_num
    exact F64.round_ofNat 60 (by norm_num)
  unfold formatBytes
  rw [if_neg (by norm_num), hloop]
  have h3 : "KMGTPE".toList = ['K', 'M', 'G', 'T', 'P', 'E'] := by decide
  simp only [h3, hdiv]
  rfl

/-! ## A type whose sampled sizes are all equal -/

theorem foldl_size_sum (l : List ℕ) (acc : ℕ) :
    l.foldl (fun acc size => (acc + size) % 2 ^ 64) acc % 2 ^ 64 = (acc + l.sum) % 2 ^ 64 := by
  induction l generalizing acc with
  | nil => simp
  | cons a l ih =>
    rw [List.foldl_cons, ih]
    simp only [List.sum_cons]
    omega

theorem foldl_size_sum_replicate (n x : ℕ) (hn : 0 < n) (hx : n * x < 2 ^ 64) :
    (List.replicate n x).foldl (fun acc size => (acc + size) % 2 ^ 64) 0 = n * x := by
  have h := foldl_size_sum (List.replicate n x) 0
  have h2 : (List.replicate n x).foldl (fun acc size => (acc + size) % 2 ^ 64) 0 < 2 ^ 64 := by
    obtain ⟨m, rfl⟩ : ∃ m, n = m + 1 := ⟨n - 1, by omega⟩
    rw [List.replicate_succ', List.foldl_append]
    simp only [List.foldl_cons, List.foldl_nil]
    exact Nat.mod_lt _ (by norm_num)
  rw [Nat.mod_eq_of_lt h2] at h
  rw [h]
  simp only [zero_add, List.sum_replicate, smul_eq_mul]
  exact Nat.mod_eq_of_lt hx

theorem foldl_variance_replicate (n x avg : ℕ) (h : F64.ofNat x = F64.ofNat avg)
    (hx : x < 2 ^ 64) :
    (List.replicate n x).foldl
      (fun acc size =>
        let diff := F64.sub (F64.ofNat size) (F64.ofNat avg)
        F64.add acc (F64.mul diff diff))
      (F64.fin 0) = F64.fin 0 := by
  induction n with
  | zero => rfl
  | succ n ih =>
    rw [List.replicate_succ', List.foldl_append, ih]
    simp only [List.foldl_cons, List.foldl_nil]
    rw [← h, (F64.ofNat_fin x hx).1, F64.sub_fin, sub_self, F64.round_zero, F64.mul_fin,
      mul_zero, F64.round_zero, F64.add_fin, add_zero, F64.round_zero]

theorem typeEfficiencyStep_replicate (R : Runtime) (oa : OpsAnalyzer) (typ : GoString)
    (n x : ℕ) (hn : 0 < n) (hn2 : n ≤ 2 ^ 32) (hx : n * x < 2 ^ 64) :
    typeEfficiencyStep R oa (typ, List.replicate n x) =
      some { oa with
        typeEfficiency := mapSet oa.typeEfficiency typ
          { AvgSize := x
            MedianSize := x
            P95Size := x
            P99Size := x
            Efficiency := F64.fin 100
            WastedMemory := 0
            OptimalType := typ }
        anomalies := oa.anomalies } := by
  have hx64 : x < 2 ^ 64 := lt_of_le_of_lt (Nat.le_mul_of_pos_left x hn) hx
  have hlen : (List.replicate n x).length = n := List.length_replicate _ _
  have hmed : (List.replicate n x).get? (n / 2) = some x := by
    rw [List.get?_eq_get (by rw [hlen]; exact Nat.div_lt_self hn (by norm_num))]
    simp
  have hidx : ∀ c : ℚ, 0 ≤ c → c ≤ 127 / 128 →
      (F64.toInt (F64.mul (F64.ofNat n) (F64.round c))).bind (sliceIndex (List.replicate n x)) =
        some x := by
    intro c hc0 hc1
    obtain ⟨i, hi, hi0, hi1⟩ := percentileIndex_valid n hn hn2 c hc0 hc1
    obtain ⟨v, hv, hmem⟩ := sliceIndex_isSome (List.replicate n x) i hi0 (by rw [hlen]; exact hi1)
    rw [hi, Option.some_bind, hv, List.eq_of_mem_replicate hmem]
  have havg : n * x / n = x := Nat.mul_div_cancel_left x hn
  have hn0 : (n : ℚ) ≠ 0 := by exact_mod_cast hn.ne'
  have hvar : F64.div (F64.fin 0) (F64.ofNat n) = F64.fin 0 := by
    rw [F64.ofNat_small n (lt_of_le_of_lt hn2 (by norm_num)), F64.div_fin _ _ hn0, zero_div,
      F64.round_zero]
  have hsqrt : F64.sqrt (F64.fin 0) = F64.fin 0 := by simp [F64.sqrt]
  have heff : (if 0 < x then
        F64.max (F64.fin 0)
          (F64.sub (F64.ofNat 100)
            (F64.mul (F64.div (F64.fin 0) (F64.ofNat x)) (F64.ofNat 100)))
      else F64.ofNat 100) = F64.fin 100 := by
    have h100 : F64.ofNat 100 = F64.fin 100 := by
      simpa using F64.ofNat_small 100 (by norm_num)
    split
    · rename_i hx0
      have hr := one_le_roundMag_natCast x hx0
      rw [(F64.ofNat_fin x hx64).1, F64.div_fin _ _ (by linarith), zero_div, F64.round_zero, h100,
        F64.mul_fin, zero_mul, F64.round_zero, F64.sub_fin, sub_zero,
        F64.round_ofNat 100 (by norm_num)]
      simp [F64.max, F64.lt]
    · exact h100
  have hlt : F64.lt (F64.fin 100) (F64.ofNat 50) = false := by
    rw [F64.ofNat_small 50 (by norm_num)]
    simp [F64.lt]
    norm_num
  unfold typeEfficiencyStep
  simp only [R.sortSlice_replicate, hlen, hn.ne', if_false, hmed,
    hidx (95 / 100) (by norm_num) (by norm_num), hidx (99 / 100) (by norm_num) (by norm_num),
    foldl_size_sum_replicate n x hn hx, havg, foldl_variance_replicate n x x rfl hx64, hvar, hsqrt,
    heff, hlt]
  rfl

/-! ## The passes on snapshots with few entries -/

theorem detectLargeKeys_of_loop (oa : OpsAnalyzer) (res : List Anomaly × ℕ × ℕ)
    (h : detectLargeKeysLoop (oa.counter.GetLargestEntries 100) (oa.anomalies, 0, 0) = some res) :
    detectLargeKeys oa = some { oa with
      anomalies := if 0 < res.2.2 then res.1 ++ [largeKeysAnomaly res.2.2] else res.1 } := by
  unfold detectLargeKeys
  rw [h]

theorem getLargestEntries_nil (c : Counter) (n : ℕ) (h : c.largestEntries = []) :
    c.GetLargestEntries n = [] := by
  simp [Counter.GetLargestEntries, h]

theorem getLargestEntries_singleton (c : Counter) (n : ℕ) (e : Entry) (h : c.largestEntries = [e]) :
    c.GetLargestEntries (n + 1) = [e] := by
  simp [Counter.GetLargestEntries, h]

theorem detectLargeKeys_nil (oa : OpsAnalyzer) (h : oa.counter.largestEntries = []) :
    detectLargeKeys oa = some oa := by
  rw [detectLargeKeys_of_loop oa (oa.anomalies, 0, 0)
    (by rw [getLargestEntries_nil _ _ h, detectLargeKeysLoop])]
  simp

theorem detectLargeKeys_singleton (oa : OpsAnalyzer) (e : Entry) (size : Text)
    (h : oa.counter.largestEntries = [e]) (hc : criticalSize ≤ e.Bytes)
    (hs : formatBytes e.Bytes = some size) :
    detectLargeKeys oa =
      some { oa with anomalies := oa.anomalies ++ [largeKeyAnomaly e size] } := by
  rw [detectLargeKeys_of_loop oa (oa.anomalies ++ [largeKeyAnomaly e size], 1, 0)
    (by
      rw [getLargestEntries_singleton _ 99 e h, detectLargeKeysLoop, if_pos hc, hs]
      simp only [detectLargeKeysLoop, zero_add])]
  simp

theorem tinyKeyCount_le (l : List Entry) (n : ℕ) :
    l.foldl (fun n entry => if entry.Bytes < 100 then (n + 1) % 2 ^ 64 else n) n ≤ n + l.length := by
  induction l generalizing n with
  | nil => simp
  | cons e l ih =>
    rw [List.foldl_cons, List.length_cons]
    refine le_trans (ih _) ?_
    split
    · have := Nat.mod_le (n + 1) (2 ^ 64)
      omega
    · omega

theorem detectKeyExplosion_of_few (oa : OpsAnalyzer) (h : oa.counter.largestEntries.length ≤ 100) :
    detectKeyExplosion oa =
      { oa with
        anomalies :=
          if 10000000 < oa.totalKeys then oa.anomalies ++ [highKeyCountAnomaly oa.totalKeys]
          else oa.anomalies } := by
  unfold detectKeyExplosion
  have h1 := tinyKeyCount_le (oa.counter.GetLargestEntries 500) 0
  have h2 : (oa.counter.GetLargestEntries 500).length ≤ oa.counter.largestEntries.length := by
    unfold Counter.GetLargestEntries
    exact List.length_take_le' _ _
  have h3 : ¬ 100 < (oa.counter.GetLargestEntries 500).foldl
      (fun n entry => if entry.Bytes < 100 then (n + 1) % 2 ^ 64 else n) 0 := by omega
  simp only [h3, decide_False, Bool.false_and, Bool.false_eq_true, if_false]

theorem detectTypeImbalance_of_small (oa : OpsAnalyzer)
    (h : ∀ e ∈ oa.counter.largestEntries, e.NumOfElem ≤ 1000000) :
    detectTypeImbalance oa = oa := by
  unfold detectTypeImbalance
  have key : ∀ (l : List Entry) (A : List Anomaly), (∀ e ∈ l, e.NumOfElem ≤ 1000000) →
      l.foldl typeImbalanceStep A = A := by
    intro l
    induction l with
    | nil => intro A _; rfl
    | cons e l ih =>
      intro A hl
      rw [List.foldl_cons]
      have he := hl e (List.mem_cons_self _ _)
      have : typeImbalanceStep A e = A := by
        unfold typeImbalanceStep hugeCollectionSize
        rw [if_neg (by omega)]
      rw [this]
      exact ih A (fun x hx => hl x (List.mem_cons_of_mem _ hx))
  rw [key (oa.counter.GetLargestEntries 100) oa.anomalies
    (fun e he => h e (List.mem_of_mem_take he))]

theorem analyzeKeyPatterns_nil (oa : OpsAnalyzer) (h : oa.counter.largestKeyPrefixes = []) :
    analyzeKeyPatterns oa = oa := by
  simp [analyzeKeyPatterns, Counter.GetLargestKeyPrefixes, h]

theorem analyzeTypeEfficiency_nil (R : Runtime) (oa : OpsAnalyzer)
    (h : oa.counter.largestEntries = []) : analyzeTypeEfficiency R oa = some oa := by
  unfold analyzeTypeEfficiency
  rw [getLargestEntries_nil _ _ h]
  simp [groupByType, R.mapRange_nil]

theorem analyzeTypeEfficiency_singleton (R : Runtime) (oa : OpsAnalyzer) (e : Entry)
    (h : oa.counter.largestEntries = [e]) (hb : e.Bytes < 2 ^ 64) :
    analyzeTypeEfficiency R oa =
      some { oa with
        typeEfficiency := mapSet oa.typeEfficiency e.Type_
          { AvgSize := e.Bytes
            MedianSize := e.Bytes
            P95Size := e.Bytes
            P99Size := e.Bytes
            Efficiency := F64.fin 100
            WastedMemory := 0
            OptimalType := e.Type_ } } := by
  unfold analyzeTypeEfficiency
  rw [getLargestEntries_singleton _ 499 e h]
  have hg : groupByType [e] = [(e.Type_, List.replicate 1 e.Bytes)] := by
    simp [groupByType, mapSet, mapGetSlice]
  rw [hg, R.mapRange_singleton, List.foldlM_cons,
    typeEfficiencyStep_replicate R oa e.Type_ 1 e.Bytes (by norm_num) (by norm_num) (by omega)]
  rfl

theorem analyzeClusterBalance_nil (R : Runtime) (oa : OpsAnalyzer)
    (h : oa.counter.slotBytes = []) : analyzeClusterBalance R oa = oa := by
  simp [analyzeClusterBalance, h]

theorem detectMemoryHotspots_anomalies (R : Runtime) (oa : OpsAnalyzer)
    (h : oa.counter.largestKeyPrefixes = []) :
    (detectMemoryHotspots R oa).anomalies = oa.anomalies ++
      ((R.mapRange oa.counter.typeBytes).filter
        (fun p => F64.gt (percentOf p.2 oa.totalBytes) (F64.ofNat 50))).map
        (fun p => typeDominanceAnomaly p.1 (percentOf p.2 oa.totalBytes)) := by
  rw [detectMemoryHotspots_eq]
  simp [Counter.GetLargestKeyPrefixes, h]

theorem analyzeStats_singleKey (R : Runtime) (c : Counter) (e : Entry) (t : GoString)
    (hE : c.largestEntries = [e]) (hP : c.largestKeyPrefixes = []) (hS : c.slotBytes = [])
    (hTN : c.typeNum = [(t, 1)]) (hTB : c.typeBytes = [(t, 62914560)])
    (hb : e.Bytes = 62914560) (hn : e.NumOfElem ≤ 1000000) :
    ∃ pre, analyzeStats R (newState c) = some pre ∧
      pre.anomalies =
        [largeKeyAnomaly e [Piece.f1 (F64.fin 60), Piece.lit " ", Piece.chr 'M', Piece.lit "B"],
          typeDominanceAnomaly t (F64.fin 100)] ∧
      pre.healthScore = 72 := by
  have t1 : totalOf [(t, 1)] = 1 := by simp [totalOf]
  have t2 : totalOf [(t, 62914560)] = 62914560 := by simp [totalOf]
  have havg : F64.div (F64.ofNat 62914560) (F64.ofNat 1) = F64.fin 62914560 := by
    rw [F64.ofNat_small _ (by norm_num), F64.ofNat_small _ (by norm_num),
      F64.div_fin _ _ (by norm_num)]
    norm_num
    exact F64.round_ofNat 62914560 (by norm_num)
  have hpct : percentOf 62914560 62914560 = F64.fin 100 := by
    have := percentOf_of_exact 62914560 62914560 1 (by norm_num) (by norm_num)
      (F64.ofNat_small _ (by norm_num)) (F64.ofNat_small _ (by norm_num))
      (by simpa using F64.round_one) (by simpa using F64.round_ofNat 100 (by norm_num))
    simpa using this
  have hgt : F64.gt (F64.fin 100) (F64.ofNat 50) = true := by
    rw [F64.ofNat_small 50 (by norm_num)]
    simp [F64.gt, F64.lt]
    norm_num
  have hS0 := calculateBasicStats_newState R c
  rw [hTN, hTB, t1, t2, if_pos (by norm_num), havg] at hS0
  unfold analyzeStats
  rw [hS0, detectLargeKeys_singleton _ e _ hE (by rw [hb]; norm_num [criticalSize])
    (hb ▸ formatBytes_60MiB), Option.some_bind]
  rw [detectMemoryHotspots_eq]
  simp only [newState, Counter.GetLargestKeyPrefixes, hP, hTB, R.mapRange_singleton, List.take_nil,
    List.map_nil, List.filter_nil, List.filter_cons, hpct, hgt, if_true, List.map_cons,
    List.append_nil, List.nil_append, List.singleton_append]
  rw [detectKeyExplosion_of_few _ (by simp [hE])]
  simp only [if_neg (by norm_num : ¬ 10000000 < 1)]
  rw [detectTypeImbalance_of_small _ (by simp only [hE]; simpa using hn),
    analyzeKeyPatterns_nil _ hP, analyzeTypeEfficiency_singleton R _ e hE (by rw [hb]; norm_num),
    Option.some_bind, analyzeClusterBalance_nil R _ hS]
  refine ⟨_, rfl, rfl, ?_⟩
  rw [healthScore_calculateHealthScore]
  simp only [specHealthScore, countLevel, largeKeyAnomaly, typeDominanceAnomaly, specKeyPenalty,
    specSizePenalty, F64.gt, F64.lt, List.countP_cons, List.countP_nil]
  have s1 : "info" ≠ "critical" := by decide
  have s2 : "info" ≠ "warning" := by decide
  have s3 : "critical" ≠ "warning" := by decide
  have s4 : "critical" ≠ "info" := by decide
  simp only [s1, s2, s3, s4, if_false]
  norm_num

/-- C3 (as amended): for the snapshot whose only entry is one key of 60 MiB of type
"string" with at most 1,000,000 elements, the analysis produces the critical/memory
anomaly of that key followed by the info/memory anomaly "Data Type Dominance" (the
type holds 100% of the bytes), and the health score is `100 - 15 - 3 - 10 = 72`, the
last deduction being the one for an average key size above 1 MiB. -/
theorem singleKey_analysis (R : Runtime) (key : GoString) (numOfElem : ℕ)
    (h : numOfElem ≤ 1000000) :
    ∃ oa, NewOpsAnalyzer R (singleKeyCounter key numOfElem) = some oa ∧
      oa.anomalies =
        [largeKeyAnomaly
            { Key := key, Type_ := goStr "string", Bytes := 62914560, NumOfElem := numOfElem }
            [Piece.f1 (F64.fin 60), Piece.lit " ", Piece.chr 'M', Piece.lit "B"],
          typeDominanceAnomaly (goStr "string") (F64.fin 100)] ∧
      countLevel "critical" oa.anomalies = 1 ∧ oa.healthScore = 72 := by
  obtain ⟨pre, h1, h2, h3⟩ := analyzeStats_singleKey R (singleKeyCounter key numOfElem)
    { Key := key, Type_ := goStr "string", Bytes := 62914560, NumOfElem := numOfElem }
    (goStr "string") rfl rfl rfl rfl rfl rfl h
  refine ⟨generateRecommendations R pre, by simp [NewOpsAnalyzer, analyze, h1], h2, ?_, h3⟩
  show countLevel "critical" pre.anomalies = 1
  rw [h2]
  have s1 : "info" ≠ "critical" := by decide
  simp [countLevel, largeKeyAnomaly, typeDominanceAnomaly, List.countP_cons, s1]

/-- C3 (as amended) for the key "user:1". -/
theorem singleKey_analysis_witness :
    (0 : ℕ) ≤ 1000000 ∧
    ∃ oa, NewOpsAnalyzer goRuntime (singleKeyCounter (goStr "user:1") 0) = some oa ∧
      oa.anomalies =
        [largeKeyAnomaly
            { Key := goStr "user:1", Type_ := goStr "string", Bytes := 62914560, NumOfElem := 0 }
            [Piece.f1 (F64.fin 60), Piece.lit " ", Piece.chr 'M', Piece.lit "B"],
          typeDominanceAnomaly (goStr "string") (F64.fin 100)] ∧
      countLevel "critical" oa.anomalies = 1 ∧ oa.healthScore = 72 :=
  ⟨by decide, singleKey_analysis goRuntime (goStr "user:1") 0 (by decide)⟩

/-- C3 as stated fails: for the single key "k" of 60 MiB the analysis produces two
anomalies and the health score 72, not 85. -/
theorem singleKey_score_counterexample :
    ∃ oa, NewOpsAnalyzer goRuntime (singleKeyCounter (goStr "k") 0) = some oa ∧
      oa.anomalies.length = 2 ∧ oa.healthScore = 72 ∧ ¬ oa.healthScore = 85 := by
  obtain ⟨pre, h1, h2, h3⟩ := analyzeStats_singleKey goRuntime (singleKeyCounter (goStr "k") 0)
    { Key := goStr "k", Type_ := goStr "string", Bytes := 62914560, NumOfElem := 0 }
    (goStr "string") rfl rfl rfl rfl rfl rfl (by decide)
  refine ⟨generateRecommendations goRuntime pre, by simp [NewOpsAnalyzer, analyze, h1], ?_, h3, ?_⟩
  · show pre.anomalies.length = 2
    rw [h2]
    rfl
  · show ¬ pre.healthScore = 85
    rw [h3]
    decide

/-! ## A snapshot with many keys and nothing else of note -/

theorem avgKeySize_le (T K B : ℕ) (hT : T ≤ B * K) (hK : 0 < K) (hK2 : K < 2 ^ 53)
    (hBK : B * K < 2 ^ 53) :
    ∃ x, F64.div (F64.ofNat T) (F64.ofNat K) = F64.fin x ∧ x ≤ B := by
  have hB : B < 2 ^ 53 := lt_of_le_of_lt (Nat.le_mul_of_pos_right B hK) hBK
  rw [F64.ofNat_small T (lt_of_le_of_lt hT hBK), F64.ofNat_small K hK2]
  obtain ⟨x, h1, -, h2⟩ := F64.div_fin_within (a := T) (b := K) (c := B) (Nat.cast_nonneg T)
    (by exact_mod_cast hK) (by exact_mod_cast hT) (roundMag_natCast B hB)
    (by
      have : (B : ℚ) < ((2 ^ 53 : ℕ) : ℚ) := by exact_mod_cast hB
      exact lt_trans this (by norm_num))
  exact ⟨x, h1, h2⟩

theorem analyzeStats_manyKeys (R : Runtime) (c : Counter) (hE : c.largestEntries = [])
    (hP : c.largestKeyPrefixes = []) (hS : c.slotBytes = [])
    (hK : totalOf c.typeNum = 11000000)
    (hT : ∀ p ∈ c.typeBytes, 2 * p.2 ≤ totalOf c.typeBytes)
    (hA : totalOf c.typeBytes ≤ 102400 * 11000000) :
    ∃ pre, analyzeStats R (newState c) = some pre ∧
      pre.anomalies = [highKeyCountAnomaly 11000000] ∧ pre.healthScore = 92 := by
  obtain ⟨x, hx, hx2⟩ := avgKeySize_le (totalOf c.typeBytes) 11000000 102400 hA (by norm_num)
    (by norm_num) (by norm_num)
  have hfil : (R.mapRange c.typeBytes).filter
      (fun p => F64.gt (percentOf p.2 (totalOf c.typeBytes)) (F64.ofNat 50)) = [] := by
    rw [List.filter_eq_nil_iff]
    intro p hp
    rw [percentOf_not_gt_fifty p.2 _ (totalOf_lt _) (hT p ((R.mapRange_perm _).mem_iff.1 hp))]
    simp
  have hS0 := calculateBasicStats_newState R c
  rw [hK, if_pos (by norm_num), hx] at hS0
  unfold analyzeStats
  rw [hS0, detectLargeKeys_nil _ hE, Option.some_bind, detectMemoryHotspots_eq]
  simp only [newState, Counter.GetLargestKeyPrefixes, hP, List.take_nil, List.map_nil,
    List.filter_nil, hfil, List.append_nil, List.nil_append]
  rw [detectKeyExplosion_of_few _ (by simp [hE])]
  simp only [if_pos (by norm_num : 10000000 < 11000000)]
  rw [detectTypeImbalance_of_small _ (by simp [hE]), analyzeKeyPatterns_nil _ hP,
    analyzeTypeEfficiency_nil R _ hE, Option.some_bind, analyzeClusterBalance_nil R _ hS]
  refine ⟨_, rfl, rfl, ?_⟩
  rw [healthScore_calculateHealthScore]
  simp only [specHealthScore, countLevel, highKeyCountAnomaly, specKeyPenalty,
    specSizePenalty, F64.gt, F64.lt, List.countP_cons, List.countP_nil, List.nil_append]
  have s1 : "warning" ≠ "critical" := by decide
  have s2 : "warning" ≠ "info" := by decide
  have g1 : ¬ (1048576 : ℚ) < x := by
    have : x ≤ 102400 := by exact_mod_cast hx2
    linarith
  have g2 : ¬ (102400 : ℚ) < x := by
    have : x ≤ 102400 := by exact_mod_cast hx2
    linarith
  simp only [s1, s2, g1, g2, if_false, decide_False, Bool.false_eq_true]
  norm_num

/-- C4: for every snapshot with 11,000,000 keys, no sampled entries, no prefix
groups, no slot data, no data type holding more than half of the total bytes and an
average key size of at most 100 KiB, the analysis produces exactly one anomaly, the
warning/keys anomaly "High Key Count", and the health score `100 - 8 = 92`. -/
theorem highKeyCount_analysis (R : Runtime) (c : Counter) (hE : c.largestEntries = [])
    (hP : c.largestKeyPrefixes = []) (hS : c.slotBytes = [])
    (hK : totalOf c.typeNum = 11000000)
    (hT : ∀ p ∈ c.typeBytes, 2 * p.2 ≤ totalOf c.typeBytes)
    (hA : totalOf c.typeBytes ≤ 102400 * 11000000) :
    ∃ oa a, NewOpsAnalyzer R c = some oa ∧ oa.anomalies = [a] ∧ a.Level = "warning" ∧
      a.Category = "keys" ∧ a.Title = "High Key Count" ∧ oa.healthScore = 92 := by
  obtain ⟨pre, h1, h2, h3⟩ := analyzeStats_manyKeys R c hE hP hS hK hT hA
  exact ⟨generateRecommendations R pre, highKeyCountAnomaly 11000000,
    by simp [NewOpsAnalyzer, analyze, h1], h2, rfl, rfl, rfl, h3⟩

/-- C4 at a snapshot of 11,000,000 keys in two types of 1,000,000,000 bytes each. -/
theorem highKeyCount_analysis_witness :
    (manyKeysCounter.largestEntries = [] ∧ manyKeysCounter.largestKeyPrefixes = [] ∧
      manyKeysCounter.slotBytes = [] ∧ totalOf manyKeysCounter.typeNum = 11000000 ∧
      (∀ p ∈ manyKeysCounter.typeBytes, 2 * p.2 ≤ totalOf manyKeysCounter.typeBytes) ∧
      totalOf manyKeysCounter.typeBytes ≤ 102400 * 11000000) ∧
    ∃ oa a, NewOpsAnalyzer goRuntime manyKeysCounter = some oa ∧ oa.anomalies = [a] ∧
      a.Level = "warning" ∧ a.Category = "keys" ∧ a.Title = "High Key Count" ∧
      oa.healthScore = 92 :=
  ⟨⟨rfl, rfl, rfl, by simp [totalOf, manyKeysCounter], by simp [totalOf, manyKeysCounter],
      by simp [totalOf, manyKeysCounter]⟩,
    highKeyCount_analysis goRuntime manyKeysCounter rfl rfl rfl
      (by simp [totalOf, manyKeysCounter]) (by simp [totalOf, manyKeysCounter])
      (by simp [totalOf, manyKeysCounter])⟩

/-! ## Percentages -/

theorem analyzeClusterBalance_topSlots (R : Runtime) (oa : OpsAnalyzer) :
    (analyzeClusterBalance R oa).topSlotsUsage =
      if oa.counter.slotBytes.length = 0 then oa.topSlotsUsage
      else oa.topSlotsUsage ++
        ((R.sortSlice (fun a b : slotInfo => decide (b.bytes < a.bytes))
          ((R.mapRange oa.counter.slotBytes).map
            (fun p => { slot := p.1, bytes := p.2, keys := mapGet oa.counter.slotNum p.1 }))).take
          10).map
          (fun s =>
            { Slot := s.slot
              KeyCount := s.keys
              MemoryUsed := s.bytes
              Percentage := percentOf s.bytes oa.totalBytes }) := by
  unfold analyzeClusterBalance
  split <;> rfl

/-- The slot usage of the analysis is the one `analyzeClusterBalance` computes from
the totals of `calculateBasicStats`. -/
theorem analyzeStats_topSlots (R : Runtime) (oa pre : OpsAnalyzer)
    (h : analyzeStats R oa = some pre) :
    pre.totalBytes = (calculateBasicStats R oa).totalBytes ∧
    pre.topSlotsUsage = (analyzeClusterBalance R (calculateBasicStats R oa)).topSlotsUsage := by
  unfold analyzeStats at h
  rcases h1 : detectLargeKeys (calculateBasicStats R oa) with _ | oa1
  · rw [h1] at h; cases h
  · rw [h1, Option.some_bind] at h
    have e1 : ∃ A, oa1 = { calculateBasicStats R oa with anomalies := A } := by
      unfold detectLargeKeys at h1
      split at h1
      · cases h1
      · cases h1; exact ⟨_, rfl⟩
    obtain ⟨A0, rfl⟩ := e1
    obtain ⟨K, hK⟩ := analyzeKeyPatterns_eq (detectTypeImbalance (detectKeyExplosion
      (detectMemoryHotspots R { calculateBasicStats R oa with anomalies := A0 })))
    rw [hK] at h
    obtain ⟨A, T, h2, -⟩ := analyzeTypeEfficiency_spec R
      { detectTypeImbalance (detectKeyExplosion
        (detectMemoryHotspots R { calculateBasicStats R oa with anomalies := A0 })) with
        keyPatterns := K }
    rw [h2, Option.some_bind] at h
    cases h
    constructor
    · simp only [calculateHealthScore, detectTypeImbalance, detectKeyExplosion,
        detectMemoryHotspots_eq, calculateBasicStats]
      obtain ⟨S, U, A', h4⟩ := analyzeClusterBalance_eq R
        { ({ detectTypeImbalance (detectKeyExplosion
          (detectMemoryHotspots R { calculateBasicStats R oa with anomalies := A0 })) with
          keyPatterns := K } : OpsAnalyzer) with anomalies := A, typeEfficiency := T }
      simp only [calculateHealthScore, detectTypeImbalance, detectKeyExplosion,
        detectMemoryHotspots_eq, calculateBasicStats] at h4
      rw [h4]
    · simp only [calculateHealthScore, analyzeClusterBalance_topSlots, detectTypeImbalance,
        detectKeyExplosion, detectMemoryHotspots_eq, calculateBasicStats]

/-- The hotspots of the analysis: a hotspot of a prefix group among the first 20 or
of a data type, with the percentage `percentOf` computes from the total bytes. -/
theorem analysis_hotspots (R : Runtime) (c : Counter) (hc : c.WF) :
    ∃ pre, analyzeStats R (newState c) = some pre ∧
      NewOpsAnalyzer R c = some (generateRecommendations R pre) ∧
      pre.totalBytes = totalOf c.typeBytes ∧
      ∀ h, h ∈ pre.memoryHotspots ↔
        (∃ p ∈ c.largestKeyPrefixes.take 20, h = prefixHotspot (totalOf c.typeBytes) p) ∨
        (∃ p ∈ c.typeBytes, h = typeHotspot c (totalOf c.typeBytes) p) := by
  obtain ⟨pre, h1, -, -, h2, h3, -, -⟩ := analyzeStats_spec R (newState c) (hc.largest 100)
  refine ⟨pre, h1, by simp [NewOpsAnalyzer, analyze, h1], ?_, ?_⟩
  · rw [h2, calculateBasicStats_newState]
  · intro h
    rw [h3, calculateBasicStats_newState, detectMemoryHotspots_eq]
    simp only [(R.sortSlice_perm _ _).mem_iff, newState, Counter.GetLargestKeyPrefixes,
      List.nil_append, List.mem_append, List.mem_map, (R.mapRange_perm _).mem_iff]
    constructor
    · rintro (⟨p, hp, rfl⟩ | ⟨p, hp, rfl⟩)
      · exact Or.inl ⟨p, hp, rfl⟩
      · exact Or.inr ⟨p, hp, rfl⟩
    · rintro (⟨p, hp, rfl⟩ | ⟨p, hp, rfl⟩)
      · exact Or.inl ⟨p, hp, rfl⟩
      · exact Or.inr ⟨p, hp, rfl⟩

/-- C5 (as amended): for every snapshot of `uint64` numbers with total bytes above 0
in which none of the first 20 prefix groups and no data type has more bytes than
the total, every hotspot of the analysis has a percentage between 0 and 100. -/
theorem hotspot_percentage_within (R : Runtime) (c : Counter) (hc : c.WF)
    (ht : 0 < totalOf c.typeBytes)
    (hp : ∀ p ∈ c.largestKeyPrefixes.take 20, p.Bytes ≤ totalOf c.typeBytes)
    (hty : ∀ p ∈ c.typeBytes, p.2 ≤ totalOf c.typeBytes) :
    ∃ oa, NewOpsAnalyzer R c = some oa ∧ oa.totalBytes = totalOf c.typeBytes ∧
      ∀ h ∈ oa.memoryHotspots, F64.Within 0 100 h.Percentage := by
  obtain ⟨pre, -, h1, h2, h3⟩ := analysis_hotspots R c hc
  refine ⟨_, h1, h2, ?_⟩
  intro h hh
  rcases (h3 h).1 hh with ⟨p, hp1, rfl⟩ | ⟨p, hp1, rfl⟩
  · exact percentOf_le_hundred p.Bytes _ (totalOf_lt _) ht (hp p hp1)
  · exact percentOf_le_hundred p.2 _ (totalOf_lt _) ht (hty p hp1)

/-- C5 (as amended) at the sample snapshot. -/
theorem hotspot_percentage_within_witness :
    (sampleCounter.WF ∧ 0 < totalOf sampleCounter.typeBytes ∧
      (∀ p ∈ sampleCounter.largestKeyPrefixes.take 20, p.Bytes ≤ totalOf sampleCounter.typeBytes) ∧
      (∀ p ∈ sampleCounter.typeBytes, p.2 ≤ totalOf sampleCounter.typeBytes)) ∧
    ∃ oa, NewOpsAnalyzer goRuntime sampleCounter = some oa ∧
      oa.totalBytes = totalOf sampleCounter.typeBytes ∧
      ∀ h ∈ oa.memoryHotspots, F64.Within 0 100 h.Percentage :=
  ⟨⟨sampleCounter_wf, by simp [totalOf, sampleCounter], by simp [totalOf, sampleCounter],
      by simp [totalOf, sampleCounter]⟩,
    hotspot_percentage_within goRuntime sampleCounter sampleCounter_wf
      (by simp [totalOf, sampleCounter]) (by simp [totalOf, sampleCounter])
      (by simp [totalOf, sampleCounter])⟩
theorem not_within_of_gt {q hi : ℚ} (h : hi < q) : ¬ F64.Within 0 hi (F64.fin q) := by
  rintro ⟨r, h1, -, h2⟩
  cases h1
  linarith

theorem overPrefixCounter_wf : overPrefixCounter.WF := by
  simp [Counter.WF, overPrefixCounter]

theorem wrapCounter_wf : wrapCounter.WF := by
  simp [Counter.WF, wrapCounter]

theorem percentOf_overPrefix : percentOf 200 100 = F64.fin 200 := by
  have := percentOf_of_exact 200 100 2 (by norm_num) (by norm_num)
    (F64.ofNat_small _ (by norm_num)) (F64.ofNat_small _ (by norm_num))
    (by simpa using F64.round_ofNat 2 (by norm_num))
    (by
      have := F64.round_ofNat 200 (by norm_num)
      norm_num
      exact this)
  norm_num at this
  exact this

theorem percentOf_wrap : percentOf (2 ^ 63) 2048 = F64.fin 450359962737049600 := by
  have h1 : F64.ofNat (2 ^ 63) = F64.fin ((2 ^ 63 : ℕ) : ℚ) := by
    have := F64.round_repr 1 63 (by norm_num) (by norm_num) (by norm_num)
    rw [F64.ofNat]
    norm_num at this ⊢
    exact this
  have h4 : F64.round (((2 ^ 52 : ℕ) : ℚ) * 100) = F64.fin (((2 ^ 52 : ℕ) : ℚ) * 100) := by
    have := F64.round_repr 25 54 (by norm_num) (by norm_num) (by norm_num)
    norm_num at this ⊢
    exact this
  have := percentOf_of_exact (2 ^ 63) 2048 (2 ^ 52) (by norm_num) (by norm_num) h1
    (F64.ofNat_small _ (by norm_num)) (F64.round_natCast _ (by norm_num)) h4
  norm_num at this
  exact this

/-- C5 as stated fails at two snapshots with total bytes above 0: where a prefix
group is reported with 200 bytes while the data types hold 100 bytes, its hotspot
has the percentage 200; where the byte totals of the types `2 ^ 63` and
`2 ^ 63 + 2048` wrap to the total 2048, the hotspot of the first type has the
percentage `2 ^ 52 * 100`. -/
theorem hotspot_percentage_counterexample :
    (∃ oa h, NewOpsAnalyzer goRuntime overPrefixCounter = some oa ∧ 0 < oa.totalBytes ∧
      h ∈ oa.memoryHotspots ∧ h.Type_ = "key_prefix" ∧ h.Percentage = F64.fin 200 ∧
      ¬ F64.Within 0 100 h.Percentage) ∧
    (∃ oa h, NewOpsAnalyzer goRuntime wrapCounter = some oa ∧ 0 < oa.totalBytes ∧
      h ∈ oa.memoryHotspots ∧ h.Type_ = "data_type" ∧
      h.Percentage = F64.fin 450359962737049600 ∧ ¬ F64.Within 0 100 h.Percentage) := by
  constructor
  · obtain ⟨pre, -, h1, h2, h3⟩ := analysis_hotspots goRuntime overPrefixCounter overPrefixCounter_wf
    have ht : totalOf overPrefixCounter.typeBytes = 100 := by simp [totalOf, overPrefixCounter]
    rw [ht] at h2 h3
    refine ⟨_, prefixHotspot 100 { Key := goStr "user:", Bytes := 200, Num := 2 }, h1,
      by show 0 < pre.totalBytes; rw [h2]; norm_num, ?_, rfl, percentOf_overPrefix, ?_⟩
    · exact (h3 _).2 (Or.inl ⟨_, by simp [overPrefixCounter], rfl⟩)
    · show ¬ F64.Within 0 100 (percentOf 200 100)
      rw [percentOf_overPrefix]
      exact not_within_of_gt (by norm_num)
  · obtain ⟨pre, -, h1, h2, h3⟩ := analysis_hotspots goRuntime wrapCounter wrapCounter_wf
    have ht : totalOf wrapCounter.typeBytes = 2048 := by simp [totalOf, wrapCounter]
    rw [ht] at h2 h3
    refine ⟨_, typeHotspot wrapCounter 2048 (goStr "a", 2 ^ 63), h1,
      by show 0 < pre.totalBytes; rw [h2]; norm_num, ?_, rfl, percentOf_wrap, ?_⟩
    · exact (h3 _).2 (Or.inr ⟨_, by simp [wrapCounter], rfl⟩)
    · show ¬ F64.Within 0 100 (percentOf (2 ^ 63) 2048)
      rw [percentOf_wrap]
      exact not_within_of_gt (by norm_num)

theorem zeroBytesCounter_wf : zeroBytesCounter.WF := by
  simp [Counter.WF, zeroBytesCounter]

/-- C6 fails on the code: for the snapshot of one key counted with 0 bytes the total
bytes are 0, and the percentage of every memory hotspot and of the top slot is the
quotient `0 / 0`, which is NaN and not 0. -/
theorem zero_total_percentage_nan :
    ∃ oa, NewOpsAnalyzer goRuntime zeroBytesCounter = some oa ∧ oa.totalBytes = 0 ∧
      (∃ h ∈ oa.memoryHotspots, h.Type_ = "key_prefix") ∧
      (∃ h ∈ oa.memoryHotspots, h.Type_ = "data_type") ∧
      (∀ h ∈ oa.memoryHotspots, h.Percentage = F64.nan ∧ h.Percentage ≠ F64.fin 0) ∧
      oa.topSlotsUsage =
        [{ Slot := 0, KeyCount := 1, MemoryUsed := 0, Percentage := F64.nan }] := by
  obtain ⟨pre, h0, h1, h2, h3⟩ := analysis_hotspots goRuntime zeroBytesCounter zeroBytesCounter_wf
  have ht : totalOf zeroBytesCounter.typeBytes = 0 := by simp [totalOf, zeroBytesCounter]
  rw [ht] at h2 h3
  refine ⟨_, h1, h2, ?_, ?_, ?_, ?_⟩
  · exact ⟨prefixHotspot 0 { Key := goStr "k", Bytes := 0, Num := 1 },
      (h3 _).2 (Or.inl ⟨_, by simp [zeroBytesCounter], rfl⟩), rfl⟩
  · exact ⟨typeHotspot zeroBytesCounter 0 (goStr "string", 0),
      (h3 _).2 (Or.inr ⟨_, by simp [zeroBytesCounter], rfl⟩), rfl⟩
  · intro h hh
    have hp : h.Percentage = F64.nan := by
      rcases (h3 h).1 hh with ⟨p, hp1, rfl⟩ | ⟨p, hp1, rfl⟩
      · have : p = { Key := goStr "k", Bytes := 0, Num := 1 } := by
          simpa [zeroBytesCounter] using hp1
        subst this
        exact percentOf_zero_zero
      · have : p = (goStr "string", 0) := by simpa [zeroBytesCounter] using hp1
        subst this
        exact percentOf_zero_zero
    rw [hp]
    exact ⟨rfl, by simp⟩
  · show pre.topSlotsUsage = _
    rw [(analyzeStats_topSlots goRuntime _ pre h0).2, analyzeClusterBalance_topSlots,
      calculateBasicStats_newState]
    have hs : zeroBytesCounter.slotBytes = [((0 : ℤ), 0)] := rfl
    have hn : zeroBytesCounter.slotNum = [((0 : ℤ), 1)] := rfl
    simp only [newState, ht, hs, hn, goRuntime.mapRange_singleton, List.map_cons, List.map_nil,
      goRuntime.sortSlice_singleton, List.length_singleton, one_ne_zero, if_false,
      List.nil_append, percentOf_zero_zero]
    simp [mapGet, percentOf_zero_zero]

/-! ## `detectTypeImbalance` -/

theorem foldl_typeImbalanceStep (l : List Entry) (anomalies : List Anomaly) :
    l.foldl typeImbalanceStep anomalies =
      anomalies ++ (l.filter (fun e => decide (1000000 < e.NumOfElem))).map hugeCollectionAnomaly := by
  induction l generalizing anomalies with
  | nil => simp
  | cons e l ih =>
    rw [List.foldl_cons, ih]
    unfold typeImbalanceStep hugeCollectionSize
    by_cases h : 1000000 < e.NumOfElem
    · simp [h, List.filter_cons]
    · simp [h, List.filter_cons]

/-- C11 (as amended): `detectTypeImbalance` scans the 100 largest entries; it
appends one warning/performance anomaly for each of them whose element count
exceeds 1,000,000, in entry order, and nothing else. -/
theorem detectTypeImbalance_appends (oa : OpsAnalyzer) :
    (detectTypeImbalance oa).anomalies =
        oa.anomalies ++
          ((oa.counter.largestEntries.take 100).filter
            (fun e => decide (1000000 < e.NumOfElem))).map hugeCollectionAnomaly ∧
      ∀ e : Entry, (hugeCollectionAnomaly e).Level = "warning" ∧
        (hugeCollectionAnomaly e).Category = "performance" ∧
        Piece.str (truncateKey e.Key) ∈ (hugeCollectionAnomaly e).Description := by
  refine ⟨?_, fun e => ⟨rfl, rfl, by simp [hugeCollectionAnomaly]⟩⟩
  unfold detectTypeImbalance
  simp only [foldl_typeImbalanceStep, Counter.GetLargestEntries]

theorem getLargestEntries_lateHuge :
    lateHugeCounter.GetLargestEntries 100 =
      List.replicate 100
        { Key := goStr "s", Type_ := goStr "string", Bytes := 200, NumOfElem := 0 } := by
  unfold Counter.GetLargestEntries lateHugeCounter
  simp only
  rw [List.take_append_of_le_length (by simp)]
  simp [List.take_replicate]

/-- C11 as stated fails: the entry ranked 101st of this snapshot is among the 500
largest and has 2,000,000 elements, and `detectTypeImbalance` appends no anomaly. -/
theorem detectTypeImbalance_counterexample :
    (∃ e ∈ lateHugeCounter.GetLargestEntries 500, 1000000 < e.NumOfElem) ∧
      (detectTypeImbalance (newState lateHugeCounter)).anomalies = [] := by
  constructor
  · refine ⟨{ Key := goStr "h", Type_ := goStr "hash", Bytes := 100, NumOfElem := 2000000 }, ?_,
      by norm_num⟩
    unfold Counter.GetLargestEntries lateHugeCounter
    simp only
    rw [List.take_of_length_le (by simp)]
    simp
  · unfold detectTypeImbalance
    have h : (newState lateHugeCounter).counter.GetLargestEntries 100 =
        lateHugeCounter.GetLargestEntries 100 := rfl
    rw [h, getLargestEntries_lateHuge, foldl_typeImbalanceStep]
    simp [newState, List.filter_replicate]

/-- C12: for a per-type sample of `n` sizes, `1 ≤ n ≤ 500`, the three indices of
`analyzeTypeEfficiency`, `n / 2`, `int(float64(n) * 0.95)` and
`int(float64(n) * 0.99)`, are valid indices, so that the loop body reads the median
and the two percentiles and returns. -/
theorem percentile_indices_valid (n : ℕ) (h1 : 1 ≤ n) (h2 : n ≤ 500) :
    n / 2 < n ∧
      (∃ i : ℤ, F64.toInt (F64.mul (F64.ofNat n) (F64.round (95 / 100))) = some i ∧
        0 ≤ i ∧ i < n) ∧
      (∃ i : ℤ, F64.toInt (F64.mul (F64.ofNat n) (F64.round (99 / 100))) = some i ∧
        0 ≤ i ∧ i < n) ∧
      ∀ (R : Runtime) (oa : OpsAnalyzer) (typ : GoString) (sizes : List ℕ), sizes.length = n →
        ∃ oa', typeEfficiencyStep R oa (typ, sizes) = some oa' := by
  have hn : n ≤ 2 ^ 32 := le_trans h2 (by norm_num)
  refine ⟨Nat.div_lt_self h1 (by norm_num),
    percentileIndex_valid n h1 hn (95 / 100) (by norm_num) (by norm_num),
    percentileIndex_valid n h1 hn (99 / 100) (by norm_num) (by norm_num), ?_⟩
  intro R oa typ sizes hs
  obtain ⟨A, T, h, -⟩ := typeEfficiencyStep_spec R oa (typ, sizes) (by simpa [hs] using hn)
  exact ⟨_, h⟩

/-- C12 for a sample of 20 sizes, where `20 * 0.95` is 19 in exact arithmetic. -/
theorem percentile_indices_valid_witness :
    (1 ≤ 20 ∧ 20 ≤ 500) ∧
    20 / 2 < 20 ∧
      (∃ i : ℤ, F64.toInt (F64.mul (F64.ofNat 20) (F64.round (95 / 100))) = some i ∧
        0 ≤ i ∧ i < (20 : ℕ)) ∧
      (∃ i : ℤ, F64.toInt (F64.mul (F64.ofNat 20) (F64.round (99 / 100))) = some i ∧
        0 ≤ i ∧ i < (20 : ℕ)) ∧
      ∀ (R : Runtime) (oa : OpsAnalyzer) (typ : GoString) (sizes : List ℕ), sizes.length = 20 →
        ∃ oa', typeEfficiencyStep R oa (typ, sizes) = some oa' :=
  ⟨by decide, percentile_indices_valid 20 (by decide) (by decide)⟩

/-- C17: the health label is a function of the health score alone, with the bands
`≥ 90`, `75..89`, `60..74`, `40..59` ("poor") and `< 40` ("critical"), and the five
labels are distinct. -/
theorem healthStatus_bands (healthScore : Int) :
    healthStatus healthScore =
        (if 90 ≤ healthScore then "excellent"
        else if 75 ≤ healthScore then "good"
        else if 60 ≤ healthScore then "fair"
        else if 40 ≤ healthScore then "poor"
        else "critical") ∧
      ["excellent", "good", "fair", "poor", "critical"].Nodup := by
  refine ⟨?_, by decide⟩
  unfold healthStatus
  simp only
  split_ifs <;> first | rfl | omega

/-- C20 (as amended): `truncateKey` returns a key of at most 50 bytes unchanged; of a
longer key it returns the first 47 bytes followed by three full stops, 50 bytes in
all. -/
theorem truncateKey_bytes (key : GoString) :
    (key.length ≤ 50 → truncateKey key = key) ∧
      (50 < key.length →
        truncateKey key = key.take 47 ++ [46, 46, 46] ∧ (truncateKey key).length = 50) ∧
      utf8Bytes "..." = [46, 46, 46] := by
  refine ⟨?_, ?_, by decide⟩
  · intro h
    unfold truncateKey
    rw [if_pos h]
  · intro h
    have hg : goStr "..." = [46, 46, 46] := by decide
    unfold truncateKey
    rw [if_neg (by omega), hg]
    refine ⟨rfl, ?_⟩
    rw [List.length_append, List.length_take]
    simp
    omega

/-- C20 (as amended) at a key of 4 bytes and at a key of 60 bytes. -/
theorem truncateKey_bytes_witness :
    ((goStr "user").length ≤ 50 ∧ truncateKey (goStr "user") = goStr "user") ∧
    (50 < (List.replicate 60 (97 : UInt8)).length ∧
      truncateKey (List.replicate 60 97) = (List.replicate 60 97).take 47 ++ [46, 46, 46] ∧
      (truncateKey (List.replicate 60 97)).length = 50) :=
  ⟨⟨by decide, (truncateKey_bytes (goStr "user")).1 (by decide)⟩,
    ⟨by decide, (truncateKey_bytes (List.replicate 60 97)).2.1 (by decide)⟩⟩

/-- C20 as stated fails: a key of 26 characters that takes 52 bytes is cut in the
middle of its 24th character, and the text appended to a long key is three full
stops, not the character "…". -/
theorem truncateKey_characters_counterexample :
    ("éééééééééééééééééééééééééé".length = 26 ∧
      truncateKey (utf8Bytes "éééééééééééééééééééééééééé") ≠
        utf8Bytes "éééééééééééééééééééééééééé" ∧
      truncateKey (utf8Bytes "éééééééééééééééééééééééééé") =
        utf8Bytes "ééééééééééééééééééééééé" ++ [195] ++ utf8Bytes "...") ∧
    truncateKey (List.replicate 60 97) ≠ List.replicate 47 97 ++ utf8Bytes "…" := by
  decide

theorem analyzeStats_inputs (R : Runtime) (c : Counter) (hc : c.WF) :
    ∃ pre, analyzeStats R (newState c) = some pre ∧
      NewOpsAnalyzer R c = some (generateRecommendations R pre) ∧
      pre.recommendations = [] ∧ pre.counter = c ∧ pre.totalBytes = totalOf c.typeBytes := by
  obtain ⟨pre, h1, h2, h3, h4, -, -, -⟩ := analyzeStats_spec R (newState c) (hc.largest 100)
  refine ⟨pre, h1, by simp [NewOpsAnalyzer, analyze, h1], h3, h2, ?_⟩
  rw [h4, calculateBasicStats_newState]

/-- C19: the recommendations of the analysis include the TTL recommendation
(priority 1, category "ttl") exactly when more than 50 entries are returned by the
query for the 100 largest entries, and the eviction-policy recommendation (priority
2) exactly when the total bytes exceed 10 GiB. -/
theorem ttl_and_eviction_rules (R : Runtime) (c : Counter) (hc : c.WF) :
    ∃ oa, NewOpsAnalyzer R c = some oa ∧ oa.totalBytes = totalOf c.typeBytes ∧
      ((∃ r ∈ oa.recommendations, r.Priority = 1) ↔ 50 < (c.GetLargestEntries 100).length) ∧
      (ttlRecommendation ∈ oa.recommendations ↔ 50 < (c.GetLargestEntries 100).length) ∧
      ((∃ r ∈ oa.recommendations, r.Priority = 2) ↔ 10737418240 < oa.totalBytes) ∧
      (evictionRecommendation ∈ oa.recommendations ↔ 10737418240 < oa.totalBytes) ∧
      ttlRecommendation.Priority = 1 ∧ ttlRecommendation.Category = "ttl" ∧
      evictionRecommendation.Priority = 2 := by
  obtain ⟨pre, -, h1, h2, h3, h4⟩ := analyzeStats_inputs R c hc
  have hmem : ∀ r, r ∈ (generateRecommendations R pre).recommendations ↔
      r ∈ generatedRecommendations R pre := fun r => (R.sortSlice_perm _ _).mem_iff
  have hgen := generatedRecommendations_eq R pre h2
  rw [h3] at hgen
  have hstr : ∀ r ∈ ((R.mapRange pre.typeEfficiency).filter
        (fun p => F64.lt p.2.Efficiency (F64.ofNat 60) && decide (p.1 = goStr "string"))).map
        (fun p => stringRecommendation p.2.Efficiency), r.Priority = 3 := by
    intro r hr
    obtain ⟨p, -, rfl⟩ := List.mem_map.1 hr
    rfl
  generalize ((R.mapRange pre.typeEfficiency).filter
        (fun p => F64.lt p.2.Efficiency (F64.ofNat 60) && decide (p.1 = goStr "string"))).map
        (fun p => stringRecommendation p.2.Efficiency) = S at hgen hstr
  have hS1 : ttlRecommendation ∉ S := fun h => by simpa [ttlRecommendation] using hstr _ h
  have hS2 : evictionRecommendation ∉ S := fun h => by
    simpa [evictionRecommendation] using hstr _ h
  have e1 : (10 * 1024 * 1024 * 1024 : ℕ) = 10737418240 := by norm_num
  rw [e1] at hgen
  refine ⟨_, h1, h4, ?_, ?_, ?_, ?_, rfl, rfl, rfl⟩
  · constructor
    · rintro ⟨r, hr, hp⟩
      rw [hmem, hgen] at hr
      by_contra hlen
      rw [if_neg hlen] at hr
      simp only [List.append_nil, List.mem_append, List.mem_singleton] at hr
      rcases hr with (hr | hr) | hr
      · split at hr
        · simp only [List.mem_singleton] at hr
          rw [hr] at hp
          simp [evictionRecommendation] at hp
        · simp at hr
      · have := hstr r hr
        omega
      · rw [hr] at hp
        simp [monitoringRecommendation] at hp
    · intro hlen
      refine ⟨ttlRecommendation, ?_, rfl⟩
      rw [hmem, hgen, if_pos hlen]
      simp
  · rw [hmem, hgen]
    constructor
    · intro hr
      by_contra hlen
      rw [if_neg hlen] at hr
      simp only [List.append_nil, List.mem_append, List.mem_singleton] at hr
      rcases hr with (hr | hr) | hr
      · split at hr
        · simp [ttlRecommendation, evictionRecommendation] at hr
        · simp at hr
      · exact hS1 hr
      · simp [ttlRecommendation, monitoringRecommendation] at hr
    · intro hlen
      rw [if_pos hlen]
      simp
  · show (∃ r ∈ (generateRecommendations R pre).recommendations, r.Priority = 2) ↔
      10737418240 < pre.totalBytes
    constructor
    · rintro ⟨r, hr, hp⟩
      rw [hmem, hgen] at hr
      by_contra hb
      rw [if_neg hb] at hr
      simp only [List.nil_append, List.mem_append, List.mem_singleton] at hr
      rcases hr with (hr | hr) | hr
      · split at hr
        · simp only [List.mem_singleton] at hr
          rw [hr] at hp
          simp [ttlRecommendation] at hp
        · simp at hr
      · have := hstr r hr
        omega
      · rw [hr] at hp
        simp [monitoringRecommendation] at hp
    · intro hb
      refine ⟨evictionRecommendation, ?_, rfl⟩
      rw [hmem, hgen, if_pos hb]
      simp
  · show evictionRecommendation ∈ (generateRecommendations R pre).recommendations ↔
      10737418240 < pre.totalBytes
    rw [hmem, hgen]
    constructor
    · intro hr
      by_contra hb
      rw [if_neg hb] at hr
      simp only [List.nil_append, List.mem_append, List.mem_singleton] at hr
      rcases hr with (hr | hr) | hr
      · split at hr
        · simp [ttlRecommendation, evictionRecommendation] at hr
        · simp at hr
      · exact hS2 hr
      · simp [evictionRecommendation, monitoringRecommendation] at hr
    · intro hb
      rw [if_pos hb]
      simp

/-- C19 at the sample snapshot: three sampled entries and 80 MiB. -/
theorem ttl_and_eviction_rules_witness :
    sampleCounter.WF ∧
    ∃ oa, NewOpsAnalyzer goRuntime sampleCounter = some oa ∧
      oa.totalBytes = totalOf sampleCounter.typeBytes ∧
      ((∃ r ∈ oa.recommendations, r.Priority = 1) ↔
        50 < (sampleCounter.GetLargestEntries 100).length) ∧
      (ttlRecommendation ∈ oa.recommendations ↔
        50 < (sampleCounter.GetLargestEntries 100).length) ∧
      ((∃ r ∈ oa.recommendations, r.Priority = 2) ↔ 10737418240 < oa.totalBytes) ∧
      (evictionRecommendation ∈ oa.recommendations ↔ 10737418240 < oa.totalBytes) ∧
      ttlRecommendation.Priority = 1 ∧ ttlRecommendation.Category = "ttl" ∧
      evictionRecommendation.Priority = 2 :=
  ⟨sampleCounter_wf, ttl_and_eviction_rules goRuntime sampleCounter sampleCounter_wf⟩

/-! ## `analyzeClusterBalance` -/

theorem slotStats_foldl (l : List (ℤ × ℕ)) (t mx mn : ℕ) :
    let st := l.foldl
      (fun (st : ℕ × ℕ × ℕ) (p : ℤ × ℕ) =>
        ((st.1 + p.2) % 2 ^ 64, (if st.2.1 < p.2 then p.2 else st.2.1),
          (if p.2 < st.2.2 then p.2 else st.2.2)))
      (t, mx, mn)
    st.1 % 2 ^ 64 = (t + (l.map Prod.snd).sum) % 2 ^ 64 ∧
      (mx ≤ st.2.1 ∧ (∀ p ∈ l, p.2 ≤ st.2.1) ∧ (st.2.1 = mx ∨ ∃ p ∈ l, p.2 = st.2.1)) ∧
      (st.2.2 ≤ mn ∧ (∀ p ∈ l, st.2.2 ≤ p.2) ∧ (st.2.2 = mn ∨ ∃ p ∈ l, p.2 = st.2.2)) := by
  induction l generalizing t mx mn with
  | nil => simp
  | cons a l ih =>
    simp only [List.foldl_cons]
    have hmx : mx ≤ (if mx < a.2 then a.2 else mx) ∧ a.2 ≤ (if mx < a.2 then a.2 else mx) ∧
        ((if mx < a.2 then a.2 else mx) = mx ∨ (if mx < a.2 then a.2 else mx) = a.2) := by
      split <;> omega
    have hmn : (if a.2 < mn then a.2 else mn) ≤ mn ∧ (if a.2 < mn then a.2 else mn) ≤ a.2 ∧
        ((if a.2 < mn then a.2 else mn) = mn ∨ (if a.2 < mn then a.2 else mn) = a.2) := by
      split <;> omega
    generalize (if mx < a.2 then a.2 else mx) = M at hmx
    generalize (if a.2 < mn then a.2 else mn) = N at hmn
    obtain ⟨h1, ⟨h2, h3, h4⟩, ⟨h5, h6, h7⟩⟩ := ih ((t + a.2) % 2 ^ 64) M N
    refine ⟨?_, ⟨?_, ?_, ?_⟩, ⟨?_, ?_, ?_⟩⟩
    · rw [h1]
      simp only [List.map_cons, List.sum_cons]
      omega
    · omega
    · intro p hp
      rcases List.mem_cons.1 hp with rfl | hp
      · omega
      · exact h3 p hp
    · rcases h4 with h4 | ⟨p, hp, h4⟩
      · rcases hmx.2.2 with h | h
        · exact Or.inl (h4.trans h)
        · exact Or.inr ⟨a, List.mem_cons_self _ _, (h4.trans h).symm⟩
      · exact Or.inr ⟨p, List.mem_cons_of_mem _ hp, h4⟩
    · omega
    · intro p hp
      rcases List.mem_cons.1 hp with rfl | hp
      · omega
      · exact h6 p hp
    · rcases h7 with h7 | ⟨p, hp, h7⟩
      · rcases hmn.2.2 with h | h
        · exact Or.inl (h7.trans h)
        · exact Or.inr ⟨a, List.mem_cons_self _ _, (h7.trans h).symm⟩
      · exact Or.inr ⟨p, List.mem_cons_of_mem _ hp, h7⟩

/-- The three statistics of the first loop of `analyzeClusterBalance`: the wrapped
sum, the largest and the smallest byte total of the slots. -/
theorem slotStats_spec (l : List (ℤ × ℕ)) (hl : l ≠ []) (hwf : ∀ p ∈ l, p.2 < 2 ^ 64) :
    (slotStats l).1 = totalOf l ∧
      ((∃ p ∈ l, p.2 = (slotStats l).2.1) ∧ ∀ p ∈ l, p.2 ≤ (slotStats l).2.1) ∧
      ((∃ p ∈ l, p.2 = (slotStats l).2.2) ∧ ∀ p ∈ l, (slotStats l).2.2 ≤ p.2) := by
  obtain ⟨h1, ⟨-, h3, h4⟩, ⟨-, h6, h7⟩⟩ := slotStats_foldl l 0 0 (2 ^ 64 - 1)
  obtain ⟨a, ha⟩ := List.exists_mem_of_ne_nil l hl
  have hlt : (slotStats l).1 < 2 ^ 64 := by
    unfold slotStats
    cases l using List.reverseRecOn with
    | nil => exact absurd rfl hl
    | append_singleton l b =>
      rw [List.foldl_append]
      simp only [List.foldl_cons, List.foldl_nil]
      exact Nat.mod_lt _ (by norm_num)
  refine ⟨?_, ⟨?_, h3⟩, ⟨?_, h6⟩⟩
  · have := h1
    simp only [zero_add] at this
    unfold totalOf
    rw [← this]
    exact (Nat.mod_eq_of_lt hlt).symm
  · rcases h4 with h4 | h4
    · refine ⟨a, ha, ?_⟩
      have := h3 a ha
      show a.2 = (slotStats l).2.1
      unfold slotStats
      omega
    · exact h4
  · rcases h7 with h7 | h7
    · refine ⟨a, ha, ?_⟩
      have := h6 a ha
      have := hwf a ha
      show a.2 = (slotStats l).2.2
      unfold slotStats
      omega
    · exact h7

theorem insertBack_perm {α : Type} (less : α → α → Bool) (x : α) (acc : List α) :
    List.Perm (insertBack less x acc) (x :: acc) := by
  induction acc with
  | nil => exact List.Perm.refl _
  | cons y ys ih =>
    unfold insertBack
    split
    · exact (List.Perm.cons y ih).trans (List.Perm.swap x y ys)
    · exact List.Perm.refl _

theorem sortSlice_lt_eq (R : Runtime) (l : List ℕ) :
    R.sortSlice (fun a b => decide (a < b)) l = sortedSizes l := by
  have hswo : StrictWeakOrder (fun a b : ℕ => decide (a < b)) := by
    refine ⟨?_, ?_, ?_⟩
    · intro a; simp
    · intro a b c h1 h2
      simp only [decide_eq_true_eq] at *
      omega
    · intro a b c h1 h2
      simp only [decide_eq_false_iff_not] at *
      omega
  have conv : ∀ l' : List ℕ, List.Pairwise (fun a b => decide (b < a) = false) l' →
      List.Sorted (· ≤ ·) l' := by
    intro l' h
    refine List.Pairwise.imp ?_ h
    intro a b hab
    simpa using hab
  have h1 := conv _ (R.sortSlice_sorted (fun a b => decide (a < b)) l hswo)
  have h2 := conv _ (goRuntime.sortSlice_sorted (fun a b => decide (a < b)) l hswo)
  have p1 := R.sortSlice_perm (fun a b => decide (a < b)) l
  have p2 := goRuntime.sortSlice_perm (fun a b => decide (a < b)) l
  exact List.eq_of_perm_of_sorted (p1.trans p2.symm) h1 h2

theorem sortedSizes_perm (l : List ℕ) : List.Perm (sortedSizes l) l :=
  goRuntime.sortSlice_perm (fun a b => decide (a < b)) l

theorem typeEfficiencyStep_eq (R : Runtime) (oa : OpsAnalyzer) (p : GoString × List ℕ)
    (h0 : p.2 ≠ []) (hlen : p.2.length ≤ 2 ^ 32) :
    typeEfficiencyStep R oa p = some
      { oa with
        typeEfficiency := mapSet oa.typeEfficiency p.1 (typeStats p.1 (sortedSizes p.2))
        anomalies := oa.anomalies ++ typeAnomalies p } := by
  unfold typeEfficiencyStep typeAnomalies
  have h0' : p.2.length ≠ 0 := by
    intro h; exact h0 (List.length_eq_zero.1 h)
  rw [sortSlice_lt_eq]
  have hl : (sortedSizes p.2).length = p.2.length := (sortedSizes_perm p.2).length_eq
  generalize sortedSizes p.2 = sizes at hl
  have hpos : 0 < sizes.length := by omega
  have hle : sizes.length ≤ 2 ^ 32 := by omega
  have hmed : sizes.length / 2 < sizes.length := Nat.div_lt_self hpos (by norm_num)
  obtain ⟨i95, hi95, h95a, h95b⟩ :=
    percentileIndex_valid sizes.length hpos hle (95 / 100) (by norm_num) (by norm_num)
  obtain ⟨i99, hi99, h99a, h99b⟩ :=
    percentileIndex_valid sizes.length hpos hle (99 / 100) (by norm_num) (by norm_num)
  obtain ⟨v95, hv95, -⟩ := sliceIndex_isSome sizes i95 h95a h95b
  obtain ⟨v99, hv99, -⟩ := sliceIndex_isSome sizes i99 h99a h99b
  simp only [if_neg h0', typeStats, hi95, hi99, Option.some_bind, hv95, hv99,
    List.get?_eq_get hmed, Option.getD_some]
  by_cases hlt : F64.lt (efficiencyOf sizes) (F64.ofNat 50) = true
  · have hlt' := hlt
    unfold efficiencyOf at hlt'
    rw [if_pos hlt', if_pos hlt]
    rfl
  · have hlt' := hlt
    unfold efficiencyOf at hlt'
    rw [if_neg hlt', if_neg hlt, List.append_nil]
    rfl
theorem foldlM_typeEfficiencyStep_eq (R : Runtime) :
    ∀ (l : List (GoString × List ℕ)) (oa : OpsAnalyzer),
    (∀ p ∈ l, p.2 ≠ [] ∧ p.2.length ≤ 2 ^ 32) →
    l.foldlM (typeEfficiencyStep R) oa = some
      { oa with
        typeEfficiency :=
          l.foldl (fun m p => mapSet m p.1 (typeStats p.1 (sortedSizes p.2))) oa.typeEfficiency
        anomalies := oa.anomalies ++ l.flatMap typeAnomalies } := by
  intro l
  induction l with
  | nil => intro oa _; simp
  | cons p l ih =>
    intro oa h
    have hp := h p (List.mem_cons_self _ _)
    rw [List.foldlM_cons, typeEfficiencyStep_eq R oa p hp.1 hp.2]
    simp only [Option.some_bind, Option.bind_eq_bind]
    rw [ih _ (fun q hq => h q (List.mem_cons_of_mem _ hq))]
    simp [List.flatMap_cons]

theorem mem_mapSet_iff {κ ν : Type} [DecidableEq κ] (m : List (κ × ν)) (k : κ) (v : ν)
    (p : κ × ν) : p ∈ mapSet m k v ↔ (p ∈ m ∧ p.1 ≠ k) ∨ p = (k, v) := by
  unfold mapSet
  by_cases hany : m.any (fun p => decide (p.1 = k)) = true
  · rw [if_pos hany]
    constructor
    · intro hp
      obtain ⟨q, hq, rfl⟩ := List.mem_map.1 hp
      by_cases hqk : q.1 = k
      · right; simp [hqk]
      · left; simp [hqk, hq]
    · rintro (⟨hp, hpk⟩ | rfl)
      · exact List.mem_map.2 ⟨p, hp, by simp [hpk]⟩
      · obtain ⟨q, hq, hqk⟩ := List.any_eq_true.1 hany
        have hqk' : q.1 = k := by simpa using hqk
        exact List.mem_map.2 ⟨q, hq, by rw [if_pos hqk']⟩
  · rw [if_neg hany]
    have hno : ∀ q ∈ m, q.1 ≠ k := by
      intro q hq hqk
      exact hany (List.any_eq_true.2 ⟨q, hq, by simpa using hqk⟩)
    constructor
    · intro hp
      rcases List.mem_append.1 hp with h | h
      · exact Or.inl ⟨h, hno p h⟩
      · exact Or.inr (by simpa using h)
    · rintro (⟨hp, -⟩ | rfl)
      · exact List.mem_append_left _ hp
      · simp

theorem mapSet_of_not_mem {κ ν : Type} [DecidableEq κ] (m : List (κ × ν)) (k : κ) (v : ν)
    (h : k ∉ m.map Prod.fst) : mapSet m k v = m ++ [(k, v)] := by
  unfold mapSet
  rw [if_neg]
  intro hany
  obtain ⟨q, hq, hqk⟩ := List.any_eq_true.1 hany
  exact h (List.mem_map.2 ⟨q, hq, by simpa using hqk⟩)

/-- Writing the entries of a list with distinct keys into a map, one after the other,
appends them in order. -/
theorem foldl_mapSet_nodup {κ ν μ : Type} [DecidableEq κ] (f : κ × μ → ν) :
    ∀ (l : List (κ × μ)) (m : List (κ × ν)),
    ((m.map Prod.fst) ++ (l.map Prod.fst)).Nodup →
    l.foldl (fun m p => mapSet m p.1 (f p)) m = m ++ l.map (fun p => (p.1, f p)) := by
  intro l
  induction l with
  | nil => intro m _; simp
  | cons p l ih =>
    intro m h
    have hp : p.1 ∉ m.map Prod.fst := by
      intro hmem
      rw [List.nodup_append] at h
      exact h.2.2 hmem (by simp)
    rw [List.foldl_cons, mapSet_of_not_mem m p.1 (f p) hp, ih]
    · simp
    · simpa [List.map_append, List.append_assoc] using h

theorem mapGetSlice_spec (m : List (GoString × List ℕ)) (k : GoString) :
    (∃ p ∈ m, p.1 = k ∧ mapGetSlice m k = p.2) ∨
      ((∀ p ∈ m, p.1 ≠ k) ∧ mapGetSlice m k = []) := by
  unfold mapGetSlice
  cases hf : m.find? (fun p => decide (p.1 = k)) with
  | some p =>
    left
    refine ⟨p, List.mem_of_find?_eq_some hf, ?_, rfl⟩
    simpa using List.find?_some hf
  | none =>
    right
    refine ⟨?_, rfl⟩
    intro p hp hpk
    have := List.find?_eq_none.1 hf p hp
    simp [hpk] at this

/-- The grouping of `analyzeTypeEfficiency`: the keys are distinct, they are the
types of the entries, and each type holds the sizes of its entries in entry
order. -/
theorem groupByType_spec (entries : List Entry) :
    ((groupByType entries).map Prod.fst).Nodup ∧
      (∀ p ∈ groupByType entries,
        p.2 = (entries.filter (fun e => decide (e.Type_ = p.1))).map (fun e => e.Bytes) ∧
          p.2 ≠ []) ∧
      ∀ e ∈ entries, ∃ p ∈ groupByType entries, p.1 = e.Type_ := by
  induction entries using List.reverseRecOn with
  | nil => simp [groupByType]
  | append_singleton es e ih =>
    obtain ⟨ih1, ih2, ih3⟩ := ih
    have hstep : groupByType (es ++ [e]) =
        mapSet (groupByType es) e.Type_ (mapGetSlice (groupByType es) e.Type_ ++ [e.Bytes]) := by
      simp [groupByType, List.foldl_append]
    rw [hstep]
    have hval : mapGetSlice (groupByType es) e.Type_ =
        (es.filter (fun x => decide (x.Type_ = e.Type_))).map (fun x => x.Bytes) := by
      rcases mapGetSlice_spec (groupByType es) e.Type_ with ⟨p, hp, hpk, hv⟩ | ⟨hno, hv⟩
      · rw [hv, (ih2 p hp).1, hpk]
      · rw [hv]
        symm
        rw [List.map_eq_nil_iff, List.filter_eq_nil_iff]
        intro x hx hxt
        obtain ⟨p, hp, hpk⟩ := ih3 x hx
        exact hno p hp (by rw [hpk]; simpa using hxt)
    refine ⟨mapSet_keys_nodup _ _ _ ih1, ?_, ?_⟩
    · intro p hp
      rcases (mem_mapSet_iff _ _ _ _).1 hp with ⟨hpm, hpk⟩ | rfl
      · have hne : ¬ e.Type_ = p.1 := fun h => hpk h.symm
        simp only [List.filter_append, List.filter_cons, List.filter_nil, hne, decide_False,
          Bool.false_eq_true, if_false, List.append_nil]
        exact ih2 p hpm
      · simp only [hval, List.filter_append, List.filter_cons, List.filter_nil, decide_True,
          if_true, List.map_append, List.map_cons, List.map_nil]
        exact ⟨trivial, by simp⟩
    · intro x hx
      rcases List.mem_append.1 hx with hx | hx
      · obtain ⟨p, hp, hpk⟩ := ih3 x hx
        by_cases hxe : x.Type_ = e.Type_
        · exact ⟨_, (mem_mapSet_iff _ _ _ _).2 (Or.inr rfl), hxe.symm⟩
        · exact ⟨p, (mem_mapSet_iff _ _ _ _).2 (Or.inl ⟨hp, by rw [hpk]; exact hxe⟩), hpk⟩
      · have : x = e := by simpa using hx
        subst this
        exact ⟨_, (mem_mapSet_iff _ _ _ _).2 (Or.inr rfl), rfl⟩

theorem foldl_mapSet_mem {κ ν μ : Type} [DecidableEq κ] (f : κ × μ → ν) :
    ∀ (l : List (κ × μ)) (m : List (κ × ν)) (q : κ × ν),
    q ∈ l.foldl (fun m p => mapSet m p.1 (f p)) m →
      (q ∈ m ∧ ∀ p ∈ l, p.1 ≠ q.1) ∨ ∃ p ∈ l, q = (p.1, f p) := by
  intro l
  induction l with
  | nil => intro m q h; exact Or.inl ⟨h, by simp⟩
  | cons p l ih =>
    intro m q h
    rw [List.foldl_cons] at h
    rcases ih _ q h with ⟨h1, h2⟩ | ⟨p', hp', rfl⟩
    · rcases (mem_mapSet_iff _ _ _ _).1 h1 with ⟨h3, h4⟩ | rfl
      · left
        refine ⟨h3, ?_⟩
        intro p' hp'
        rcases List.mem_cons.1 hp' with rfl | hp'
        · exact fun h => h4 h.symm
        · exact h2 p' hp'
      · exact Or.inr ⟨p, List.mem_cons_self _ _, rfl⟩
    · exact Or.inr ⟨p', List.mem_cons_of_mem _ hp', rfl⟩

theorem foldl_mapSet_key {κ ν μ : Type} [DecidableEq κ] (f : κ × μ → ν) :
    ∀ (l : List (κ × μ)) (m : List (κ × ν)) (k : κ),
    ((∃ q ∈ m, q.1 = k) ∨ ∃ p ∈ l, p.1 = k) →
      ∃ q ∈ l.foldl (fun m p => mapSet m p.1 (f p)) m, q.1 = k := by
  intro l
  induction l with
  | nil =>
    intro m k h
    rcases h with h | ⟨p, hp, -⟩
    · exact h
    · simp at hp
  | cons p l ih =>
    intro m k h
    rw [List.foldl_cons]
    apply ih
    by_cases hk : p.1 = k
    · exact Or.inl ⟨(p.1, f p), (mem_mapSet_iff _ _ _ _).2 (Or.inr rfl), hk⟩
    · rcases h with ⟨q, hq, hqk⟩ | ⟨p', hp', hpk⟩
      · exact Or.inl ⟨q, (mem_mapSet_iff _ _ _ _).2 (Or.inl ⟨hq, by rw [hqk]; exact fun h => hk h.symm⟩),
          hqk⟩
      · rcases List.mem_cons.1 hp' with rfl | hp'
        · exact absurd hpk hk
        · exact Or.inr ⟨p', hp', hpk⟩

theorem sortedSizes_replicate (n x : ℕ) : sortedSizes (List.replicate n x) = List.replicate n x :=
  goRuntime.sortSlice_replicate _ n x

theorem efficiencyOf_replicate (n x : ℕ) (hn : 0 < n) (hn2 : n ≤ 2 ^ 32) (hx : n * x < 2 ^ 64) :
    efficiencyOf (List.replicate n x) = F64.fin 100 := by
  have h1 := typeEfficiencyStep_eq goRuntime (newState emptyCounter) ([], List.replicate n x)
    (by
      intro h
      have := congrArg List.length h
      simp at this
      omega)
    (by simpa using hn2)
  rw [typeEfficiencyStep_replicate goRuntime (newState emptyCounter) [] n x hn hn2 hx] at h1
  have h2 := congrArg (fun o => o.map (fun s => s.typeEfficiency.map (fun p => p.2.Efficiency))) h1
  simp only [Option.map_some', newState, mapSet, sortedSizes_replicate] at h2
  simpa [typeStats] using h2.symm

theorem typeAnomalies_replicate (typ : GoString) (n x : ℕ) (hn : 0 < n) (hn2 : n ≤ 2 ^ 32)
    (hx : n * x < 2 ^ 64) : typeAnomalies (typ, List.replicate n x) = [] := by
  unfold typeAnomalies
  rw [sortedSizes_replicate, efficiencyOf_replicate n x hn hn2 hx,
    F64.ofNat_small 50 (by norm_num)]
  simp [F64.lt]
  norm_num

theorem getLargestEntries_length_le (c : Counter) (n : ℕ) : (c.GetLargestEntries n).length ≤ n := by
  unfold Counter.GetLargestEntries
  exact List.length_take_le _ _

theorem sizeGroups_bounds (R : Runtime) (c : Counter) :
    ∀ p ∈ R.mapRange (groupByType (c.GetLargestEntries 500)), p.2 ≠ [] ∧ p.2.length ≤ 2 ^ 32 := by
  intro p hp
  have hp' := (R.mapRange_perm _).mem_iff.1 hp
  have h1 := groupByType_length_le _ p hp'
  have h2 := getLargestEntries_length_le c 500
  have h3 : (500 : ℕ) ≤ 2 ^ 32 := by norm_num
  exact ⟨((groupByType_spec _).2.1 p hp').2, by omega⟩

theorem analyzeTypeEfficiency_eq (R : Runtime) (oa : OpsAnalyzer) :
    analyzeTypeEfficiency R oa = some
      { oa with
        typeEfficiency :=
          (R.mapRange (groupByType (oa.counter.GetLargestEntries 500))).foldl
            (fun m p => mapSet m p.1 (typeStats p.1 (sortedSizes p.2))) oa.typeEfficiency
        anomalies := oa.anomalies ++
          (R.mapRange (groupByType (oa.counter.GetLargestEntries 500))).flatMap typeAnomalies } := by
  unfold analyzeTypeEfficiency
  exact foldlM_typeEfficiencyStep_eq R _ oa (sizeGroups_bounds R oa.counter)

/-- C13: when the sampled keys of a type all have the same size, and the sum of
these sizes is a `uint64`, `analyzeTypeEfficiency` returns, the record it leaves
for the type has `Efficiency = 100`, and none of the anomalies it appends is an
"Inconsistent Key Sizes" anomaly for the type. -/
theorem identical_sizes_efficiency (R : Runtime) (oa : OpsAnalyzer) (typ : GoString) (x : ℕ)
    (hmem : ∃ e ∈ oa.counter.GetLargestEntries 500, e.Type_ = typ)
    (hsame : ∀ e ∈ oa.counter.GetLargestEntries 500, e.Type_ = typ → e.Bytes = x)
    (hsum : (oa.counter.GetLargestEntries 500).countP (fun e => decide (e.Type_ = typ)) * x <
      2 ^ 64) :
    ∃ oa' extra, analyzeTypeEfficiency R oa = some oa' ∧
      (∃ te, (typ, te) ∈ oa'.typeEfficiency) ∧
      (∀ te, (typ, te) ∈ oa'.typeEfficiency → te.Efficiency = F64.fin 100) ∧
      oa'.anomalies = oa.anomalies ++ extra ∧
      ∀ a ∈ extra, ∀ efficiency, a ≠ inconsistentSizesAnomaly typ efficiency := by
  refine ⟨_, (R.mapRange (groupByType (oa.counter.GetLargestEntries 500))).flatMap typeAnomalies,
    analyzeTypeEfficiency_eq R oa, ?_⟩
  simp only
  generalize hes : oa.counter.GetLargestEntries 500 = es at hmem hsame hsum
  have hes500 : es.length ≤ 500 := by rw [← hes]; exact getLargestEntries_length_le _ _
  obtain ⟨hnd, hcontent, hcover⟩ := groupByType_spec es
  set n := es.countP (fun e => decide (e.Type_ = typ)) with hn
  have hnpos : 0 < n := by
    obtain ⟨e, he, het⟩ := hmem
    exact List.countP_pos_iff.2 ⟨e, he, by simpa using het⟩
  have hn500 : n ≤ 2 ^ 32 := by
    have := List.countP_le_length (fun e : Entry => decide (e.Type_ = typ)) (l := es)
    have h3 : (500 : ℕ) ≤ 2 ^ 32 := by norm_num
    omega
  have hgroup : ∀ p ∈ R.mapRange (groupByType es), p.1 = typ → p = (typ, List.replicate n x) := by
    intro p hp hpt
    have hp' := (R.mapRange_perm _).mem_iff.1 hp
    have h1 := (hcontent p hp').1
    rw [hpt] at h1
    have h2 : p.2 = List.replicate n x := by
      rw [h1, List.eq_replicate_iff]
      refine ⟨by rw [List.length_map, hn, List.countP_eq_length_filter], ?_⟩
      intro b hb
      obtain ⟨e, he, rfl⟩ := List.mem_map.1 hb
      have he' := List.mem_filter.1 he
      exact hsame e he'.1 (by simpa using he'.2)
    exact Prod.ext hpt h2
  have hstats : (typeStats typ (sortedSizes (List.replicate n x))).Efficiency = F64.fin 100 := by
    rw [sortedSizes_replicate]
    exact efficiencyOf_replicate n x hnpos hn500 hsum
  refine ⟨?_, ?_, trivial, ?_⟩
  · obtain ⟨e, he, het⟩ := hmem
    obtain ⟨p, hp, hpt⟩ := hcover e he
    obtain ⟨q, hq, hqk⟩ := foldl_mapSet_key
      (fun p : GoString × List ℕ => typeStats p.1 (sortedSizes p.2))
      (R.mapRange (groupByType es)) oa.typeEfficiency typ
      (Or.inr ⟨p, (R.mapRange_perm _).mem_iff.2 hp, by rw [hpt, het]⟩)
    exact ⟨q.2, by rw [← hqk]; exact hq⟩
  · intro te hte
    rcases foldl_mapSet_mem _ _ _ _ hte with ⟨-, h2⟩ | ⟨p, hp, hq⟩
    · exfalso
      obtain ⟨e, he, het⟩ := hmem
      obtain ⟨p, hp, hpt⟩ := hcover e he
      exact h2 p ((R.mapRange_perm _).mem_iff.2 hp) (by rw [hpt, het])
    · have hpt : p.1 = typ := (congrArg Prod.fst hq).symm
      have hp2 := hgroup p hp hpt
      have hte2 : te = typeStats p.1 (sortedSizes p.2) := congrArg Prod.snd hq
      rw [hte2, hp2]
      exact hstats
  · intro a ha efficiency hne
    obtain ⟨p, hp, hap⟩ := List.mem_flatMap.1 ha
    have hpt : p.1 = typ := by
      unfold typeAnomalies at hap
      split at hap
      · rw [List.mem_singleton] at hap
        rw [hap] at hne
        have := congrArg Anomaly.Description hne
        simp [inconsistentSizesAnomaly] at this
        exact this.1
      · simp at hap
    rw [hgroup p hp hpt, typeAnomalies_replicate typ n x hnpos hn500 hsum] at hap
    simp at hap
theorem lateHuge_sample :
    (newState lateHugeCounter).counter.GetLargestEntries 500 =
      List.replicate 100
        { Key := goStr "s", Type_ := goStr "string", Bytes := 200, NumOfElem := 0 } ++
      [{ Key := goStr "h", Type_ := goStr "hash", Bytes := 100, NumOfElem := 2000000 }] := by
  unfold Counter.GetLargestEntries
  exact List.take_of_length_le (by simp [newState, lateHugeCounter])

theorem lateHuge_strings :
    (∃ e ∈ (newState lateHugeCounter).counter.GetLargestEntries 500, e.Type_ = goStr "string") ∧
    (∀ e ∈ (newState lateHugeCounter).counter.GetLargestEntries 500,
      e.Type_ = goStr "string" → e.Bytes = 200) ∧
    ((newState lateHugeCounter).counter.GetLargestEntries 500).countP
      (fun e => decide (e.Type_ = goStr "string")) * 200 < 2 ^ 64 := by
  rw [lateHuge_sample]
  have hne : goStr "hash" ≠ goStr "string" := by decide
  refine ⟨⟨_, List.mem_append_left _ (List.mem_replicate.2 ⟨by norm_num, rfl⟩), rfl⟩, ?_, ?_⟩
  · intro e he het
    rcases List.mem_append.1 he with h | h
    · rw [List.eq_of_mem_replicate h]
    · rw [List.mem_singleton] at h
      rw [h] at het
      exact absurd het hne
  · have := List.countP_le_length (fun e : Entry => decide (e.Type_ = goStr "string"))
      (l := List.replicate 100
        ({ Key := goStr "s", Type_ := goStr "string", Bytes := 200, NumOfElem := 0 } : Entry) ++
      [{ Key := goStr "h", Type_ := goStr "hash", Bytes := 100, NumOfElem := 2000000 }])
    simp only [List.length_append, List.length_replicate, List.length_singleton] at this
    have h2 : (101 : ℕ) * 200 < 2 ^ 64 := by norm_num
    calc _ ≤ 101 * 200 := Nat.mul_le_mul_right _ this
      _ < 2 ^ 64 := h2

/-- C13 at a snapshot whose sample holds 100 strings of 200 bytes each and a hash. -/
theorem identical_sizes_efficiency_witness :
    ((∃ e ∈ (newState lateHugeCounter).counter.GetLargestEntries 500,
        e.Type_ = goStr "string") ∧
      (∀ e ∈ (newState lateHugeCounter).counter.GetLargestEntries 500,
        e.Type_ = goStr "string" → e.Bytes = 200) ∧
      ((newState lateHugeCounter).counter.GetLargestEntries 500).countP
        (fun e => decide (e.Type_ = goStr "string")) * 200 < 2 ^ 64) ∧
    ∃ oa' extra, analyzeTypeEfficiency goRuntime (newState lateHugeCounter) = some oa' ∧
      (∃ te, (goStr "string", te) ∈ oa'.typeEfficiency) ∧
      (∀ te, (goStr "string", te) ∈ oa'.typeEfficiency → te.Efficiency = F64.fin 100) ∧
      oa'.anomalies = (newState lateHugeCounter).anomalies ++ extra ∧
      ∀ a ∈ extra, ∀ efficiency, a ≠ inconsistentSizesAnomaly (goStr "string") efficiency :=
  ⟨lateHuge_strings,
    identical_sizes_efficiency goRuntime (newState lateHugeCounter) (goStr "string") 200
      lateHuge_strings.1 lateHuge_strings.2.1 lateHuge_strings.2.2⟩

theorem forall₂_largeKeyAnomaly (l : List Entry) (crit : List Anomaly)
    (h : List.Forall₂
      (fun e a => ∃ size, formatBytes e.Bytes = some size ∧ a = largeKeyAnomaly e size) l crit) :
    crit = l.map (fun e => largeKeyAnomaly e ((formatBytes e.Bytes).getD [])) := by
  induction h with
  | nil => rfl
  | cons hx _ ih =>
    obtain ⟨size, hs, rfl⟩ := hx
    rw [List.map_cons, hs, ih]
    rfl

theorem detectLargeKeys_eq (oa : OpsAnalyzer)
    (h : ∀ e ∈ oa.counter.GetLargestEntries 100, e.Bytes < 2 ^ 64) :
    detectLargeKeys oa = some { oa with anomalies := oa.anomalies ++ largeKeyAnomalies oa.counter } := by
  obtain ⟨crit, h1, h2⟩ := detectLargeKeys_spec oa h
  have h3 := forall₂_largeKeyAnomaly _ _ h2
  rw [h1, h3]
  unfold largeKeyAnomalies
  simp only [List.append_assoc]

theorem detectKeyExplosion_eq (oa : OpsAnalyzer) (h : oa.totalKeys = totalOf oa.counter.typeNum) :
    detectKeyExplosion oa =
      { oa with anomalies := oa.anomalies ++ keyExplosionAnomalies oa.counter } := by
  unfold detectKeyExplosion keyExplosionAnomalies tinyKeyCount
  simp only [h]
  split_ifs <;> simp

theorem detectTypeImbalance_eq (oa : OpsAnalyzer) :
    detectTypeImbalance oa =
      { oa with anomalies := oa.anomalies ++ hugeCollectionAnomalies oa.counter } := by
  unfold detectTypeImbalance hugeCollectionAnomalies
  rw [foldl_typeImbalanceStep]

theorem foldl_keyPatternStep : ∀ (l : List PrefixEntry) (oa : OpsAnalyzer),
    oa.totalKeys = totalOf oa.counter.typeNum →
    l.foldl keyPatternStep oa =
      { oa with keyPatterns := oa.keyPatterns ++ l.map (keyPatternOf oa.counter) } := by
  intro l
  induction l with
  | nil => intro oa _; simp
  | cons p l ih =>
    intro oa h
    rw [List.foldl_cons, ih _ (by simpa [keyPatternStep] using h)]
    simp [keyPatternStep, keyPatternOf, h]

theorem analyzeKeyPatterns_formula (oa : OpsAnalyzer)
    (h : oa.totalKeys = totalOf oa.counter.typeNum) :
    analyzeKeyPatterns oa =
      { oa with
        keyPatterns := oa.keyPatterns ++
          (oa.counter.GetLargestKeyPrefixes.take 50).map (keyPatternOf oa.counter) } := by
  unfold analyzeKeyPatterns
  exact foldl_keyPatternStep _ oa h

/-- The state of `analyze` when `analyzeClusterBalance` is called. -/
theorem analyzeStats_newState (R : Runtime) (c : Counter) (hc : c.WF) :
    analyzeStats R (newState c) = some (calculateHealthScore (analyzeClusterBalance R
      (passState c
        (R.sortSlice (fun a b => decide (b.MemoryUsed < a.MemoryUsed))
          (hotspotList c (R.mapRange c.typeBytes)))
        (R.mapRange c.typeBytes) (R.mapRange (groupByType (c.GetLargestEntries 500)))))) := by
  unfold analyzeStats
  rw [calculateBasicStats_newState, detectLargeKeys_eq _ (hc.largest 100), Option.some_bind,
    detectMemoryHotspots_eq, detectKeyExplosion_eq _ rfl, detectTypeImbalance_eq,
    analyzeKeyPatterns_formula _ rfl, analyzeTypeEfficiency_eq, Option.some_bind]
  have hnd : (([] : List (GoString × TypeEfficiency)).map Prod.fst ++
      (R.mapRange (groupByType (c.GetLargestEntries 500))).map Prod.fst).Nodup := by
    rw [List.map_nil, List.nil_append]
    exact ((R.mapRange_perm _).map Prod.fst).nodup_iff.2 (groupByType_spec _).1
  have hT := foldl_mapSet_nodup (fun p : GoString × List ℕ => typeStats p.1 (sortedSizes p.2))
    (R.mapRange (groupByType (c.GetLargestEntries 500))) [] hnd
  simp only [newState, List.nil_append, hT, passState, hotspotAnomalies, hotspotList,
    List.append_assoc]

theorem slotStats_mapRange (R : Runtime) (l : List (ℤ × ℕ)) (hl : l ≠ [])
    (hwf : ∀ p ∈ l, p.2 < 2 ^ 64) : slotStats (R.mapRange l) = slotStats l := by
  have hperm := R.mapRange_perm l
  have hl' : R.mapRange l ≠ [] := by
    intro h
    rw [h] at hperm
    exact hl (List.perm_nil.1 hperm.symm)
  obtain ⟨a1, ⟨⟨p1, hp1, e1⟩, b1⟩, ⟨⟨q1, hq1, f1⟩, c1⟩⟩ := slotStats_spec (R.mapRange l) hl'
    (fun p hp => hwf p (hperm.mem_iff.1 hp))
  obtain ⟨a2, ⟨⟨p2, hp2, e2⟩, b2⟩, ⟨⟨q2, hq2, f2⟩, c2⟩⟩ := slotStats_spec l hl hwf
  have h1 : (slotStats (R.mapRange l)).1 = (slotStats l).1 := by
    rw [a1, a2, totalOf_perm hperm]
  have h2 : (slotStats (R.mapRange l)).2.1 = (slotStats l).2.1 := by
    have := b2 p1 (hperm.mem_iff.1 hp1)
    have := b1 p2 (hperm.mem_iff.2 hp2)
    omega
  have h3 : (slotStats (R.mapRange l)).2.2 = (slotStats l).2.2 := by
    have := c2 q1 (hperm.mem_iff.1 hq1)
    have := c1 q2 (hperm.mem_iff.2 hq2)
    omega
  exact Prod.ext h1 (Prod.ext h2 h3)

theorem F64.gt_zero_fifty : F64.gt (F64.fin 0) (F64.ofNat 50) = false := by
  rw [F64.ofNat_small 50 (by norm_num)]
  simp [F64.gt, F64.lt]

theorem analyzeClusterBalance_passState (R : Runtime) (c : Counter) (hc : c.WF)
    (hotspots : List MemoryHotspot) (types : List (GoString × ℕ))
    (groups : List (GoString × List ℕ)) :
    analyzeClusterBalance R (passState c hotspots types groups) =
      { passState c hotspots types groups with
        slotImbalance := clusterImbalance c
        topSlotsUsage :=
          ((R.sortSlice (fun a b => decide (b.bytes < a.bytes))
            (slotList c (R.mapRange c.slotBytes))).take 10).map (slotUsageOf c)
        anomalies := (passState c hotspots types groups).anomalies ++ clusterAnomalies c } := by
  unfold analyzeClusterBalance clusterAnomalies clusterImbalance
  by_cases h : c.slotBytes.length = 0
  · have h' : c.slotBytes = [] := List.length_eq_zero.1 h
    simp [passState, h', slotList, R.mapRange_nil, R.sortSlice_nil, F64.gt_zero_fifty]
  · have h' : c.slotBytes ≠ [] := fun e => h (by rw [e]; rfl)
    have hst := slotStats_mapRange R c.slotBytes h' hc.2.2.2.1
    have hp : (passState c hotspots types groups).counter = c := rfl
    have hS : (passState c hotspots types groups).slotImbalance = F64.fin 0 := rfl
    have hU : (passState c hotspots types groups).topSlotsUsage = [] := rfl
    have hB : (passState c hotspots types groups).totalBytes = totalOf c.typeBytes := rfl
    simp only [hp, hS, hU, hB, if_neg h, hst, List.nil_append]
    generalize (if 0 < (slotStats c.slotBytes).1 / c.slotBytes.length then
      F64.mul (F64.div (F64.sub (F64.ofNat (slotStats c.slotBytes).2.1)
        (F64.ofNat (slotStats c.slotBytes).2.2))
        (F64.ofNat ((slotStats c.slotBytes).1 / c.slotBytes.length))) (F64.ofNat 100)
      else F64.fin 0) = X
    by_cases hgt : F64.gt X (F64.ofNat 50) = true
    · rw [if_pos hgt, if_pos hgt]
      rfl
    · rw [if_neg hgt, if_neg hgt, List.append_nil]
      rfl

/-- The report of the analysis as a function of the summary and of the runtime. -/
theorem analysis_eq (R : Runtime) (c : Counter) (hc : c.WF) :
    NewOpsAnalyzer R c = some (generateRecommendations R (calculateHealthScore
      { passState c
          (R.sortSlice (fun a b => decide (b.MemoryUsed < a.MemoryUsed))
            (hotspotList c (R.mapRange c.typeBytes)))
          (R.mapRange c.typeBytes) (R.mapRange (groupByType (c.GetLargestEntries 500))) with
        slotImbalance := clusterImbalance c
        topSlotsUsage :=
          ((R.sortSlice (fun a b => decide (b.bytes < a.bytes))
            (slotList c (R.mapRange c.slotBytes))).take 10).map (slotUsageOf c)
        anomalies :=
          (passState c
            (R.sortSlice (fun a b => decide (b.MemoryUsed < a.MemoryUsed))
              (hotspotList c (R.mapRange c.typeBytes)))
            (R.mapRange c.typeBytes)
            (R.mapRange (groupByType (c.GetLargestEntries 500)))).anomalies ++
          clusterAnomalies c })) := by
  unfold NewOpsAnalyzer analyze
  rw [analyzeStats_newState R c hc, analyzeClusterBalance_passState R c hc]
  rfl

theorem passState_category (c : Counter) (hotspots : List MemoryHotspot)
    (types : List (GoString × ℕ)) (groups : List (GoString × List ℕ)) :
    ∀ a ∈ (passState c hotspots types groups).anomalies, a.Category ≠ "cluster" := by
  have s1 : "memory" ≠ "cluster" := by decide
  have s2 : "keys" ≠ "cluster" := by decide
  have s3 : "performance" ≠ "cluster" := by decide
  intro a ha
  simp only [passState, List.mem_append] at ha
  rcases ha with (((ha | ha) | ha) | ha) | ha
  · unfold largeKeyAnomalies at ha
    rcases List.mem_append.1 ha with h | h
    · obtain ⟨e, -, rfl⟩ := List.mem_map.1 h
      exact s1
    · split at h
      · rw [List.mem_singleton] at h
        rw [h]
        exact s1
      · simp at h
  · unfold hotspotAnomalies at ha
    rcases List.mem_append.1 ha with h | h
    · obtain ⟨e, -, rfl⟩ := List.mem_map.1 h
      exact s1
    · obtain ⟨e, -, rfl⟩ := List.mem_map.1 h
      exact s1
  · unfold keyExplosionAnomalies at ha
    rcases List.mem_append.1 ha with h | h
    · split at h
      · rw [List.mem_singleton] at h
        rw [h]
        exact s2
      · simp at h
    · split at h
      · rw [List.mem_singleton] at h
        rw [h]
        exact s2
      · simp at h
  · unfold hugeCollectionAnomalies at ha
    obtain ⟨e, -, rfl⟩ := List.mem_map.1 ha
    exact s3
  · obtain ⟨p, -, hp⟩ := List.mem_flatMap.1 ha
    unfold typeAnomalies at hp
    split at hp
    · rw [List.mem_singleton] at hp
      rw [hp]
      exact s3
    · simp at hp

theorem clusterImbalance_formula (c : Counter) (hc : c.WF) (hne : c.slotBytes ≠ []) :
    ∃ mx mn,
      ((∃ p ∈ c.slotBytes, p.2 = mx) ∧ ∀ p ∈ c.slotBytes, p.2 ≤ mx) ∧
      ((∃ p ∈ c.slotBytes, p.2 = mn) ∧ ∀ p ∈ c.slotBytes, mn ≤ p.2) ∧
      clusterImbalance c =
        if 0 < totalOf c.slotBytes / c.slotBytes.length then
          F64.mul
            (F64.div (F64.sub (F64.ofNat mx) (F64.ofNat mn))
              (F64.ofNat (totalOf c.slotBytes / c.slotBytes.length)))
            (F64.ofNat 100)
        else F64.fin 0 := by
  obtain ⟨h1, h2, h3⟩ := slotStats_spec c.slotBytes hne hc.2.2.2.1
  refine ⟨_, _, h2, h3, ?_⟩
  unfold clusterImbalance
  have h0 : c.slotBytes.length ≠ 0 := fun e => hne (List.length_eq_zero.1 e)
  simp only [if_neg h0, h1]

/-- C14: for a summary with at least one slot, the analysis sets `slotImbalance` to
`(float64(max) - float64(min)) / float64(avg) * 100`, computed in `float64`, where
`max` and `min` are the largest and the smallest byte total of a slot and `avg` is
the `uint64` sum of the byte totals divided (integer division) by the number of
slots; when `avg` is 0 the formula is skipped and `slotImbalance` is 0. -/
theorem slotImbalance_formula (R : Runtime) (c : Counter) (hc : c.WF) (hne : c.slotBytes ≠ []) :
    ∃ oa mx mn, NewOpsAnalyzer R c = some oa ∧
      ((∃ p ∈ c.slotBytes, p.2 = mx) ∧ ∀ p ∈ c.slotBytes, p.2 ≤ mx) ∧
      ((∃ p ∈ c.slotBytes, p.2 = mn) ∧ ∀ p ∈ c.slotBytes, mn ≤ p.2) ∧
      oa.slotImbalance =
        if 0 < totalOf c.slotBytes / c.slotBytes.length then
          F64.mul
            (F64.div (F64.sub (F64.ofNat mx) (F64.ofNat mn))
              (F64.ofNat (totalOf c.slotBytes / c.slotBytes.length)))
            (F64.ofNat 100)
        else F64.fin 0 := by
  obtain ⟨mx, mn, h1, h2, h3⟩ := clusterImbalance_formula c hc hne
  exact ⟨_, mx, mn, analysis_eq R c hc, h1, h2, h3⟩

/-- C14 at the sample snapshot, whose two slots hold 83886080 and 100 bytes. -/
theorem slotImbalance_formula_witness :
    sampleCounter.WF ∧ sampleCounter.slotBytes ≠ [] ∧
    ∃ oa mx mn, NewOpsAnalyzer goRuntime sampleCounter = some oa ∧
      ((∃ p ∈ sampleCounter.slotBytes, p.2 = mx) ∧ ∀ p ∈ sampleCounter.slotBytes, p.2 ≤ mx) ∧
      ((∃ p ∈ sampleCounter.slotBytes, p.2 = mn) ∧ ∀ p ∈ sampleCounter.slotBytes, mn ≤ p.2) ∧
      oa.slotImbalance =
        if 0 < totalOf sampleCounter.slotBytes / sampleCounter.slotBytes.length then
          F64.mul
            (F64.div (F64.sub (F64.ofNat mx) (F64.ofNat mn))
              (F64.ofNat (totalOf sampleCounter.slotBytes / sampleCounter.slotBytes.length)))
            (F64.ofNat 100)
        else F64.fin 0 :=
  ⟨sampleCounter_wf, by simp [sampleCounter],
    slotImbalance_formula goRuntime sampleCounter sampleCounter_wf (by simp [sampleCounter])⟩
theorem twoSlotCounter_wf : twoSlotCounter.WF := by
  simp [Counter.WF, twoSlotCounter]

theorem clusterImbalance_twoSlot : clusterImbalance twoSlotCounter = F64.fin 100 := by
  have hs : slotStats twoSlotCounter.slotBytes = (400, 300, 100) := by
    simp [slotStats, twoSlotCounter]
  have hl : twoSlotCounter.slotBytes.length = 2 := rfl
  have h1 : F64.sub (F64.ofNat 300) (F64.ofNat 100) = F64.fin 200 := by
    rw [F64.ofNat_small _ (by norm_num), F64.ofNat_small _ (by norm_num), F64.sub_fin]
    norm_num
    exact F64.round_ofNat 200 (by norm_num)
  have h2 : F64.div (F64.fin 200) (F64.ofNat 200) = F64.fin 1 := by
    rw [F64.ofNat_small _ (by norm_num), F64.div_fin _ _ (by norm_num)]
    norm_num
    simpa using F64.round_natCast 1 (by norm_num)
  have h3 : F64.mul (F64.fin 1) (F64.ofNat 100) = F64.fin 100 := by
    rw [F64.ofNat_small _ (by norm_num), F64.mul_fin]
    norm_num
    exact F64.round_ofNat 100 (by norm_num)
  unfold clusterImbalance
  rw [hs, hl]
  norm_num
  rw [h1, h2, h3]

theorem F64.gt_hundred_fifty : F64.gt (F64.fin 100) (F64.ofNat 50) = true := by
  rw [F64.ofNat_small 50 (by norm_num)]
  simp [F64.gt, F64.lt]
  norm_num

/-- C15: the analysis appends the warning/cluster anomaly "Slot Imbalance Detected"
exactly when the slot imbalance it has computed is greater than 50, and no other
anomaly of the report has the category "cluster"; for two slots with byte totals 100
and 300 the imbalance is 100 and the anomaly is in the report. -/
theorem cluster_anomaly_iff (R : Runtime) (c : Counter) (hc : c.WF) :
    (∃ oa rest, NewOpsAnalyzer R c = some oa ∧ (∀ a ∈ rest, a.Category ≠ "cluster") ∧
      oa.anomalies = rest ++
        (if F64.gt oa.slotImbalance (F64.ofNat 50) then [slotImbalanceAnomaly oa.slotImbalance]
        else [])) ∧
    (∀ S, (slotImbalanceAnomaly S).Level = "warning" ∧
      (slotImbalanceAnomaly S).Category = "cluster") ∧
    ∃ oa, NewOpsAnalyzer R twoSlotCounter = some oa ∧ oa.slotImbalance = F64.fin 100 ∧
      slotImbalanceAnomaly (F64.fin 100) ∈ oa.anomalies := by
  refine ⟨⟨_, _, analysis_eq R c hc, passState_category c _ _ _, rfl⟩, fun S => ⟨rfl, rfl⟩,
    _, analysis_eq R twoSlotCounter twoSlotCounter_wf, clusterImbalance_twoSlot, ?_⟩
  apply List.mem_append_right
  show _ ∈ clusterAnomalies twoSlotCounter
  unfold clusterAnomalies
  rw [clusterImbalance_twoSlot, if_pos F64.gt_hundred_fifty]
  exact List.mem_singleton.2 rfl

/-- C15 at the sample snapshot. -/
theorem cluster_anomaly_iff_witness :
    sampleCounter.WF ∧
    (∃ oa rest, NewOpsAnalyzer goRuntime sampleCounter = some oa ∧
      (∀ a ∈ rest, a.Category ≠ "cluster") ∧
      oa.anomalies = rest ++
        (if F64.gt oa.slotImbalance (F64.ofNat 50) then [slotImbalanceAnomaly oa.slotImbalance]
        else [])) ∧
    (∀ S, (slotImbalanceAnomaly S).Level = "warning" ∧
      (slotImbalanceAnomaly S).Category = "cluster") ∧
    ∃ oa, NewOpsAnalyzer goRuntime twoSlotCounter = some oa ∧ oa.slotImbalance = F64.fin 100 ∧
      slotImbalanceAnomaly (F64.fin 100) ∈ oa.anomalies :=
  ⟨sampleCounter_wf, cluster_anomaly_iff goRuntime sampleCounter sampleCounter_wf⟩

theorem slotList_sorted (R : Runtime) (c : Counter) :
    (R.sortSlice (fun a b : slotInfo => decide (b.bytes < a.bytes))
      (slotList c (R.mapRange c.slotBytes))).Pairwise (fun a b => b.bytes ≤ a.bytes) := by
  refine (R.sortSlice_sorted _ _ (strictWeakOrder_desc (fun s : slotInfo => s.bytes))).imp ?_
  intro a b h
  simpa using h

theorem slotList_perm (R : Runtime) (c : Counter) :
    ((R.sortSlice (fun a b : slotInfo => decide (b.bytes < a.bytes))
      (slotList c (R.mapRange c.slotBytes))).map (fun s => (s.slot, s.bytes))).Perm
      c.slotBytes := by
  have h1 := (R.sortSlice_perm (fun a b : slotInfo => decide (b.bytes < a.bytes))
    (slotList c (R.mapRange c.slotBytes))).map (fun s => (s.slot, s.bytes))
  have h2 : (slotList c (R.mapRange c.slotBytes)).map (fun s => (s.slot, s.bytes)) =
      R.mapRange c.slotBytes := by
    unfold slotList
    rw [List.map_map]
    simp [Function.comp_def]
  rw [h2] at h1
  exact h1.trans (R.mapRange_perm _)

/-- C16: for a summary with `n` slots the analysis lists `min 10 n` slots, in
non-increasing order of `MemoryUsed`; the listed slots together with some list
`rest` of slots are the per-slot byte map, and no slot of `rest` has more bytes
than a listed one; each listed slot carries its key count.  With no slot the list is
empty, `slotImbalance` is 0 and no anomaly has the category "cluster". -/
theorem topSlots_spec (R : Runtime) (c : Counter) (hc : c.WF) :
    ∃ oa, NewOpsAnalyzer R c = some oa ∧
      oa.topSlotsUsage.length = min 10 c.slotBytes.length ∧
      oa.topSlotsUsage.Pairwise (fun a b => b.MemoryUsed ≤ a.MemoryUsed) ∧
      (∃ rest, List.Perm (oa.topSlotsUsage.map (fun u => (u.Slot, u.MemoryUsed)) ++ rest)
          c.slotBytes ∧
        ∀ u ∈ oa.topSlotsUsage, ∀ p ∈ rest, p.2 ≤ u.MemoryUsed) ∧
      (∀ u ∈ oa.topSlotsUsage, u.KeyCount = mapGet c.slotNum u.Slot) ∧
      (c.slotBytes = [] → oa.topSlotsUsage = [] ∧ oa.slotImbalance = F64.fin 0 ∧
        ∀ a ∈ oa.anomalies, a.Category ≠ "cluster") := by
  refine ⟨_, analysis_eq R c hc, ?_⟩
  show (((R.sortSlice (fun a b => decide (b.bytes < a.bytes))
      (slotList c (R.mapRange c.slotBytes))).take 10).map (slotUsageOf c)).length = _ ∧
    (((R.sortSlice (fun a b => decide (b.bytes < a.bytes))
      (slotList c (R.mapRange c.slotBytes))).take 10).map (slotUsageOf c)).Pairwise _ ∧
    (∃ rest, List.Perm ((((R.sortSlice (fun a b => decide (b.bytes < a.bytes))
      (slotList c (R.mapRange c.slotBytes))).take 10).map (slotUsageOf c)).map
        (fun u => (u.Slot, u.MemoryUsed)) ++ rest) c.slotBytes ∧
      ∀ u ∈ ((R.sortSlice (fun a b => decide (b.bytes < a.bytes))
        (slotList c (R.mapRange c.slotBytes))).take 10).map (slotUsageOf c),
        ∀ p ∈ rest, p.2 ≤ u.MemoryUsed) ∧
    (∀ u ∈ ((R.sortSlice (fun a b => decide (b.bytes < a.bytes))
        (slotList c (R.mapRange c.slotBytes))).take 10).map (slotUsageOf c),
        u.KeyCount = mapGet c.slotNum u.Slot) ∧
    (c.slotBytes = [] → ((R.sortSlice (fun a b => decide (b.bytes < a.bytes))
        (slotList c (R.mapRange c.slotBytes))).take 10).map (slotUsageOf c) = [] ∧
      clusterImbalance c = F64.fin 0 ∧
      ∀ a ∈ (passState c _ _ _).anomalies ++ clusterAnomalies c, a.Category ≠ "cluster")
  have hsorted := slotList_sorted R c
  have hperm := slotList_perm R c
  have hmem : ∀ s ∈ R.sortSlice (fun a b : slotInfo => decide (b.bytes < a.bytes))
      (slotList c (R.mapRange c.slotBytes)), s.keys = mapGet c.slotNum s.slot := by
    intro s hs
    have hs' := (R.sortSlice_perm _ _).mem_iff.1 hs
    unfold slotList at hs'
    obtain ⟨p, -, rfl⟩ := List.mem_map.1 hs'
    rfl
  have hlen : (R.sortSlice (fun a b : slotInfo => decide (b.bytes < a.bytes))
      (slotList c (R.mapRange c.slotBytes))).length = c.slotBytes.length := by
    have := hperm.length_eq
    rwa [List.length_map] at this
  generalize R.sortSlice (fun a b : slotInfo => decide (b.bytes < a.bytes))
      (slotList c (R.mapRange c.slotBytes)) = sorted at hsorted hperm hmem hlen
  refine ⟨?_, ?_, ?_, ?_, ?_⟩
  · rw [List.length_map, List.length_take, hlen]
  · rw [List.pairwise_map]
    exact hsorted.sublist (List.take_sublist _ _)
  · refine ⟨(sorted.drop 10).map (fun s => (s.slot, s.bytes)), ?_, ?_⟩
    · have e : ((sorted.take 10).map (slotUsageOf c)).map (fun u => (u.Slot, u.MemoryUsed)) =
          (sorted.take 10).map (fun s => (s.slot, s.bytes)) := by
        rw [List.map_map]
        rfl
      rw [e, ← List.map_append, List.take_append_drop]
      exact hperm
    · intro u hu p hp
      obtain ⟨s, hs, rfl⟩ := List.mem_map.1 hu
      obtain ⟨t, ht, rfl⟩ := List.mem_map.1 hp
      have h := hsorted
      rw [← List.take_append_drop 10 sorted, List.pairwise_append] at h
      exact h.2.2 s hs t ht
  · intro u hu
    obtain ⟨s, hs, rfl⟩ := List.mem_map.1 hu
    exact hmem s (List.mem_of_mem_take hs)
  · intro h0
    have hs0 : sorted = [] := by
      rw [h0] at hlen
      exact List.length_eq_zero.1 hlen
    have hci : clusterImbalance c = F64.fin 0 := by
      unfold clusterImbalance
      rw [if_pos (by rw [h0]; rfl)]
    refine ⟨by rw [hs0]; rfl, hci, ?_⟩
    intro a ha
    rcases List.mem_append.1 ha with h | h
    · exact passState_category c _ _ _ a h
    · unfold clusterAnomalies at h
      rw [hci, F64.gt_zero_fifty] at h
      simp at h

/-- C16 at the sample snapshot, which has two slots, and at the empty snapshot, which
has none. -/
theorem topSlots_spec_witness :
    (sampleCounter.WF ∧
      ∃ oa, NewOpsAnalyzer goRuntime sampleCounter = some oa ∧
        oa.topSlotsUsage.length = min 10 sampleCounter.slotBytes.length ∧
        oa.topSlotsUsage.Pairwise (fun a b => b.MemoryUsed ≤ a.MemoryUsed) ∧
        (∃ rest, List.Perm (oa.topSlotsUsage.map (fun u => (u.Slot, u.MemoryUsed)) ++ rest)
            sampleCounter.slotBytes ∧
          ∀ u ∈ oa.topSlotsUsage, ∀ p ∈ rest, p.2 ≤ u.MemoryUsed) ∧
        (∀ u ∈ oa.topSlotsUsage, u.KeyCount = mapGet sampleCounter.slotNum u.Slot) ∧
        (sampleCounter.slotBytes = [] → oa.topSlotsUsage = [] ∧
          oa.slotImbalance = F64.fin 0 ∧ ∀ a ∈ oa.anomalies, a.Category ≠ "cluster")) ∧
    (emptyCounter.WF ∧ emptyCounter.slotBytes = [] ∧
      ∃ oa, NewOpsAnalyzer goRuntime emptyCounter = some oa ∧ oa.topSlotsUsage = [] ∧
        oa.slotImbalance = F64.fin 0 ∧ ∀ a ∈ oa.anomalies, a.Category ≠ "cluster") := by
  refine ⟨⟨sampleCounter_wf, topSlots_spec goRuntime sampleCounter sampleCounter_wf⟩,
    emptyCounter_wf, rfl, ?_⟩
  obtain ⟨oa, h1, -, -, -, -, h2⟩ := topSlots_spec goRuntime emptyCounter emptyCounter_wf
  exact ⟨oa, h1, h2 rfl⟩

/-- Two runs of `sort.Slice` on the same elements give the same slice when no two
elements compare equal. -/
theorem sortSlice_unique (R₁ R₂ : Runtime) {α : Type} (less : α → α → Bool)
    (hswo : StrictWeakOrder less) (l₁ l₂ : List α) (hp : l₁.Perm l₂)
    (htot : l₁.Pairwise (fun a b => less a b = true ∨ less b a = true)) :
    R₁.sortSlice less l₁ = R₂.sortSlice less l₂ := by
  have hsym : ∀ {x y : α}, (less x y = true ∨ less y x = true) →
      (less y x = true ∨ less x y = true) := fun h => h.symm
  have key : ∀ (R : Runtime) (l : List α), l.Perm l₁ →
      List.Sorted (fun a b => less a b = true) (R.sortSlice less l) := by
    intro R l hl
    have h1 := R.sortSlice_sorted less l hswo
    have h2 : (R.sortSlice less l).Pairwise (fun a b => less a b = true ∨ less b a = true) :=
      (List.Perm.pairwise_iff hsym ((R.sortSlice_perm less l).trans hl)).2 htot
    refine (h1.and h2).imp ?_
    rintro a b ⟨h3, h4 | h4⟩
    · exact h4
    · rw [h3] at h4
      cases h4
  haveI : IsAntisymm α (fun a b => less a b = true) :=
    ⟨fun a b h1 h2 => by
      have := hswo.2.1 a b a h1 h2
      rw [hswo.1 a] at this
      cases this⟩
  exact List.eq_of_perm_of_sorted
    (((R₁.sortSlice_perm less l₁).trans hp).trans (R₂.sortSlice_perm less l₂).symm)
    (key R₁ l₁ (List.Perm.refl _)) (key R₂ l₂ hp.symm)

/-- Two runs of `sort.Slice` by decreasing `f` give the same sequence of values of
`f`. -/
theorem sortSlice_desc_values (R₁ R₂ : Runtime) {α : Type} (f : α → ℕ) (l₁ l₂ : List α)
    (hp : l₁.Perm l₂) :
    (R₁.sortSlice (fun a b => decide (f b < f a)) l₁).map f =
      (R₂.sortSlice (fun a b => decide (f b < f a)) l₂).map f := by
  have key : ∀ (R : Runtime) (l : List α),
      List.Sorted (· ≥ ·) ((R.sortSlice (fun a b => decide (f b < f a)) l).map f) := by
    intro R l
    rw [List.Sorted, List.pairwise_map]
    refine (R.sortSlice_sorted _ l (strictWeakOrder_desc f)).imp ?_
    intro a b h
    simpa using h
  exact List.eq_of_perm_of_sorted
    ((((R₁.sortSlice_perm _ l₁).trans hp).trans (R₂.sortSlice_perm _ l₂).symm).map f)
    (key R₁ l₁) (key R₂ l₂)

theorem pairwise_lt_of_nodup {α : Type} (f : α → ℕ) (l : List α) (h : (l.map f).Nodup) :
    l.Pairwise (fun a b => decide (f b < f a) = true ∨ decide (f a < f b) = true) := by
  rw [List.Nodup, List.pairwise_map] at h
  refine h.imp ?_
  intro a b hab
  simp only [decide_eq_true_eq]
  omega

theorem pairwise_lt_of_nodup_int {α : Type} (f : α → ℤ) (l : List α) (h : (l.map f).Nodup) :
    l.Pairwise (fun a b => decide (f a < f b) = true ∨ decide (f b < f a) = true) := by
  rw [List.Nodup, List.pairwise_map] at h
  refine h.imp ?_
  intro a b hab
  simp only [decide_eq_true_eq]
  omega

theorem hotspotList_perm (c : Counter) {l₁ l₂ : List (GoString × ℕ)} (h : l₁.Perm l₂) :
    (hotspotList c l₁).Perm (hotspotList c l₂) :=
  List.Perm.append_left _ (h.map _)

theorem hotspotAnomalies_perm (c : Counter) {l₁ l₂ : List (GoString × ℕ)} (h : l₁.Perm l₂) :
    (hotspotAnomalies c l₁).Perm (hotspotAnomalies c l₂) :=
  List.Perm.append_left _ ((h.filter _).map _)

theorem passState_anomalies_perm (c : Counter) (h₁ h₂ : List MemoryHotspot)
    {t₁ t₂ : List (GoString × ℕ)} {g₁ g₂ : List (GoString × List ℕ)} (ht : t₁.Perm t₂)
    (hg : g₁.Perm g₂) :
    (passState c h₁ t₁ g₁).anomalies.Perm (passState c h₂ t₂ g₂).anomalies := by
  unfold passState
  simp only
  exact ((((List.Perm.refl _).append (hotspotAnomalies_perm c ht)).append
    (List.Perm.refl _)).append (List.Perm.refl _)).append (hg.flatMap_right _)

theorem specHealthScore_perm {a₁ a₂ : List Anomaly} (h : a₁.Perm a₂) (totalKeys : ℕ)
    (avgKeySize : F64) :
    specHealthScore a₁ totalKeys avgKeySize = specHealthScore a₂ totalKeys avgKeySize := by
  unfold specHealthScore countLevel
  rw [h.countP_eq, h.countP_eq, h.countP_eq]

theorem Runtime.mapRange_perm₂ (R₁ R₂ : Runtime) {κ ν : Type} (m : List (κ × ν)) :
    (R₁.mapRange m).Perm (R₂.mapRange m) :=
  (R₁.mapRange_perm m).trans (R₂.mapRange_perm m).symm
theorem analysis_report (R : Runtime) (c : Counter) (hc : c.WF) :
    NewOpsAnalyzer R c = some (generateRecommendations R (reportState R c)) :=
  analysis_eq R c hc

theorem reportState_anomalies_perm (R₁ R₂ : Runtime) (c : Counter) :
    (reportState R₁ c).anomalies.Perm (reportState R₂ c).anomalies :=
  (passState_anomalies_perm c _ _ (R₁.mapRange_perm₂ R₂ _) (R₁.mapRange_perm₂ R₂ _)).append
    (List.Perm.refl _)

theorem reportState_healthScore (R₁ R₂ : Runtime) (c : Counter) :
    (reportState R₁ c).healthScore = (reportState R₂ c).healthScore := by
  unfold reportState
  rw [healthScore_calculateHealthScore, healthScore_calculateHealthScore]
  exact specHealthScore_perm (reportState_anomalies_perm R₁ R₂ c) _ _

theorem reportState_typeEfficiency (R : Runtime) (c : Counter) :
    (reportState R c).typeEfficiency.Perm
        ((groupByType (c.GetLargestEntries 500)).map
          (fun p => (p.1, typeStats p.1 (sortedSizes p.2)))) ∧
      ((reportState R c).typeEfficiency.map Prod.fst).Nodup := by
  have h1 : (reportState R c).typeEfficiency.Perm
      ((groupByType (c.GetLargestEntries 500)).map
        (fun p => (p.1, typeStats p.1 (sortedSizes p.2)))) :=
    (R.mapRange_perm _).map _
  refine ⟨h1, ?_⟩
  rw [(h1.map Prod.fst).nodup_iff, List.map_map]
  exact (groupByType_spec _).1

theorem reportState_generated (R₁ R₂ : Runtime) (c : Counter) :
    generatedRecommendations R₁ (reportState R₁ c) =
      generatedRecommendations R₂ (reportState R₂ c) := by
  rw [generatedRecommendations_eq R₁ _ rfl, generatedRecommendations_eq R₂ _ rfl]
  have key : ∀ R : Runtime,
      (R.mapRange (reportState R c).typeEfficiency).filter
        (fun p => F64.lt p.2.Efficiency (F64.ofNat 60) && decide (p.1 = goStr "string")) =
      (((groupByType (c.GetLargestEntries 500)).map
          (fun p => (p.1, typeStats p.1 (sortedSizes p.2)))).filter
        (fun p => decide (p.1 = goStr "string"))).filter
        (fun p => F64.lt p.2.Efficiency (F64.ofNat 60)) := by
    intro R
    obtain ⟨h1, h2⟩ := reportState_typeEfficiency R c
    have h3 := filter_eq_of_perm_of_nodup (fun p : GoString × TypeEfficiency => p.1)
      ((R.mapRange_perm (reportState R c).typeEfficiency).trans h1)
      (by
        rw [List.map_map]
        exact (groupByType_spec _).1)
      (goStr "string")
    rw [← h3, List.filter_filter]
  rw [key R₁, key R₂]
  rfl

theorem reportState_recommendations (R₁ R₂ : Runtime) (c : Counter) :
    (generateRecommendations R₁ (reportState R₁ c)).recommendations =
      (generateRecommendations R₂ (reportState R₂ c)).recommendations := by
  unfold generateRecommendations
  simp only
  refine sortSlice_unique R₁ R₂ _ (strictWeakOrder_asc (fun r : Recommendation => r.Priority))
    _ _ ?_ ?_
  · rw [reportState_generated R₁ R₂ c]
  · exact pairwise_lt_of_nodup_int (fun r : Recommendation => r.Priority) _
      (generatedRecommendations_priorities R₁ _ rfl (reportState_typeEfficiency R₁ c).2)

/-- C18 (as amended): two runs of the analysis on the same summary return, with the
same health score, totals, average key size, slot imbalance, key patterns and
recommendations; the anomalies and the hotspots of one run are a permutation of
those of the other, and the sequences of `MemoryUsed` of the hotspots and of the top
slots are the same.  The hotspots are the same when no two of them use the same
memory, and the top slots are the same when no two slots hold the same number of
bytes. -/
theorem analysis_runs_agree (R₁ R₂ : Runtime) (c : Counter) (hc : c.WF) :
    ∃ oa₁ oa₂, NewOpsAnalyzer R₁ c = some oa₁ ∧ NewOpsAnalyzer R₂ c = some oa₂ ∧
      oa₁.healthScore = oa₂.healthScore ∧ oa₁.totalKeys = oa₂.totalKeys ∧
      oa₁.totalBytes = oa₂.totalBytes ∧ oa₁.avgKeySize = oa₂.avgKeySize ∧
      oa₁.slotImbalance = oa₂.slotImbalance ∧ oa₁.keyPatterns = oa₂.keyPatterns ∧
      oa₁.recommendations = oa₂.recommendations ∧
      oa₁.anomalies.Perm oa₂.anomalies ∧ oa₁.memoryHotspots.Perm oa₂.memoryHotspots ∧
      oa₁.memoryHotspots.map (fun h => h.MemoryUsed) =
        oa₂.memoryHotspots.map (fun h => h.MemoryUsed) ∧
      oa₁.topSlotsUsage.map (fun u => u.MemoryUsed) =
        oa₂.topSlotsUsage.map (fun u => u.MemoryUsed) ∧
      ((oa₁.memoryHotspots.map (fun h => h.MemoryUsed)).Nodup →
        oa₁.memoryHotspots = oa₂.memoryHotspots) ∧
      ((c.slotBytes.map Prod.snd).Nodup → oa₁.topSlotsUsage = oa₂.topSlotsUsage) := by
  refine ⟨_, _, analysis_report R₁ c hc, analysis_report R₂ c hc,
    reportState_healthScore R₁ R₂ c, rfl, rfl, rfl, rfl, rfl,
    reportState_recommendations R₁ R₂ c, reportState_anomalies_perm R₁ R₂ c, ?_, ?_, ?_, ?_, ?_⟩
  · exact ((R₁.sortSlice_perm _ _).trans
      (hotspotList_perm c (R₁.mapRange_perm₂ R₂ _))).trans (R₂.sortSlice_perm _ _).symm
  · exact sortSlice_desc_values R₁ R₂ (fun h : MemoryHotspot => h.MemoryUsed) _ _
      (hotspotList_perm c (R₁.mapRange_perm₂ R₂ _))
  · show (((R₁.sortSlice (fun a b => decide (b.bytes < a.bytes))
        (slotList c (R₁.mapRange c.slotBytes))).take 10).map (slotUsageOf c)).map
          (fun u => u.MemoryUsed) =
      (((R₂.sortSlice (fun a b => decide (b.bytes < a.bytes))
        (slotList c (R₂.mapRange c.slotBytes))).take 10).map (slotUsageOf c)).map
          (fun u => u.MemoryUsed)
    have e : ∀ l : List slotInfo, ((l.take 10).map (slotUsageOf c)).map (fun u => u.MemoryUsed) =
        (l.map (fun s => s.bytes)).take 10 := by
      intro l
      rw [List.map_map, List.map_take]
      rfl
    have hp : (slotList c (R₁.mapRange c.slotBytes)).Perm (slotList c (R₂.mapRange c.slotBytes)) :=
      (R₁.mapRange_perm₂ R₂ c.slotBytes).map _
    rw [e, e, sortSlice_desc_values R₁ R₂ (fun s : slotInfo => s.bytes) _ _ hp]
  · intro hnd
    show R₁.sortSlice _ _ = R₂.sortSlice _ _
    refine sortSlice_unique R₁ R₂ _ (strictWeakOrder_desc (fun h : MemoryHotspot => h.MemoryUsed))
      _ _ (hotspotList_perm c (R₁.mapRange_perm₂ R₂ _)) ?_
    apply pairwise_lt_of_nodup (fun h : MemoryHotspot => h.MemoryUsed)
    exact (((R₁.sortSlice_perm (fun a b : MemoryHotspot => decide (b.MemoryUsed < a.MemoryUsed))
      (hotspotList c (R₁.mapRange c.typeBytes))).map (fun h => h.MemoryUsed)).nodup_iff).1 hnd
  · intro hnd
    show ((R₁.sortSlice (fun a b => decide (b.bytes < a.bytes))
        (slotList c (R₁.mapRange c.slotBytes))).take 10).map (slotUsageOf c) =
      ((R₂.sortSlice (fun a b => decide (b.bytes < a.bytes))
        (slotList c (R₂.mapRange c.slotBytes))).take 10).map (slotUsageOf c)
    have hp : (slotList c (R₁.mapRange c.slotBytes)).Perm (slotList c (R₂.mapRange c.slotBytes)) :=
      (R₁.mapRange_perm₂ R₂ c.slotBytes).map _
    have hnd' : ((slotList c (R₁.mapRange c.slotBytes)).map (fun s => s.bytes)).Nodup := by
      have h2 : (slotList c (R₁.mapRange c.slotBytes)).map (fun s => s.bytes) =
          (R₁.mapRange c.slotBytes).map Prod.snd := by
        unfold slotList
        rw [List.map_map]
        rfl
      rw [h2, ((R₁.mapRange_perm c.slotBytes).map Prod.snd).nodup_iff]
      exact hnd
    rw [sortSlice_unique R₁ R₂ _ (strictWeakOrder_desc (fun s : slotInfo => s.bytes)) _ _ hp
      (pairwise_lt_of_nodup (fun s : slotInfo => s.bytes) _ hnd')]

theorem tieCounter_wf : tieCounter.WF := by
  simp [Counter.WF, tieCounter]

/-- C18 at the sample snapshot, for the two runtimes. -/
theorem analysis_runs_agree_witness :
    sampleCounter.WF ∧
    ∃ oa₁ oa₂, NewOpsAnalyzer goRuntime sampleCounter = some oa₁ ∧
      NewOpsAnalyzer revRuntime sampleCounter = some oa₂ ∧
      oa₁.healthScore = oa₂.healthScore ∧ oa₁.totalKeys = oa₂.totalKeys ∧
      oa₁.totalBytes = oa₂.totalBytes ∧ oa₁.avgKeySize = oa₂.avgKeySize ∧
      oa₁.slotImbalance = oa₂.slotImbalance ∧ oa₁.keyPatterns = oa₂.keyPatterns ∧
      oa₁.recommendations = oa₂.recommendations ∧
      oa₁.anomalies.Perm oa₂.anomalies ∧ oa₁.memoryHotspots.Perm oa₂.memoryHotspots ∧
      oa₁.memoryHotspots.map (fun h => h.MemoryUsed) =
        oa₂.memoryHotspots.map (fun h => h.MemoryUsed) ∧
      oa₁.topSlotsUsage.map (fun u => u.MemoryUsed) =
        oa₂.topSlotsUsage.map (fun u => u.MemoryUsed) ∧
      ((oa₁.memoryHotspots.map (fun h => h.MemoryUsed)).Nodup →
        oa₁.memoryHotspots = oa₂.memoryHotspots) ∧
      ((sampleCounter.slotBytes.map Prod.snd).Nodup → oa₁.topSlotsUsage = oa₂.topSlotsUsage) :=
  ⟨sampleCounter_wf, analysis_runs_agree goRuntime revRuntime sampleCounter sampleCounter_wf⟩

/-- C18 as stated fails: the two types of this snapshot hold the same number of
bytes, and the report lists their hotspots in the order in which the per-type map is
visited. -/
theorem hotspot_order_counterexample :
    tieCounter.WF ∧
    ∃ oa₁ oa₂, NewOpsAnalyzer goRuntime tieCounter = some oa₁ ∧
      NewOpsAnalyzer revRuntime tieCounter = some oa₂ ∧
      oa₁.memoryHotspots.map (fun h => h.Identifier) = [goStr "string", goStr "hash"] ∧
      oa₂.memoryHotspots.map (fun h => h.Identifier) = [goStr "hash", goStr "string"] ∧
      oa₁.memoryHotspots ≠ oa₂.memoryHotspots := by
  have h1 : (generateRecommendations goRuntime (reportState goRuntime tieCounter)).memoryHotspots.map
      (fun h => h.Identifier) = [goStr "string", goStr "hash"] := by
    show (insertionSort (fun a b : MemoryHotspot => decide (b.MemoryUsed < a.MemoryUsed))
      (hotspotList tieCounter tieCounter.typeBytes)).map (fun h => h.Identifier) = _
    simp [insertionSort, insertBack, hotspotList, typeHotspot, tieCounter,
      Counter.GetLargestKeyPrefixes]
  have h2 : (generateRecommendations revRuntime (reportState revRuntime tieCounter)).memoryHotspots.map
      (fun h => h.Identifier) = [goStr "hash", goStr "string"] := by
    show (insertionSort (fun a b : MemoryHotspot => decide (b.MemoryUsed < a.MemoryUsed))
      (hotspotList tieCounter tieCounter.typeBytes.reverse)).map (fun h => h.Identifier) = _
    simp [insertionSort, insertBack, hotspotList, typeHotspot, tieCounter,
      Counter.GetLargestKeyPrefixes]
  refine ⟨tieCounter_wf, _, _, analysis_report goRuntime tieCounter tieCounter_wf,
    analysis_report revRuntime tieCounter tieCounter_wf, h1, h2, ?_⟩
  intro h
  rw [h, h2] at h1
  have : goStr "hash" ≠ goStr "string" := by decide
  exact this (List.head_eq_of_cons_eq h1)

/-! ## `HistoryManager.Add` -/

theorem HistoryManager.addLoop_split (entry e : HistoryEntry) (l₁ l₂ : List HistoryEntry)
    (h₁ : ∀ x ∈ l₁, x.Filename ≠ entry.Filename) (he : e.Filename = entry.Filename) :
    HistoryManager.addLoop entry (l₁ ++ e :: l₂) = some (l₁ ++ entry :: l₂) := by
  induction l₁ with
  | nil => simp [HistoryManager.addLoop, he]
  | cons x l₁ ih =>
    have hx : x.Filename ≠ entry.Filename := h₁ x (List.mem_cons_self _ _)
    have ih' := ih (fun y hy => h₁ y (List.mem_cons_of_mem _ hy))
    simp [HistoryManager.addLoop, hx, ih']

theorem HistoryManager.addLoop_none (entry : HistoryEntry) (l : List HistoryEntry)
    (h : ∀ x ∈ l, x.Filename ≠ entry.Filename) : HistoryManager.addLoop entry l = none := by
  induction l with
  | nil => rfl
  | cons x l ih =>
    have hx : x.Filename ≠ entry.Filename := h x (List.mem_cons_self _ _)
    simp [HistoryManager.addLoop, hx, ih (fun y hy => h y (List.mem_cons_of_mem _ hy))]

theorem HistoryManager.addLoop_some (entry : HistoryEntry) :
    ∀ (l l' : List HistoryEntry), HistoryManager.addLoop entry l = some l' →
      l'.length = l.length ∧
        l'.find? (fun e => decide (e.Filename = entry.Filename)) = some entry := by
  intro l
  induction l with
  | nil => intro l' h; simp [HistoryManager.addLoop] at h
  | cons x l ih =>
    intro l' h
    unfold HistoryManager.addLoop at h
    by_cases hx : x.Filename = entry.Filename
    · rw [if_pos hx] at h
      cases h
      simp
    · rw [if_neg hx] at h
      cases hr : HistoryManager.addLoop entry l with
      | none => rw [hr] at h; simp at h
      | some r =>
        rw [hr] at h
        simp only [Option.map_some', Option.some.injEq] at h
        subst h
        obtain ⟨h1, h2⟩ := ih r hr
        refine ⟨by simp [h1], ?_⟩
        rw [List.find?_cons_of_neg _ (by simpa using hx)]
        exact h2

/-- C21: `Add` on the entries in memory.  When the list is `l₁ ++ e :: l₂` with `e`
the first entry that has the file name of the new entry, the result is
`l₁ ++ entry :: l₂`; when no entry has that file name, the result is the new entry
followed by the previous entries, cut to the first 100.  A list of at most 100
entries stays so, a `Get` of the added file name returns the added entry, and the
path of the history file is unchanged. -/
theorem history_add_spec (hm : HistoryManager) (entry : HistoryEntry) :
    (∀ (l₁ l₂ : List HistoryEntry) (e : HistoryEntry), hm.entries = l₁ ++ e :: l₂ →
      (∀ x ∈ l₁, x.Filename ≠ entry.Filename) → e.Filename = entry.Filename →
      (hm.Add entry).entries = l₁ ++ entry :: l₂) ∧
    ((∀ x ∈ hm.entries, x.Filename ≠ entry.Filename) →
      (hm.Add entry).entries = (entry :: hm.entries).take 100) ∧
    (hm.entries.length ≤ 100 → (hm.Add entry).entries.length ≤ 100) ∧
    (hm.Add entry).Get entry.Filename = (entry, true) ∧
    (hm.Add entry).filePath = hm.filePath := by
  have hnone : HistoryManager.addLoop entry hm.entries = none →
      (hm.Add entry).entries = (entry :: hm.entries).take 100 := by
    intro h
    unfold HistoryManager.Add
    rw [h]
    simp only
    split
    · rfl
    · rw [List.take_of_length_le (by omega)]
  refine ⟨?_, ?_, ?_, ?_, ?_⟩
  · intro l₁ l₂ e hl h₁ he
    unfold HistoryManager.Add
    rw [hl, HistoryManager.addLoop_split entry e l₁ l₂ h₁ he]
  · intro h
    exact hnone (HistoryManager.addLoop_none entry _ h)
  · intro hlen
    cases hr : HistoryManager.addLoop entry hm.entries with
    | none =>
      rw [hnone hr, List.length_take]
      exact Nat.min_le_left _ _
    | some r =>
      unfold HistoryManager.Add
      rw [hr]
      simp only
      rw [(HistoryManager.addLoop_some entry _ r hr).1]
      exact hlen
  · cases hr : HistoryManager.addLoop entry hm.entries with
    | none =>
      unfold HistoryManager.Get
      rw [hnone hr]
      simp
    | some r =>
      unfold HistoryManager.Get HistoryManager.Add
      rw [hr]
      simp only
      rw [(HistoryManager.addLoop_some entry _ r hr).2]
  · unfold HistoryManager.Add
    cases HistoryManager.addLoop entry hm.entries <;> rfl

/-- C21 at a history of two entries: "b.rdb" is replaced at index 1, and "c.rdb" is
placed at index 0. -/
theorem history_add_spec_witness :
    (sampleHistory.entries =
        [sampleEntry (goStr "a.rdb") 1] ++ sampleEntry (goStr "b.rdb") 2 :: [] ∧
      (sampleHistory.Add (sampleEntry (goStr "b.rdb") 7)).entries =
        [sampleEntry (goStr "a.rdb") 1] ++ sampleEntry (goStr "b.rdb") 7 :: []) ∧
    ((∀ x ∈ sampleHistory.entries, x.Filename ≠ (sampleEntry (goStr "c.rdb") 3).Filename) ∧
      (sampleHistory.Add (sampleEntry (goStr "c.rdb") 3)).entries =
        (sampleEntry (goStr "c.rdb") 3 :: sampleHistory.entries).take 100) ∧
    (sampleHistory.entries.length ≤ 100 ∧
      (sampleHistory.Add (sampleEntry (goStr "c.rdb") 3)).entries.length ≤ 100) ∧
    (sampleHistory.Add (sampleEntry (goStr "c.rdb") 3)).Get (goStr "c.rdb") =
      (sampleEntry (goStr "c.rdb") 3, true) :=
  ⟨⟨rfl, (history_add_spec sampleHistory (sampleEntry (goStr "b.rdb") 7)).1
      [sampleEntry (goStr "a.rdb") 1] [] (sampleEntry (goStr "b.rdb") 2) rfl (by decide) rfl⟩,
    ⟨by decide, (history_add_spec sampleHistory (sampleEntry (goStr "c.rdb") 3)).2.1 (by decide)⟩,
    ⟨by decide, (history_add_spec sampleHistory (sampleEntry (goStr "c.rdb") 3)).2.2.1 (by decide)⟩,
    (history_add_spec sampleHistory (sampleEntry (goStr "c.rdb") 3)).2.2.2.1⟩

/-! ## `formatBytes` -/

/-- The loop of `formatBytes` runs `j ≤ k` times when `n < 1024 ^ (k + 1)`: it
multiplies `div` by `1024 ^ j` and adds `j` to `exp`, where `j` is the number with
`1024 ^ j ≤ n < 1024 ^ (j + 1)` (or `j = 0`). -/
theorem formatBytesLoop_spec (k : ℕ) : ∀ (n div exp : ℕ), n < 1024 ^ (k + 1) → div < 2 ^ 64 →
    ∃ j, j ≤ k ∧ formatBytesLoop n div exp = (div * 1024 ^ j % 2 ^ 64, exp + j) ∧
      n < 1024 ^ (j + 1) ∧ (j = 0 ∨ 1024 ^ j ≤ n) := by
  induction k with
  | zero =>
    intro n div exp hn hdiv
    refine ⟨0, le_rfl, ?_, hn, Or.inl rfl⟩
    rw [formatBytesLoop]
    simp only [zero_add, pow_one] at hn
    rw [if_neg (by omega)]
    simp only [pow_zero, mul_one, add_zero]
    rw [Nat.mod_eq_of_lt hdiv]
  | succ k ih =>
    intro n div exp hn hdiv
    by_cases h : 1024 ≤ n
    · have h1 : n / 1024 < 1024 ^ (k + 1) := by
        rw [Nat.div_lt_iff_lt_mul (by norm_num)]
        rw [pow_succ] at hn
        exact hn
      obtain ⟨j, hj, e, h2, h3⟩ := ih (n / 1024) (div * 1024 % 2 ^ 64) (exp + 1) h1
        (Nat.mod_lt _ (by norm_num))
      refine ⟨j + 1, by omega, ?_, ?_, Or.inr ?_⟩
      · rw [formatBytesLoop, if_pos h, e]
        refine Prod.ext ?_ (by simp only; omega)
        simp only
        rw [Nat.mod_mul_mod, pow_succ']
        ring_nf
      · rw [Nat.div_lt_iff_lt_mul (by norm_num)] at h2
        rw [pow_succ]
        exact h2
      · rcases h3 with rfl | h3
        · simpa using h
        · rw [pow_succ]
          exact (Nat.le_div_iff_mul_le (by norm_num)).1 h3
    · refine ⟨0, Nat.zero_le _, ?_, by simp only [zero_add, pow_one]; omega, Or.inl rfl⟩
      rw [formatBytesLoop, if_neg h]
      simp only [pow_zero, mul_one, add_zero]
      rw [Nat.mod_eq_of_lt hdiv]

/-- C23: for a `uint64` value, `formatBytes` returns.  Below 1024 it prints the
number of bytes.  From 1024 on its loop ends with `exp ≤ 5` and
`div = 1024 ^ (exp + 1)`, a value below `2 ^ 64` reached without wrapping, so that
`"KMGTPE"[exp]` is a character, and `div ≤ bytes < 1024 * div`. -/
theorem formatBytes_safe (bytes : ℕ) (h : bytes < 2 ^ 64) :
    (bytes < 1024 → formatBytes bytes = some [Piece.int bytes, Piece.lit " B"]) ∧
    (1024 ≤ bytes → ∃ exp c, exp ≤ 5 ∧
      formatBytesLoop (bytes / 1024) 1024 0 = (1024 ^ (exp + 1), exp) ∧
      1024 ^ (exp + 1) < 2 ^ 64 ∧ "KMGTPE".toList.get? exp = some c ∧
      formatBytes bytes =
        some [Piece.f1 (F64.div (F64.ofNat bytes) (F64.ofNat (1024 ^ (exp + 1)))), Piece.lit " ",
          Piece.chr c, Piece.lit "B"] ∧
      1024 ^ (exp + 1) ≤ bytes ∧ bytes < 1024 * 1024 ^ (exp + 1)) := by
  constructor
  · intro hlt
    unfold formatBytes
    rw [if_pos hlt]
  · intro hge
    have h1 : bytes / 1024 < 1024 ^ (5 + 1) := by
      rw [Nat.div_lt_iff_lt_mul (by norm_num)]
      refine lt_of_lt_of_le h ?_
      norm_num
    obtain ⟨j, hj, e, h2, h3⟩ := formatBytesLoop_spec 5 (bytes / 1024) 1024 0 h1 (by norm_num)
    have hpow : 1024 ^ (j + 1) < 2 ^ 64 := by
      have : 1024 ^ (j + 1) ≤ 1024 ^ (5 + 1) := Nat.pow_le_pow_right (by norm_num) (by omega)
      exact lt_of_le_of_lt this (by norm_num)
    have hdiv : 1024 * 1024 ^ j % 2 ^ 64 = 1024 ^ (j + 1) := by
      rw [← pow_succ']
      exact Nat.mod_eq_of_lt hpow
    rw [hdiv, zero_add] at e
    have hc : ∃ c, "KMGTPE".toList.get? j = some c := by
      have h3 : "KMGTPE".toList = ['K', 'M', 'G', 'T', 'P', 'E'] := by decide
      rw [h3]
      interval_cases j <;> exact ⟨_, rfl⟩
    obtain ⟨c, hc⟩ := hc
    refine ⟨j, c, hj, e, hpow, hc, ?_, ?_, ?_⟩
    · unfold formatBytes
      rw [if_neg (by omega), e]
      simp only [hc]
    · rcases h3 with rfl | h3
      · simpa using hge
      · have := (Nat.le_div_iff_mul_le (by norm_num)).1 h3
        rw [pow_succ]
        exact this
    · rw [Nat.div_lt_iff_lt_mul (by norm_num)] at h2
      rw [mul_comm]
      exact h2

/-- C23 at 500 bytes, at 60 MiB and at the largest `uint64`. -/
theorem formatBytes_safe_witness :
    ((500 : ℕ) < 2 ^ 64 ∧ (500 : ℕ) < 1024 ∧
      formatBytes 500 = some [Piece.int 500, Piece.lit " B"]) ∧
    ((62914560 : ℕ) < 2 ^ 64 ∧ 1024 ≤ (62914560 : ℕ) ∧
      ∃ exp c, exp ≤ 5 ∧
        formatBytesLoop (62914560 / 1024) 1024 0 = (1024 ^ (exp + 1), exp) ∧
        1024 ^ (exp + 1) < 2 ^ 64 ∧ "KMGTPE".toList.get? exp = some c ∧
        formatBytes 62914560 =
          some [Piece.f1 (F64.div (F64.ofNat 62914560) (F64.ofNat (1024 ^ (exp + 1)))),
            Piece.lit " ", Piece.chr c, Piece.lit "B"] ∧
        1024 ^ (exp + 1) ≤ 62914560 ∧ 62914560 < 1024 * 1024 ^ (exp + 1)) ∧
    ((2 ^ 64 - 1 : ℕ) < 2 ^ 64 ∧ 1024 ≤ (2 ^ 64 - 1 : ℕ) ∧
      ∃ exp c, exp ≤ 5 ∧
        formatBytesLoop ((2 ^ 64 - 1) / 1024) 1024 0 = (1024 ^ (exp + 1), exp) ∧
        1024 ^ (exp + 1) < 2 ^ 64 ∧ "KMGTPE".toList.get? exp = some c ∧
        formatBytes (2 ^ 64 - 1) =
          some [Piece.f1 (F64.div (F64.ofNat (2 ^ 64 - 1)) (F64.ofNat (1024 ^ (exp + 1)))),
            Piece.lit " ", Piece.chr c, Piece.lit "B"] ∧
        1024 ^ (exp + 1) ≤ 2 ^ 64 - 1 ∧ 2 ^ 64 - 1 < 1024 * 1024 ^ (exp + 1)) :=
  ⟨⟨by norm_num, by norm_num, (formatBytes_safe 500 (by norm_num)).1 (by norm_num)⟩,
    ⟨by norm_num, by norm_num, (formatBytes_safe 62914560 (by norm_num)).2 (by norm_num)⟩,
    ⟨by norm_num, by norm_num, (formatBytes_safe (2 ^ 64 - 1) (by norm_num)).2 (by norm_num)⟩⟩

/-! ## The median and the percentiles of `analyzeTypeEfficiency` -/

/-- The index `int(float64(n) * c)` as a floor of rounded values. -/
theorem percentileIndex_floor (n : ℕ) (hn : 0 < n) (hn2 : n ≤ 2 ^ 32) (c : ℚ) (hc0 : 0 ≤ c)
    (hc : c ≤ 127 / 128) :
    F64.toInt (F64.mul (F64.ofNat n) (F64.round c)) =
        some ⌊roundMag ((n : ℚ) * roundMag c)⌋ ∧
      0 ≤ ⌊roundMag ((n : ℚ) * roundMag c)⌋ ∧ ⌊roundMag ((n : ℚ) * roundMag c)⌋ < n := by
  have hB : roundMag (127 / 128 : ℚ) = 127 / 128 := by
    have := roundMag_dyadic 127 7 (by norm_num) (by norm_num)
    norm_num at this
    exact this
  obtain ⟨rc, h1, hrc, h2, h3⟩ := F64.round_within hc0 hc hB (by norm_num)
  rw [h1, F64.ofNat_small n (lt_of_le_of_lt hn2 (by norm_num))]
  subst hrc
  have hn' : (0 : ℚ) < n := by exact_mod_cast hn
  have hB2 : roundMag ((127 * n : ℕ) / 2 ^ 7 : ℚ) = ((127 * n : ℕ) / 2 ^ 7 : ℚ) :=
    roundMag_dyadic (127 * n) 7 (by
      have : 127 * n ≤ 127 * 2 ^ 32 := Nat.mul_le_mul_left _ hn2
      exact lt_of_le_of_lt this (by norm_num)) (by norm_num)
  have hle : (n : ℚ) * roundMag c ≤ ((127 * n : ℕ) / 2 ^ 7 : ℚ) := by
    push_cast
    have : (n : ℚ) * roundMag c ≤ n * (127 / 128) := mul_le_mul_of_nonneg_left h3 hn'.le
    linarith
  have hlt : ((127 * n : ℕ) / 2 ^ 7 : ℚ) < n := by
    push_cast
    linarith
  obtain ⟨r, h4, hr, h5, h6⟩ := F64.round_within (mul_nonneg hn'.le h2) hle hB2
    (lt_trans hlt (by
      have : (n : ℚ) ≤ ((2 ^ 32 : ℕ) : ℚ) := by exact_mod_cast hn2
      refine lt_of_le_of_lt this ?_
      norm_num))
  subst hr
  have hrn : roundMag ((n : ℚ) * roundMag c) < n := lt_of_le_of_lt h6 hlt
  have hf0 : 0 ≤ ⌊roundMag ((n : ℚ) * roundMag c)⌋ := Int.floor_nonneg.2 h5
  have hf1 : ⌊roundMag ((n : ℚ) * roundMag c)⌋ < (n : ℤ) := by
    rw [Int.floor_lt]
    exact_mod_cast hrn
  refine ⟨?_, hf0, hf1⟩
  show F64.toInt (F64.round ((n : ℚ) * roundMag c)) = _
  rw [h4]
  unfold F64.toInt
  simp only [if_pos h5]
  have hn3 : (n : ℤ) ≤ 2 ^ 32 := by exact_mod_cast hn2
  rw [if_pos ⟨by omega, by omega⟩]

theorem percentileIndex_mono (n : ℕ) (c c' : ℚ) (hc0 : 0 ≤ c) (hcc : c ≤ c') :
    ⌊roundMag ((n : ℚ) * roundMag c)⌋ ≤ ⌊roundMag ((n : ℚ) * roundMag c')⌋ := by
  apply Int.floor_le_floor
  apply roundMag_mono (mul_nonneg (Nat.cast_nonneg n) (roundMag_nonneg hc0))
  exact mul_le_mul_of_nonneg_left (roundMag_mono hc0 hcc) (Nat.cast_nonneg n)

theorem half_le_percentileIndex (n : ℕ) (hn2 : n ≤ 2 ^ 32) (c : ℚ) (hc : 1 / 2 ≤ c) :
    ((n / 2 : ℕ) : ℤ) ≤ ⌊roundMag ((n : ℚ) * roundMag c)⌋ := by
  rw [Int.le_floor]
  have h1 : (((n / 2 : ℕ) : ℤ) : ℚ) ≤ (n : ℚ) / 2 := by
    have := @Nat.cast_div_le ℚ _ n 2
    push_cast at this ⊢
    exact this
  have h2 : roundMag ((n : ℚ) / 2) = (n : ℚ) / 2 := by
    have := roundMag_dyadic n 1 (lt_of_le_of_lt hn2 (by norm_num)) (by norm_num)
    simpa using this
  have h3 : (1 / 2 : ℚ) ≤ roundMag c := by
    have := roundMag_mono (by norm_num : (0 : ℚ) ≤ 1 / 2) hc
    rwa [roundMag_half] at this
  have h4 : (n : ℚ) / 2 ≤ (n : ℚ) * roundMag c := by
    have := mul_le_mul_of_nonneg_left h3 (Nat.cast_nonneg n : (0 : ℚ) ≤ n)
    linarith
  have h5 := roundMag_mono (div_nonneg (Nat.cast_nonneg n) (by norm_num : (0 : ℚ) ≤ 2)) h4
  rw [h2] at h5
  exact le_trans h1 h5

theorem sortedSizes_sorted (l : List ℕ) : List.Sorted (· ≤ ·) (sortedSizes l) := by
  have hswo : StrictWeakOrder (fun a b : ℕ => decide (a < b)) := by
    refine ⟨?_, ?_, ?_⟩
    · intro a; simp
    · intro a b c h1 h2
      simp only [decide_eq_true_eq] at *
      omega
    · intro a b c h1 h2
      simp only [decide_eq_false_iff_not] at *
      omega
  refine List.Pairwise.imp ?_ (goRuntime.sortSlice_sorted (fun a b => decide (a < b)) l hswo)
  intro a b hab
  simpa using hab

/-- In a sorted sample the recorded median and percentiles are elements of the
sample, in increasing order, between its first and last element. -/
theorem typeStats_order (typ : GoString) (s : List ℕ) (h0 : s ≠ []) (hlen : s.length ≤ 2 ^ 32)
    (hs : List.Sorted (· ≤ ·) s) :
    ∃ mn mx, mn ∈ s ∧ mx ∈ s ∧ (∀ x ∈ s, mn ≤ x ∧ x ≤ mx) ∧
      mn ≤ (typeStats typ s).MedianSize ∧
      (typeStats typ s).MedianSize ≤ (typeStats typ s).P95Size ∧
      (typeStats typ s).P95Size ≤ (typeStats typ s).P99Size ∧
      (typeStats typ s).P99Size ≤ mx ∧
      (typeStats typ s).MedianSize ∈ s ∧ (typeStats typ s).P95Size ∈ s ∧
      (typeStats typ s).P99Size ∈ s := by
  have hpos : 0 < s.length := List.length_pos.2 h0
  have hmed : s.length / 2 < s.length := Nat.div_lt_self hpos (by norm_num)
  obtain ⟨e95, a95, b95⟩ :=
    percentileIndex_floor s.length hpos hlen (95 / 100) (by norm_num) (by norm_num)
  obtain ⟨e99, a99, b99⟩ :=
    percentileIndex_floor s.length hpos hlen (99 / 100) (by norm_num) (by norm_num)
  have m1 := half_le_percentileIndex s.length hlen (95 / 100) (by norm_num)
  have m2 := percentileIndex_mono s.length (95 / 100) (99 / 100) (by norm_num) (by norm_num)
  generalize ⌊roundMag ((s.length : ℚ) * roundMag (95 / 100))⌋ = i95 at e95 a95 b95 m1 m2
  generalize ⌊roundMag ((s.length : ℚ) * roundMag (99 / 100))⌋ = i99 at e99 a99 b99 m2
  have c95 : i95.toNat < s.length := by omega
  have c99 : i99.toNat < s.length := by omega
  have hM : (typeStats typ s).MedianSize = s.get ⟨s.length / 2, hmed⟩ := by
    show (s.get? (s.length / 2)).getD 0 = _
    rw [List.get?_eq_get hmed]
    rfl
  have h95 : (typeStats typ s).P95Size = s.get ⟨i95.toNat, c95⟩ := by
    show ((F64.toInt (F64.mul (F64.ofNat s.length) (F64.round (95 / 100)))).bind
      (sliceIndex s)).getD 0 = _
    rw [e95, Option.some_bind]
    unfold sliceIndex
    rw [if_pos a95, List.get?_eq_get c95]
    rfl
  have h99 : (typeStats typ s).P99Size = s.get ⟨i99.toNat, c99⟩ := by
    show ((F64.toInt (F64.mul (F64.ofNat s.length) (F64.round (99 / 100)))).bind
      (sliceIndex s)).getD 0 = _
    rw [e99, Option.some_bind]
    unfold sliceIndex
    rw [if_pos a99, List.get?_eq_get c99]
    rfl
  rw [hM, h95, h99]
  have hle : ∀ (a b : ℕ) (ha : a < s.length) (hb : b < s.length), a ≤ b →
      s.get ⟨a, ha⟩ ≤ s.get ⟨b, hb⟩ := by
    intro a b ha hb hab
    exact hs.rel_get_of_le (a := ⟨a, ha⟩) (b := ⟨b, hb⟩) hab
  have hlast : s.length - 1 < s.length := by omega
  refine ⟨s.get ⟨0, hpos⟩, s.get ⟨s.length - 1, hlast⟩, List.get_mem _ _ _, List.get_mem _ _ _,
    ?_, hle _ _ _ _ (Nat.zero_le _), hle _ _ _ _ (by omega), hle _ _ _ _ (by omega),
    hle _ _ _ _ (by omega), List.get_mem _ _ _, List.get_mem _ _ _, List.get_mem _ _ _⟩
  intro x hx
  obtain ⟨k, rfl⟩ := List.mem_iff_get.1 hx
  exact ⟨hle _ _ _ k.2 (Nat.zero_le _), hle _ _ k.2 _ (by have := k.2; omega)⟩

/-- C22: for every type present among the 500 sampled entries,
`analyzeTypeEfficiency` returns and the record it leaves for the type has
`min ≤ MedianSize ≤ P95Size ≤ P99Size ≤ max`, where `min` and `max` are the smallest
and the largest sampled size of the type; the three values are sampled sizes of the
type. -/
theorem percentiles_ordered (R : Runtime) (oa : OpsAnalyzer) (typ : GoString)
    (hmem : ∃ e ∈ oa.counter.GetLargestEntries 500, e.Type_ = typ) :
    ∃ oa', analyzeTypeEfficiency R oa = some oa' ∧
      (∃ te, (typ, te) ∈ oa'.typeEfficiency) ∧
      ∀ te, (typ, te) ∈ oa'.typeEfficiency →
        ∃ mn mx,
          mn ∈ ((oa.counter.GetLargestEntries 500).filter
            (fun e => decide (e.Type_ = typ))).map (fun e => e.Bytes) ∧
          mx ∈ ((oa.counter.GetLargestEntries 500).filter
            (fun e => decide (e.Type_ = typ))).map (fun e => e.Bytes) ∧
          (∀ x ∈ ((oa.counter.GetLargestEntries 500).filter
            (fun e => decide (e.Type_ = typ))).map (fun e => e.Bytes), mn ≤ x ∧ x ≤ mx) ∧
          mn ≤ te.MedianSize ∧ te.MedianSize ≤ te.P95Size ∧ te.P95Size ≤ te.P99Size ∧
          te.P99Size ≤ mx ∧
          te.MedianSize ∈ ((oa.counter.GetLargestEntries 500).filter
            (fun e => decide (e.Type_ = typ))).map (fun e => e.Bytes) ∧
          te.P95Size ∈ ((oa.counter.GetLargestEntries 500).filter
            (fun e => decide (e.Type_ = typ))).map (fun e => e.Bytes) ∧
          te.P99Size ∈ ((oa.counter.GetLargestEntries 500).filter
            (fun e => decide (e.Type_ = typ))).map (fun e => e.Bytes) := by
  refine ⟨_, analyzeTypeEfficiency_eq R oa, ?_⟩
  simp only
  obtain ⟨hnd, hcontent, hcover⟩ := groupByType_spec (oa.counter.GetLargestEntries 500)
  have hbounds := sizeGroups_bounds R oa.counter
  obtain ⟨e, he, het⟩ := hmem
  obtain ⟨p, hp, hpt⟩ := hcover e he
  have hp' : p ∈ R.mapRange (groupByType (oa.counter.GetLargestEntries 500)) :=
    (R.mapRange_perm _).mem_iff.2 hp
  constructor
  · obtain ⟨q, hq, hqk⟩ := foldl_mapSet_key
      (fun p : GoString × List ℕ => typeStats p.1 (sortedSizes p.2))
      (R.mapRange (groupByType (oa.counter.GetLargestEntries 500))) oa.typeEfficiency typ
      (Or.inr ⟨p, hp', by rw [hpt, het]⟩)
    exact ⟨q.2, by rw [← hqk]; exact hq⟩
  · intro te hte
    rcases foldl_mapSet_mem _ _ _ _ hte with ⟨-, h2⟩ | ⟨q, hq, hqe⟩
    · exact absurd (by rw [hpt, het]) (h2 p hp')
    · have hqt : q.1 = typ := (congrArg Prod.fst hqe).symm
      have hte2 : te = typeStats q.1 (sortedSizes q.2) := congrArg Prod.snd hqe
      have hq' := (R.mapRange_perm _).mem_iff.1 hq
      have hq2 := (hcontent q hq').1
      rw [hqt] at hq2
      obtain ⟨hne, hlen⟩ := hbounds q hq
      have hperm := sortedSizes_perm q.2
      have hne' : sortedSizes q.2 ≠ [] := by
        intro h
        rw [h] at hperm
        exact hne (List.perm_nil.1 hperm.symm)
      obtain ⟨mn, mx, a1, a2, a3, a4, a5, a6, a7, a8, a9, a10⟩ :=
        typeStats_order q.1 (sortedSizes q.2) hne' (by rw [hperm.length_eq]; exact hlen)
          (sortedSizes_sorted q.2)
      rw [← hte2] at a4 a5 a6 a7 a8 a9 a10
      rw [← hq2]
      exact ⟨mn, mx, hperm.mem_iff.1 a1, hperm.mem_iff.1 a2,
        fun x hx => a3 x (hperm.mem_iff.2 hx), a4, a5, a6, a7, hperm.mem_iff.1 a8,
        hperm.mem_iff.1 a9, hperm.mem_iff.1 a10⟩

theorem sampleCounter_strings :
    ∃ e ∈ (newState sampleCounter).counter.GetLargestEntries 500, e.Type_ = goStr "string" :=
  ⟨{ Key := goStr "big", Type_ := goStr "string", Bytes := 62914560, NumOfElem := 0 },
    by simp [Counter.GetLargestEntries, newState, sampleCounter], rfl⟩

/-- C22 at the sample snapshot, for its two strings of 60 MiB and 20 MiB. -/
theorem percentiles_ordered_witness :
    (∃ e ∈ (newState sampleCounter).counter.GetLargestEntries 500, e.Type_ = goStr "string") ∧
    ∃ oa', analyzeTypeEfficiency goRuntime (newState sampleCounter) = some oa' ∧
      (∃ te, (goStr "string", te) ∈ oa'.typeEfficiency) ∧
      ∀ te, (goStr "string", te) ∈ oa'.typeEfficiency →
        ∃ mn mx,
          mn ∈ (((newState sampleCounter).counter.GetLargestEntries 500).filter
            (fun e => decide (e.Type_ = goStr "string"))).map (fun e => e.Bytes) ∧
          mx ∈ (((newState sampleCounter).counter.GetLargestEntries 500).filter
            (fun e => decide (e.Type_ = goStr "string"))).map (fun e => e.Bytes) ∧
          (∀ x ∈ (((newState sampleCounter).counter.GetLargestEntries 500).filter
            (fun e => decide (e.Type_ = goStr "string"))).map (fun e => e.Bytes),
              mn ≤ x ∧ x ≤ mx) ∧
          mn ≤ te.MedianSize ∧ te.MedianSize ≤ te.P95Size ∧ te.P95Size ≤ te.P99Size ∧
          te.P99Size ≤ mx ∧
          te.MedianSize ∈ (((newState sampleCounter).counter.GetLargestEntries 500).filter
            (fun e => decide (e.Type_ = goStr "string"))).map (fun e => e.Bytes) ∧
          te.P95Size ∈ (((newState sampleCounter).counter.GetLargestEntries 500).filter
            (fun e => decide (e.Type_ = goStr "string"))).map (fun e => e.Bytes) ∧
          te.P99Size ∈ (((newState sampleCounter).counter.GetLargestEntries 500).filter
            (fun e => decide (e.Type_ = goStr "string"))).map (fun e => e.Bytes) :=
  ⟨sampleCounter_strings,
    percentiles_ordered goRuntime (newState sampleCounter) (goStr "string") sampleCounter_strings⟩

end Dump
